import Mathlib

/-!
# MagnaChain: branch-chain transaction index and script template classifier

A shallow embedding of

* `src/chain/branchtxdb.cpp`: the write-back cache `BranchChainTxRecordsCache`
  and the persistent index `BranchChainTxRecordsDb` (point reads and `Flush`);
* `src/script/standard.cpp`: the script classifier `Solver`.

Hashes (`uint256`) are natural numbers, a `std::vector` is a `List`, a
`std::map` is an association list kept in strictly increasing key order, and
an in/out reference parameter is an argument together with a component of the
result.
-/

namespace MagnaChain

/-! ## Data model of the index -/

/-- A 256-bit hash, as a number. -/
abbrev uint256 := Nat

/-- The pending flag of a staged entry (`DbDataFlag`). -/
inductive DbDataFlag where
  | eADD
  | eDELETE
  deriving DecidableEq, Repr

/-- The branch creation info embedded in a branch-transaction record
(`createchaininfo`): creating transaction, seed material, containing block. -/
structure BranchCreateInfo where
  txid : uint256
  branchSeedSpec6 : List Nat
  branchVSeeds : List Nat
  blockhash : uint256
  deriving DecidableEq, Repr

/-- Modelled from the spec: `operator==` of the creation-info type is declared
in `branchtxdb.h`, which is not among the sources. The spec gives the identity
of a creation info as its transaction id ("dedup by transaction id"), so two
infos compare equal when their `txid` agree. -/
def BranchCreateInfo.same (a b : BranchCreateInfo) : Bool :=
  a.txid == b.txid

/-- The record staged and stored for a branch transaction. -/
structure BranchChainTxInfo where
  blockhash : uint256
  txindex : Nat
  txnVersion : Int
  createchaininfo : BranchCreateInfo
  flags : DbDataFlag
  deriving DecidableEq, Repr

/-- The receipt record of a step-2 cross-chain transaction. -/
structure BranchChainTxRecvInfo where
  blockhash : uint256
  flags : DbDataFlag
  deriving DecidableEq, Repr

/-- One lock/unlock report on a mortgaged coin. -/
structure CoinReportInfo where
  reporttxid : uint256
  flags : DbDataFlag
  deriving DecidableEq, Repr

/-- What the index reads of a transaction (`MCTransaction`, declared outside
the sources): its hash, its version, the predicates the transaction model
supplies, and the fields copied into the records. -/
structure MCTransaction where
  hash : uint256
  nVersion : Int
  isPregnantTx : Bool
  isBranchCreate : Bool
  isBranchChainTransStep2 : Bool
  isLockMortgageMineCoin : Bool
  isUnLockMortgageMineCoin : Bool
  branchSeedSpec6 : List Nat
  branchVSeeds : List Nat
  coinpreouthash : uint256
  reporttxid : uint256
  deriving DecidableEq, Repr

/-- What the index reads of a block: its hash. -/
structure MCBlock where
  hash : uint256
  deriving DecidableEq, Repr

/-! ## `std::map` as a key-ordered association list -/

/-- The effect of `m[k]` followed by an update `f` of the referenced value:
the entry of `k` is updated in place, or a default-constructed value is
inserted at the position the key order gives it and then updated. -/
def mapModify {V : Type} (dflt : V) (f : V → V) (k : uint256) :
    List (uint256 × V) → List (uint256 × V)
  | [] => [(k, f dflt)]
  | (k', v) :: rest =>
    if k < k' then (k, f dflt) :: (k', v) :: rest
    else if k = k' then (k', f v) :: rest
    else (k', v) :: mapModify dflt f k rest

/-- Lookup in a map. -/
def mapFind {V : Type} (k : uint256) : List (uint256 × V) → Option V
  | [] => none
  | (k', v) :: rest => if k = k' then some v else mapFind k rest

/-- The keys of a map are strictly increasing (what `std::map` maintains). -/
def mapSorted {V : Type} (m : List (uint256 × V)) : Prop :=
  (m.map Prod.fst).Pairwise (· < ·)

instance {V : Type} (m : List (uint256 × V)) : Decidable (mapSorted m) := by
  unfold mapSorted; infer_instance

/-! ## The write-back cache -/

/-- The three staged maps of `BranchChainTxRecordsCache`. The record-kind byte
of a `BranchChainTxEntry` key is constant within each of the first two maps
(`DB_BRANCH_CHAIN_TX_DATA`, `DB_BRANCH_CHAIN_RECV_TX_DATA`), so they are keyed
by the transaction id. -/
structure BranchChainTxRecordsCache where
  m_mapChainTxInfos : List (uint256 × BranchChainTxInfo)
  m_mapRecvRecord : List (uint256 × BranchChainTxRecvInfo)
  m_mapCoinBeReport : List (uint256 × List CoinReportInfo)
  deriving DecidableEq, Repr

/-- Every map of the cache is a `std::map`: keys strictly increasing. -/
def BranchChainTxRecordsCache.WF (c : BranchChainTxRecordsCache) : Prop :=
  mapSorted c.m_mapChainTxInfos ∧ mapSorted c.m_mapRecvRecord ∧
    mapSorted c.m_mapCoinBeReport

instance (c : BranchChainTxRecordsCache) : Decidable c.WF := by
  unfold BranchChainTxRecordsCache.WF; infer_instance

/-- The cache with nothing staged. -/
def emptyCache : BranchChainTxRecordsCache := ⟨[], [], []⟩

/-- Source: `BranchChainTxRecordsCache::AddBranchChainTxRecord`. `dflt` is the
default-constructed `BranchChainTxInfo` that `m_mapChainTxInfos[key]` inserts
for a new key (the type is declared outside the sources). -/
def AddBranchChainTxRecord (dflt : BranchChainTxInfo) (cache : BranchChainTxRecordsCache)
    (tx : MCTransaction) (blockhash : uint256) (txindex : Nat) :
    BranchChainTxRecordsCache :=
  if !tx.isPregnantTx && !tx.isBranchCreate then cache
  else
    { cache with
      m_mapChainTxInfos :=
        mapModify dflt
          (fun sendinfo =>
            { blockhash := blockhash
              txindex := txindex
              txnVersion := tx.nVersion
              createchaininfo :=
                if tx.isBranchCreate then
                  { txid := tx.hash
                    branchSeedSpec6 := tx.branchSeedSpec6
                    branchVSeeds := tx.branchVSeeds
                    blockhash := blockhash }
                else sendinfo.createchaininfo
              flags := DbDataFlag.eADD })
          tx.hash cache.m_mapChainTxInfos }

/-- Source: `BranchChainTxRecordsCache::DelBranchChainTxRecord`. Only the
creation info's id and seeds and the flag are assigned; block hash, index and
`txnVersion` keep the value of the referenced entry. -/
def DelBranchChainTxRecord (dflt : BranchChainTxInfo) (cache : BranchChainTxRecordsCache)
    (tx : MCTransaction) : BranchChainTxRecordsCache :=
  if !tx.isPregnantTx && !tx.isBranchCreate then cache
  else
    { cache with
      m_mapChainTxInfos :=
        mapModify dflt
          (fun sendinfo =>
            { sendinfo with
              createchaininfo :=
                if tx.isBranchCreate then
                  { sendinfo.createchaininfo with
                    txid := tx.hash
                    branchSeedSpec6 := tx.branchSeedSpec6
                    branchVSeeds := tx.branchVSeeds }
                else sendinfo.createchaininfo
              flags := DbDataFlag.eDELETE })
          tx.hash cache.m_mapChainTxInfos }

/-- Source: `BranchChainTxRecordsCache::AddBranchChainRecvTxRecord`.
`GetOriTxHash` is the transaction pool's origin lookup, `dflt` the
default-constructed receipt record. -/
def AddBranchChainRecvTxRecord (GetOriTxHash : MCTransaction → uint256)
    (dflt : BranchChainTxRecvInfo) (cache : BranchChainTxRecordsCache)
    (tx : MCTransaction) (blockhash : uint256) : BranchChainTxRecordsCache :=
  if tx.isBranchChainTransStep2 == false then cache
  else
    { cache with
      m_mapRecvRecord :=
        mapModify dflt
          (fun _ => { blockhash := blockhash, flags := DbDataFlag.eADD })
          (GetOriTxHash tx) cache.m_mapRecvRecord }

/-- Source: `BranchChainTxRecordsCache::DelBranchChainRecvTxRecord`. -/
def DelBranchChainRecvTxRecord (GetOriTxHash : MCTransaction → uint256)
    (dflt : BranchChainTxRecvInfo) (cache : BranchChainTxRecordsCache)
    (tx : MCTransaction) : BranchChainTxRecordsCache :=
  if tx.isBranchChainTransStep2 == false then cache
  else
    { cache with
      m_mapRecvRecord :=
        mapModify dflt
          (fun data => { data with flags := DbDataFlag.eDELETE })
          (GetOriTxHash tx) cache.m_mapRecvRecord }

/-- The loop `for (CoinReportInfo& info : vec) if (info.reporttxid == id)
{ info.flags = fl; return; }`: `some` of the updated vector when an entry was
found (the function returns), `none` when the loop ran to its end. -/
def setReportFlag (id : uint256) (fl : DbDataFlag) :
    List CoinReportInfo → Option (List CoinReportInfo)
  | [] => none
  | info :: rest =>
    if info.reporttxid = id then some ({ info with flags := fl } :: rest)
    else (setReportFlag id fl rest).map (info :: ·)

/-- One branch of `UpdateLockMineCoin`: the vector after the loop and the
`push_back`, and whether the loop found the report. -/
def stageReportVec (id : uint256) (fl : DbDataFlag) (vec : List CoinReportInfo) :
    List CoinReportInfo :=
  match setReportFlag id fl vec with
  | some vec' => vec'
  | none => vec ++ [⟨id, fl⟩]

/-- One branch of `UpdateLockMineCoin` on the cache; the Boolean tells whether
the branch executed `return`. -/
def stageReport (cache : BranchChainTxRecordsCache) (ptx : MCTransaction)
    (fl : DbDataFlag) : BranchChainTxRecordsCache × Bool :=
  ({ cache with
      m_mapCoinBeReport :=
        mapModify [] (stageReportVec ptx.reporttxid fl) ptx.coinpreouthash
          cache.m_mapCoinBeReport },
    ((mapFind ptx.coinpreouthash cache.m_mapCoinBeReport).getD []).any
      (fun info => info.reporttxid == ptx.reporttxid))

/-- The two consecutive `if` statements of one arm of `UpdateLockMineCoin`:
the lock branch with flag `fLock`, then, unless the first returned, the unlock
branch with flag `fUnlock`. -/
def updateArm (cache : BranchChainTxRecordsCache) (ptx : MCTransaction)
    (fLock fUnlock : DbDataFlag) : BranchChainTxRecordsCache :=
  let r1 := if ptx.isLockMortgageMineCoin then stageReport cache ptx fLock else (cache, false)
  if r1.2 then r1.1
  else if ptx.isUnLockMortgageMineCoin then (stageReport r1.1 ptx fUnlock).1
  else r1.1

/-- Source: `BranchChainTxRecordsCache::UpdateLockMineCoin`. -/
def UpdateLockMineCoin (cache : BranchChainTxRecordsCache) (ptx : MCTransaction)
    (fBlockConnect : Bool) : BranchChainTxRecordsCache :=
  if fBlockConnect then updateArm cache ptx DbDataFlag.eADD DbDataFlag.eDELETE
  else updateArm cache ptx DbDataFlag.eDELETE DbDataFlag.eADD

/-! ## The persistent store -/

/-- Modelled from the spec: the key-value store `MCDBWrapper` (`m_db`) is an
external collaborator whose code is not among the sources. The spec gives it
`Read(key) -> value | absent`, `Write(key, value)`, `Erase(key)`. The key's
record-kind byte selects one of four tables: branch-transaction records,
receipt records, the created-branches list (`DB_BRANCH_CHAIN_LIST`) and the
coin-report lists (`MineCoinEntry`). -/
structure MCDBWrapper where
  txData : uint256 → Option BranchChainTxInfo
  recvData : uint256 → Option BranchChainTxRecvInfo
  branchList : Option (List BranchCreateInfo)
  mineCoin : uint256 → Option (List CoinReportInfo)

/-- The store holding no key. -/
def emptyStore : MCDBWrapper :=
  ⟨fun _ => none, fun _ => none, none, fun _ => none⟩

/-- Modelled from the spec: one operation recorded in a batch object
(`MCDBBatch::Write` / `MCDBBatch::Erase`), by the kind of its key. -/
inductive BatchOp where
  | writeTx (k : uint256) (v : BranchChainTxInfo)
  | eraseTx (k : uint256)
  | writeRecv (k : uint256) (v : BranchChainTxRecvInfo)
  | eraseRecv (k : uint256)
  | writeList (l : List BranchCreateInfo)
  deriving DecidableEq, Repr

/-- Modelled from the spec: the effect of one batched operation on the store. -/
def applyOp (s : MCDBWrapper) : BatchOp → MCDBWrapper
  | .writeTx k v => { s with txData := fun k' => if k' = k then some v else s.txData k' }
  | .eraseTx k => { s with txData := fun k' => if k' = k then none else s.txData k' }
  | .writeRecv k v => { s with recvData := fun k' => if k' = k then some v else s.recvData k' }
  | .eraseRecv k => { s with recvData := fun k' => if k' = k then none else s.recvData k' }
  | .writeList l => { s with branchList := some l }

/-- Modelled from the spec: `WriteBatch(batch) -> success`. A successful
commit applies the operations of the batch in order; a failed commit leaves
the store as it was. -/
def WriteBatch (ok : Bool) (s : MCDBWrapper) (batch : List BatchOp) : MCDBWrapper :=
  if ok then batch.foldl applyOp s else s

/-- Modelled from the spec: the direct `Write` of a coin-report list. -/
def writeMineCoin (s : MCDBWrapper) (k : uint256) (v : List CoinReportInfo) : MCDBWrapper :=
  { s with mineCoin := fun k' => if k' = k then some v else s.mineCoin k' }

/-- Modelled from the spec: the direct `Erase` of a coin-report list. -/
def eraseMineCoin (s : MCDBWrapper) (k : uint256) : MCDBWrapper :=
  { s with mineCoin := fun k' => if k' = k then none else s.mineCoin k' }

/-- The state of `BranchChainTxRecordsDb`: the store and the in-memory list of
created branches. -/
structure BranchChainTxRecordsDb where
  m_db : MCDBWrapper
  m_vCreatedBranchTxs : List BranchCreateInfo

/-- What `Flush` takes from its environment: the `-dbbatchsize` threshold, the
batch's `SizeEstimate`, the outcome of the k-th `WriteBatch` call of the flush
(counted from 0), and the constant `MCTransaction::CREATE_BRANCH_VERSION`. -/
structure FlushEnv where
  batch_size : Nat
  SizeEstimate : List BatchOp → Nat
  commitOk : Nat → Bool
  CREATE_BRANCH_VERSION : Int

/-- The local state of the two batching loops of `Flush`. -/
structure FlushState where
  store : MCDBWrapper
  batch : List BatchOp
  nCommits : Nat
  created : List BranchCreateInfo
  bCreatedChainTxChanged : Bool

/-- The intermediate commit `if (batch.SizeEstimate() > batch_size)
{ m_db.WriteBatch(batch); batch.Clear(); }`. -/
def commitIfLarge (env : FlushEnv) (st : FlushState) : FlushState :=
  if env.SizeEstimate st.batch > env.batch_size then
    { st with
      store := WriteBatch (env.commitOk st.nCommits) st.store st.batch
      batch := []
      nCommits := st.nCommits + 1 }
  else st

/-- The loop `for (it = begin; it != end; it++) if (it->txid == id)
{ erase(it); break; }`: the list without its first entry of that id, or
`none` when there is no such entry. -/
def eraseCreated (id : uint256) : List BranchCreateInfo → Option (List BranchCreateInfo)
  | [] => none
  | it :: rest =>
    if it.txid = id then some rest
    else (eraseCreated id rest).map (it :: ·)

/-- The update of the created-branches list for one staged entry. -/
def updateCreated (env : FlushEnv) (st : FlushState) (txinfo : BranchChainTxInfo) :
    FlushState :=
  if txinfo.txnVersion = env.CREATE_BRANCH_VERSION then
    match txinfo.flags with
    | .eADD =>
      if st.created.any (fun v => v.same txinfo.createchaininfo) then st
      else { st with
             created := st.created ++ [txinfo.createchaininfo]
             bCreatedChainTxChanged := true }
    | .eDELETE =>
      match eraseCreated txinfo.createchaininfo.txid st.created with
      | some l => { st with created := l, bCreatedChainTxChanged := true }
      | none => st
  else st

/-- The batched operation of one entry of `m_mapChainTxInfos`:
`if (flags == eADD) batch.Write(key, info); else if (flags == eDELETE)
batch.Erase(key);`. -/
def txOp (e : uint256 × BranchChainTxInfo) : BatchOp :=
  match e.2.flags with
  | .eADD => BatchOp.writeTx e.1 e.2
  | .eDELETE => BatchOp.eraseTx e.1

/-- The batched operation of one entry of `m_mapRecvRecord`. -/
def recvOp (e : uint256 × BranchChainTxRecvInfo) : BatchOp :=
  match e.2.flags with
  | .eADD => BatchOp.writeRecv e.1 e.2
  | .eDELETE => BatchOp.eraseRecv e.1

/-- The body of the first loop of `Flush`, for one entry of
`m_mapChainTxInfos`. -/
def flushTxEntry (env : FlushEnv) (st : FlushState) (e : uint256 × BranchChainTxInfo) :
    FlushState :=
  let st1 : FlushState := { st with batch := st.batch ++ [txOp e] }
  updateCreated env (commitIfLarge env st1) e.2

/-- The body of the second loop of `Flush`, for one entry of
`m_mapRecvRecord`. -/
def flushRecvEntry (env : FlushEnv) (st : FlushState) (e : uint256 × BranchChainTxRecvInfo) :
    FlushState :=
  let st1 : FlushState := { st with batch := st.batch ++ [recvOp e] }
  commitIfLarge env st1

/-- The inner loop of the merge, for one staged report `nv`: `some` of the
vector after `found = true; break;` (the entry erased for a staged delete,
kept for a staged add), `none` when no entry has the id of `nv`. -/
def mergeFound (nv : CoinReportInfo) : List CoinReportInfo → Option (List CoinReportInfo)
  | [] => none
  | it :: rest =>
    if it.reporttxid = nv.reporttxid then
      some (match nv.flags with
            | .eDELETE => rest
            | .eADD => it :: rest)
    else (mergeFound nv rest).map (it :: ·)

/-- The merge of one staged report into the vector read from the store. -/
def mergeReport (vecDb : List CoinReportInfo) (nv : CoinReportInfo) : List CoinReportInfo :=
  match mergeFound nv vecDb with
  | some v => v
  | none =>
    match nv.flags with
    | .eADD => vecDb ++ [nv]
    | .eDELETE => vecDb

/-- The vector `vecDb` at the write-back of one coin: the merge runs only
inside `if (m_db.Read(key, vecDb))`; when the key is absent `vecDb` stays
empty. -/
def mergedVec (s : MCDBWrapper) (e : uint256 × List CoinReportInfo) : List CoinReportInfo :=
  match s.mineCoin e.1 with
  | some vecDb => e.2.foldl mergeReport vecDb
  | none => []

/-- The body of the third loop of `Flush`, for one entry of
`m_mapCoinBeReport`. -/
def flushCoinEntry (s : MCDBWrapper) (e : uint256 × List CoinReportInfo) : MCDBWrapper :=
  let vecDb := mergedVec s e
  if vecDb.length > 0 then writeMineCoin s e.1 vecDb
  else eraseMineCoin s e.1

/-- The state of `Flush` after the two batching loops and the staging of the
created-branches list, before the final commit. -/
def flushBatched (env : FlushEnv) (db : BranchChainTxRecordsDb)
    (cache : BranchChainTxRecordsCache) : FlushState :=
  let st0 : FlushState := ⟨db.m_db, [], 0, db.m_vCreatedBranchTxs, false⟩
  let st1 := cache.m_mapChainTxInfos.foldl (flushTxEntry env) st0
  let st2 := cache.m_mapRecvRecord.foldl (flushRecvEntry env) st1
  if st2.bCreatedChainTxChanged then
    { st2 with batch := st2.batch ++ [BatchOp.writeList st2.created] }
  else st2

/-- The local `bool ret = m_db.WriteBatch(batch)` of `Flush`: the outcome of
the final commit. -/
def flushRet (env : FlushEnv) (db : BranchChainTxRecordsDb)
    (cache : BranchChainTxRecordsCache) : Bool :=
  env.commitOk (flushBatched env db cache).nCommits

/-- Source: `BranchChainTxRecordsDb::Flush`, a `void` function: the new state
of the index and of the cache passed by reference. `m_mapChainTxInfos` and
`m_mapRecvRecord` are cleared; `m_mapCoinBeReport` is iterated and left as it
is. -/
def Flush (env : FlushEnv) (db : BranchChainTxRecordsDb)
    (cache : BranchChainTxRecordsCache) :
    BranchChainTxRecordsDb × BranchChainTxRecordsCache :=
  let st := flushBatched env db cache
  let s1 := WriteBatch (flushRet env db cache) st.store st.batch
  let s2 := cache.m_mapCoinBeReport.foldl flushCoinEntry s1
  (⟨s2, st.created⟩,
   { cache with m_mapChainTxInfos := [], m_mapRecvRecord := [] })

/-- Source: `BranchChainTxRecordsDb::GetBranchChainTxInfo`. `dflt` is the
default-constructed record. -/
def GetBranchChainTxInfo (dflt : BranchChainTxInfo) (db : BranchChainTxRecordsDb)
    (txid : uint256) : BranchChainTxInfo :=
  match db.m_db.txData txid with
  | none => { dflt with blockhash := 0 }
  | some sendinfo => sendinfo

/-- Source: `BranchChainTxRecordsDb::IsTxRecvRepeat`; `pBlock` may be null. -/
def IsTxRecvRepeat (GetOriTxHash : MCTransaction → uint256) (db : BranchChainTxRecordsDb)
    (tx : MCTransaction) (pBlock : Option MCBlock) : Bool :=
  if tx.isBranchChainTransStep2 == false then false
  else
    match db.m_db.recvData (GetOriTxHash tx) with
    | none => false
    | some recvInfo =>
      match pBlock with
      | some b => if b.hash = recvInfo.blockhash then false else true
      | none => true

/-- Source: `BranchChainTxRecordsDb::IsBranchCreated`. -/
def IsBranchCreated (db : BranchChainTxRecordsDb) (branchid : uint256) : Bool :=
  db.m_vCreatedBranchTxs.any (fun v => v.txid == branchid)

/-- Source: `BranchChainTxRecordsDb::IsMineCoinLock`. -/
def IsMineCoinLock (db : BranchChainTxRecordsDb) (coinhash : uint256) : Bool :=
  match db.m_db.mineCoin coinhash with
  | some vecDb => decide (vecDb.length > 0)
  | none => false

/-- What the write-back of one coin leaves under its key, given what the
store held there and the staged reports: the merged vector when it is
non-empty, no key otherwise. -/
def coinResult (old : Option (List CoinReportInfo)) (vec : List CoinReportInfo) :
    Option (List CoinReportInfo) :=
  let v := match old with
    | some d => vec.foldl mergeReport d
    | none => []
  if v.length > 0 then some v else none

/-- The persisted report list of a coin, an absent key counting as the empty
list. -/
def reportList (db : BranchChainTxRecordsDb) (coinhash : uint256) : List CoinReportInfo :=
  (db.m_db.mineCoin coinhash).getD []

/-- The store as the pending batch of a flush state will leave it once
committed. -/
def pending (st : FlushState) : MCDBWrapper :=
  st.batch.foldl applyOp st.store

/-- What the second loop of `Flush` leaves under a receipt key, from the
staged record: the record for a staged add, no key for a staged delete. -/
def recvResult (v : BranchChainTxRecvInfo) : Option BranchChainTxRecvInfo :=
  match v.flags with
  | .eADD => some v
  | .eDELETE => none

/-! ## Scripts and their tokens -/

/-- A byte vector (`std::vector<unsigned char>`); bytes are numbers. -/
abbrev valtype := List Nat

/-- A script (`MCScript`): its bytes. -/
abbrev MCScript := List Nat

/-- The output type tags, in the order of the `switch` of
`GetTxnOutputType`. -/
inductive txnouttype where
  | TX_NONSTANDARD
  | TX_PUBKEY
  | TX_PUBKEYHASH
  | TX_SCRIPTHASH
  | TX_MULTISIG
  | TX_NULL_DATA
  | TX_WITNESS_V0_KEYHASH
  | TX_WITNESS_V0_SCRIPTHASH
  | TX_CREATE_BRANCH
  | TX_TRANS_BRANCH
  | TX_SEND_BRANCH
  | TX_MINE_MORTGAGE
  | TX_MORTGAGE_COIN
  | TX_REDEEM_MORTGAGE
  deriving DecidableEq, Repr

/-! The opcodes of `script/script.h` that the script encoding and the
classifier use, with the byte values of the standard script encoding. -/

abbrev OP_0 : Nat := 0x00
abbrev OP_PUSHDATA1 : Nat := 0x4c
abbrev OP_PUSHDATA2 : Nat := 0x4d
abbrev OP_PUSHDATA4 : Nat := 0x4e
abbrev OP_1 : Nat := 0x51
abbrev OP_16 : Nat := 0x60
abbrev OP_RETURN : Nat := 0x6a
abbrev OP_2DROP : Nat := 0x6d
abbrev OP_DUP : Nat := 0x76
abbrev OP_EQUAL : Nat := 0x87
abbrev OP_EQUALVERIFY : Nat := 0x88
abbrev OP_HASH160 : Nat := 0xa9
abbrev OP_CHECKSIG : Nat := 0xac
abbrev OP_CHECKMULTISIG : Nat := 0xae
abbrev OP_SMALLINTEGER : Nat := 0xfa
abbrev OP_PUBKEYS : Nat := 0xfb
abbrev OP_PUBKEYHASH : Nat := 0xfd
abbrev OP_PUBKEY : Nat := 0xfe
abbrev OP_INVALIDOPCODE : Nat := 0xff

/-- The opcodes the branch-chain templates add to the standard ones. Their
byte values are declared in `script/script.h`, which is not among the
sources, so they are parameters of the classifier. -/
structure BranchOpcodes where
  OP_CREATE_BRANCH : Nat
  OP_TRANS_BRANCH : Nat
  OP_MINE_BRANCH_MORTGAGE : Nat
  OP_MINE_BRANCH_COIN : Nat
  OP_REDEEM_MORTGAGE : Nat
  OP_HASH256_DATA : Nat
  OP_BLOCK_HIGH : Nat
  deriving DecidableEq, Repr

/-- The branch-chain opcodes as a list. -/
def BranchOpcodes.all (ops : BranchOpcodes) : List Nat :=
  [ops.OP_CREATE_BRANCH, ops.OP_TRANS_BRANCH, ops.OP_MINE_BRANCH_MORTGAGE,
   ops.OP_MINE_BRANCH_COIN, ops.OP_REDEEM_MORTGAGE, ops.OP_HASH256_DATA, ops.OP_BLOCK_HIGH]

/-- The standard opcodes that occur in the templates or in the result of a
failed read. -/
def templateOpcodes : List Nat :=
  [OP_RETURN, OP_2DROP, OP_DUP, OP_EQUAL, OP_EQUALVERIFY, OP_HASH160, OP_CHECKSIG,
   OP_CHECKMULTISIG, OP_SMALLINTEGER, OP_PUBKEYS, OP_PUBKEYHASH, OP_PUBKEY, OP_INVALIDOPCODE]

/-- The branch-chain opcodes are one-byte opcodes above `OP_16`, distinct
from each other and from the standard opcodes of the templates. -/
def BranchOpcodes.WF (ops : BranchOpcodes) : Prop :=
  ops.all.Nodup ∧ ∀ x ∈ ops.all, OP_16 < x ∧ x < 256 ∧ x ∉ templateOpcodes

instance (ops : BranchOpcodes) : Decidable ops.WF := by
  unfold BranchOpcodes.WF; infer_instance

/-- The out-parameters and the result of one `GetOp` call: success, the
opcode, the pushed data, and the script from the new position of `pc` on. -/
structure OpRead where
  ok : Bool
  opcode : Nat
  vch : valtype
  pc : MCScript
  deriving DecidableEq, Repr

/-- The end of `GetOp` for a push of `nSize` bytes: fail when fewer bytes are
left, else take them. -/
def readData (opcode nSize : Nat) (pc : MCScript) : OpRead :=
  if pc.length < nSize then ⟨false, OP_INVALIDOPCODE, [], pc⟩
  else ⟨true, opcode, pc.take nSize, pc.drop nSize⟩

/-- The little-endian number of the first `n` bytes. -/
def ReadLE : Nat → MCScript → Nat
  | 0, _ => 0
  | _ + 1, [] => 0
  | n + 1, b :: r => b % 256 + 256 * ReadLE n r

/-- Modelled from the spec: `MCScript::GetOp` is declared in `script/script.h`,
which is not among the sources. The spec's tokens ("a push of 33-65 bytes",
"hash-op, push-20, hash, equal-op", "numeric push-opcodes") are those of the
standard script encoding: an opcode byte below `OP_PUSHDATA1` pushes that many
bytes, `OP_PUSHDATA1/2/4` are followed by a 1/2/4-byte little-endian length,
every other byte is an opcode without data. A failed read returns
`OP_INVALIDOPCODE` and empty data and leaves `pc` where the read stopped. -/
def GetOp (pc : MCScript) : OpRead :=
  match pc with
  | [] => ⟨false, OP_INVALIDOPCODE, [], []⟩
  | opcode :: r =>
    if opcode ≤ OP_PUSHDATA4 then
      if opcode < OP_PUSHDATA1 then readData opcode opcode r
      else if opcode = OP_PUSHDATA1 then
        match r with
        | [] => ⟨false, OP_INVALIDOPCODE, [], r⟩
        | n :: r' => readData opcode n r'
      else if opcode = OP_PUSHDATA2 then
        if r.length < 2 then ⟨false, OP_INVALIDOPCODE, [], r⟩
        else readData opcode (ReadLE 2 r) (r.drop 2)
      else
        if r.length < 4 then ⟨false, OP_INVALIDOPCODE, [], r⟩
        else readData opcode (ReadLE 4 r) (r.drop 4)
    else ⟨true, opcode, [], r⟩

/-- Modelled from the spec: `MCScript::DecodeOP_N` (`script/script.h`): the
number a small-integer opcode pushes, 0 for `OP_0` and 1..16 for
`OP_1`..`OP_16`. -/
def DecodeOP_N (opcode : Nat) : Nat :=
  if opcode = OP_0 then 0 else opcode - (OP_1 - 1)

/-- Modelled from the spec: `MCScript::EncodeOP_N` (`script/script.h`): the
opcode pushing the small integer `n`. -/
def EncodeOP_N (n : Nat) : Nat :=
  if n = 0 then OP_0 else OP_1 + n - 1

/-- Modelled from the spec: `MCScript::IsPayToScriptHash` (`script/script.cpp`,
not among the sources): "a fixed 23-byte shape: hash-op, push-20, hash,
equal-op". -/
def IsPayToScriptHash (s : MCScript) : Bool :=
  s.length == 23 && s.getD 0 0 == OP_HASH160 && s.getD 1 0 == 0x14 &&
    s.getD 22 0 == OP_EQUAL

/-- Modelled from the spec: `MCScript::IsWitnessProgram` (`script/script.cpp`,
not among the sources): "version + program", a script of 4 to 42 bytes made of
a small-integer opcode and one direct push that ends the script; the result
is the version and the program. -/
def IsWitnessProgram (s : MCScript) : Option (Nat × valtype) :=
  if s.length < 4 ∨ s.length > 42 then none
  else if s.getD 0 0 ≠ OP_0 ∧ (s.getD 0 0 < OP_1 ∨ s.getD 0 0 > OP_16) then none
  else if s.getD 1 0 + 2 = s.length then some (DecodeOP_N (s.getD 0 0), s.drop 2)
  else none

/-- Modelled from the spec: `MCScript::IsPushOnly(pc)` (`script/script.cpp`,
not among the sources): "only push operations" from `pc` to the end, that is
every token reads and has an opcode up to `OP_16`. Each round reads at least
one byte, so `pc.length` rounds reach the end. -/
def IsPushOnlyLoop : Nat → MCScript → Bool
  | 0, pc => pc.isEmpty
  | fuel + 1, pc =>
    if pc = [] then true
    else
      let r := GetOp pc
      if !r.ok then false
      else if r.opcode > OP_16 then false
      else IsPushOnlyLoop fuel r.pc

/-- The call `IsPushOnly(pc)`, with the round bound `pc.length`. -/
def IsPushOnly (pc : MCScript) : Bool :=
  IsPushOnlyLoop pc.length pc

/-! ## The classifier -/

/-- The template table `mTemplates`, a `std::multimap` keyed by the type tag
and therefore scanned in the order of the tags; `MCScript() << op << ...`
appends one byte per opcode. -/
def mTemplates (ops : BranchOpcodes) : List (txnouttype × MCScript) :=
  [ (.TX_PUBKEY, [OP_PUBKEY, OP_CHECKSIG]),
    (.TX_PUBKEYHASH, [OP_DUP, OP_HASH160, OP_PUBKEYHASH, OP_EQUALVERIFY, OP_CHECKSIG]),
    (.TX_MULTISIG, [OP_SMALLINTEGER, OP_PUBKEYS, OP_SMALLINTEGER, OP_CHECKMULTISIG]),
    (.TX_CREATE_BRANCH,
      [ops.OP_CREATE_BRANCH, OP_DUP, OP_HASH160, OP_PUBKEYHASH, OP_EQUALVERIFY, OP_CHECKSIG]),
    (.TX_TRANS_BRANCH, [OP_RETURN, ops.OP_TRANS_BRANCH]),
    (.TX_SEND_BRANCH, [ops.OP_TRANS_BRANCH, ops.OP_HASH256_DATA]),
    (.TX_MINE_MORTGAGE,
      [ops.OP_MINE_BRANCH_MORTGAGE, ops.OP_HASH256_DATA, ops.OP_BLOCK_HIGH, OP_2DROP,
       OP_DUP, OP_HASH160, OP_PUBKEYHASH, OP_EQUALVERIFY, OP_CHECKSIG]),
    (.TX_MORTGAGE_COIN,
      [ops.OP_MINE_BRANCH_COIN, ops.OP_HASH256_DATA, ops.OP_BLOCK_HIGH, OP_2DROP,
       OP_DUP, OP_HASH160, OP_PUBKEYHASH, OP_EQUALVERIFY, OP_CHECKSIG]),
    (.TX_REDEEM_MORTGAGE, [OP_RETURN, ops.OP_REDEEM_MORTGAGE, ops.OP_HASH256_DATA]) ]

/-- The inner loop of the `OP_PUBKEYS` wildcard: `while (vch1.size() >= 33 &&
vch1.size() <= 65) { vSolutionsRet.push_back(vch1); if (!script1.GetOp(pc1,
opcode1, vch1)) break; }`, on the last read `r1` of the script. Each round
reads at least one byte, so `r1.pc.length + 1` rounds are enough. -/
def pubkeysLoop : Nat → OpRead → List valtype → OpRead × List valtype
  | 0, r1, sols => (r1, sols)
  | fuel + 1, r1, sols =>
    if 33 ≤ r1.vch.length ∧ r1.vch.length ≤ 65 then
      let r1' := GetOp r1.pc
      if !r1'.ok then (r1', sols ++ [r1.vch])
      else pubkeysLoop fuel r1' (sols ++ [r1.vch])
    else (r1, sols)

/-- How the comparison of one token with one template token ends. -/
inductive TokenOutcome where
  | next (sols : List valtype)
  | brk
  | abort (sols : List valtype)
  deriving DecidableEq, Repr

/-- The `if / else if` chain on the template opcode `opcode2`: `next` goes on
with the loop, `brk` is `break`, `abort` is the `return false` of an over-long
height. -/
def tokenCheck (ops : BranchOpcodes) (r1 r2 : OpRead) (sols : List valtype) : TokenOutcome :=
  if r2.opcode = OP_PUBKEY then
    if r1.vch.length < 33 ∨ r1.vch.length > 65 then .brk
    else .next (sols ++ [r1.vch])
  else if r2.opcode = OP_PUBKEYHASH then
    if r1.vch.length ≠ 20 then .brk
    else .next (sols ++ [r1.vch])
  else if r2.opcode = OP_SMALLINTEGER then
    if r1.opcode = OP_0 ∨ (OP_1 ≤ r1.opcode ∧ r1.opcode ≤ OP_16) then
      .next (sols ++ [[DecodeOP_N r1.opcode]])
    else .brk
  else if r2.opcode = ops.OP_HASH256_DATA then
    if r1.vch.length ≠ 32 then .brk
    else .next sols
  else if r2.opcode = ops.OP_BLOCK_HIGH then
    if r1.vch.length > 5 then .abort sols
    else .next sols
  else if r1.opcode ≠ r2.opcode ∨ r1.vch ≠ r2.vch then .brk
  else .next sols

/-- How the comparison of the script with one template ends: both exhausted
(`found`), `break` (`brk`), or `return false` inside the loop (`abort`). -/
inductive MatchOutcome where
  | found (sols : List valtype)
  | brk
  | abort (sols : List valtype)
  deriving DecidableEq, Repr

/-- The loop `while (true)` comparing the script from `pc1` with the template
from `pc2`. Every round that goes on has read at least one byte of the script,
so `script1.length + 1` rounds are enough. -/
def matchLoop (ops : BranchOpcodes) : Nat → MCScript → MCScript → List valtype → MatchOutcome
  | 0, _, _, _ => .brk
  | fuel + 1, pc1, pc2, sols =>
    if pc1 = [] ∧ pc2 = [] then .found sols
    else
      let r1 := GetOp pc1
      if !r1.ok then .brk
      else
        let r2 := GetOp pc2
        if !r2.ok then .brk
        else if r2.opcode = OP_PUBKEYS then
          let p := pubkeysLoop (r1.pc.length + 1) r1 sols
          let r2' := GetOp r2.pc
          if !r2'.ok then .brk
          else
            match tokenCheck ops p.1 r2' p.2 with
            | .next sols' => matchLoop ops fuel p.1.pc r2'.pc sols'
            | .brk => .brk
            | .abort sols' => .abort sols'
        else
          match tokenCheck ops r1 r2 sols with
          | .next sols' => matchLoop ops fuel r1.pc r2.pc sols'
          | .brk => .brk
          | .abort sols' => .abort sols'

/-- What `Solver` returns: the Boolean result and the two out-parameters. -/
structure SolverResult where
  ret : Bool
  typeRet : txnouttype
  vSolutionsRet : List valtype
  deriving DecidableEq, Repr

/-- The block "Found a match": the tag is set, and for `TX_MULTISIG` the
arity check `m < 1 || n < 1 || m > n || vSolutionsRet.size()-2 != n` on the
first byte of the first and of the last solution (`size()-2` in 64-bit
unsigned arithmetic). -/
def foundResult (ty : txnouttype) (sols : List valtype) : SolverResult :=
  if ty = .TX_MULTISIG then
    let m := (sols.headD []).headD 0
    let n := (sols.getLastD []).headD 0
    if m < 1 ∨ n < 1 ∨ m > n ∨ (sols.length + 2 ^ 64 - 2) % 2 ^ 64 ≠ n then
      ⟨false, ty, sols⟩
    else ⟨true, ty, sols⟩
  else ⟨true, ty, sols⟩

/-- The loop over the templates and the statements after it. `typeRet` is the
value the out-parameter had when `Solver` was called: it is assigned only at
a match. -/
def scanTemplates (ops : BranchOpcodes) :
    List (txnouttype × MCScript) → MCScript → txnouttype → SolverResult
  | [], _, _ => ⟨false, .TX_NONSTANDARD, []⟩
  | (ty, script2) :: rest, script1, typeRet =>
    match matchLoop ops (script1.length + 1) script1 script2 [] with
    | .found sols => foundResult ty sols
    | .abort sols => ⟨false, typeRet, sols⟩
    | .brk => scanTemplates ops rest script1 typeRet

/-- Source: `Solver`. `typeRet` is the value of the out-parameter at the
call; `vSolutionsRet` is cleared on entry, so its value at the call is not an
input. -/
def Solver (ops : BranchOpcodes) (scriptPubKey : MCScript) (typeRet : txnouttype) :
    SolverResult :=
  if IsPayToScriptHash scriptPubKey then
    ⟨true, .TX_SCRIPTHASH, [(scriptPubKey.drop 2).take 20]⟩
  else
    match IsWitnessProgram scriptPubKey with
    | some (witnessversion, witnessprogram) =>
      if witnessversion = 0 ∧ witnessprogram.length = 20 then
        ⟨true, .TX_WITNESS_V0_KEYHASH, [witnessprogram]⟩
      else if witnessversion = 0 ∧ witnessprogram.length = 32 then
        ⟨true, .TX_WITNESS_V0_SCRIPTHASH, [witnessprogram]⟩
      else ⟨false, typeRet, []⟩
    | none =>
      if scriptPubKey.length ≥ 1 ∧ scriptPubKey.getD 0 0 = OP_RETURN ∧
          IsPushOnly (scriptPubKey.drop 1) then
        ⟨true, .TX_NULL_DATA, []⟩
      else scanTemplates ops (mTemplates ops) scriptPubKey typeRet

/-! ## Script shapes -/

/-- The four encodings of a push operation. -/
inductive PushForm where
  | direct
  | pushdata1
  | pushdata2
  | pushdata4
  deriving DecidableEq, Repr

/-- The bytes of a push of `data` in the given encoding. -/
def pushBytes (form : PushForm) (data : valtype) : MCScript :=
  match form with
  | .direct => data.length :: data
  | .pushdata1 => OP_PUSHDATA1 :: data.length :: data
  | .pushdata2 => OP_PUSHDATA2 :: data.length % 256 :: data.length / 256 :: data
  | .pushdata4 =>
    OP_PUSHDATA4 :: data.length % 256 :: data.length / 256 % 256 ::
      data.length / 65536 % 256 :: data.length / 16777216 :: data

/-- The bytes of a sequence of pushes. -/
def pushesBytes : List (PushForm × valtype) → MCScript
  | [] => []
  | k :: ks => pushBytes k.1 k.2 ++ pushesBytes ks

/-- The script `<small integer m> <pushes> <small integer n>
OP_CHECKMULTISIG`. -/
def multisigScript (m : Nat) (keys : List (PushForm × valtype)) (n : Nat) : MCScript :=
  EncodeOP_N m :: (pushesBytes keys ++ [EncodeOP_N n, OP_CHECKMULTISIG])

/-! ## Sample inputs -/

/-- A flush environment in which every commit succeeds. -/
def sampleEnv : FlushEnv :=
  { batch_size := 1000
    SizeEstimate := List.length
    commitOk := fun _ => true
    CREATE_BRANCH_VERSION := 3 }

/-- A default-constructed branch-transaction record: the numeric fields are
zero; the flag is assigned by every cache operation before it is read. -/
def sampleDflt : BranchChainTxInfo :=
  { blockhash := 0
    txindex := 0
    txnVersion := 0
    createchaininfo := ⟨0, [], [], 0⟩
    flags := DbDataFlag.eADD }

/-- A lock-mortgage transaction on coin 5 with report id 7. -/
def sampleLockTx : MCTransaction :=
  { hash := 11
    nVersion := 8
    isPregnantTx := false
    isBranchCreate := false
    isBranchChainTransStep2 := false
    isLockMortgageMineCoin := true
    isUnLockMortgageMineCoin := false
    branchSeedSpec6 := []
    branchVSeeds := []
    coinpreouthash := 5
    reporttxid := 7 }

/-- A branch-create transaction with id 7 and the version `sampleEnv` takes
for `CREATE_BRANCH_VERSION`. -/
def sampleCreateTx : MCTransaction :=
  { hash := 7
    nVersion := 3
    isPregnantTx := false
    isBranchCreate := true
    isBranchChainTransStep2 := false
    isLockMortgageMineCoin := false
    isUnLockMortgageMineCoin := false
    branchSeedSpec6 := [1]
    branchVSeeds := [2]
    coinpreouthash := 0
    reporttxid := 0 }

/-- An index with an empty store and no created branch. -/
def emptyDb : BranchChainTxRecordsDb := ⟨emptyStore, []⟩

/-- An index whose store holds, for coin 5, the one report of transaction 7. -/
def sampleLockedDb : BranchChainTxRecordsDb :=
  ⟨{ emptyStore with
      mineCoin := fun k => if k = 5 then some [⟨7, DbDataFlag.eADD⟩] else none }, []⟩

/-- A step-2 cross-chain transaction with id 21. -/
def sampleStep2Tx : MCTransaction :=
  { hash := 21
    nVersion := 5
    isPregnantTx := false
    isBranchCreate := false
    isBranchChainTransStep2 := true
    isLockMortgageMineCoin := false
    isUnLockMortgageMineCoin := false
    branchSeedSpec6 := []
    branchVSeeds := []
    coinpreouthash := 0
    reporttxid := 0 }

/-- An origin lookup for the samples: the origin of transaction `t` has id
`t.hash + 100`. -/
def sampleOri (t : MCTransaction) : uint256 := t.hash + 100

/-- Sample byte values for the branch-chain opcodes. -/
def sampleOps : BranchOpcodes :=
  { OP_CREATE_BRANCH := 0xc0
    OP_TRANS_BRANCH := 0xc1
    OP_MINE_BRANCH_MORTGAGE := 0xc2
    OP_MINE_BRANCH_COIN := 0xc3
    OP_REDEEM_MORTGAGE := 0xc4
    OP_HASH256_DATA := 0xf8
    OP_BLOCK_HIGH := 0xf9 }

/-- A 33-byte key. -/
def sampleKey : valtype := List.replicate 33 7

/-- A version-1 witness program: `OP_1` and a direct push of two bytes. -/
def sampleWitnessV1 : MCScript := [OP_1, 2, 3, 4]

/-- A mine-mortgage script whose height field is a push of six bytes. -/
def sampleLongHeight : MCScript :=
  [sampleOps.OP_MINE_BRANCH_MORTGAGE, 32] ++ List.replicate 32 1 ++ [6, 1, 2, 3, 4, 5, 6] ++
    [OP_2DROP, OP_DUP, OP_HASH160, 20] ++ List.replicate 20 1 ++ [OP_EQUALVERIFY, OP_CHECKSIG]

/-- The multisig-shaped script `OP_2 <key> OP_1 OP_CHECKMULTISIG`: two
signatures required of one key. -/
def sampleBadMultisig : MCScript :=
  [0x52, 33] ++ sampleKey ++ [OP_1, OP_CHECKMULTISIG]

/-- A flush environment in which every commit fails. -/
def failEnv : FlushEnv :=
  { batch_size := 1000
    SizeEstimate := List.length
    commitOk := fun _ => false
    CREATE_BRANCH_VERSION := 3 }

/-- A cache in which only a coin report is staged: report 7, flagged add, for
coin 5. -/
def coinOnlyCache : BranchChainTxRecordsCache :=
  ⟨[], [], [(5, [⟨7, DbDataFlag.eADD⟩])]⟩

/-- The transaction ids of a created-branches list. -/
def createdIds (l : List BranchCreateInfo) : List uint256 :=
  l.map (fun v => v.txid)

/-- The number of entries of a created-branches list with the given
transaction id. -/
def countId (id : uint256) (l : List BranchCreateInfo) : Nat :=
  l.countP (fun v => v.txid == id)

/-- The reporting-transaction ids of a coin-report list. -/
def reportIds (l : List CoinReportInfo) : List uint256 :=
  l.map (fun r => r.reporttxid)

/-- Every persisted coin-report list is non-empty and has pairwise distinct
reporting-transaction ids. -/
def reportsWF (s : MCDBWrapper) : Prop :=
  ∀ k l, s.mineCoin k = some l → l ≠ [] ∧ (reportIds l).Nodup

/-- The reports staged in a cache for a coin, no entry counting as the empty
list. -/
def stagedReports (cache : BranchChainTxRecordsCache) (coin : uint256) : List CoinReportInfo :=
  (mapFind coin cache.m_mapCoinBeReport).getD []

/-- The polarity table of the spec, for a transaction that is a lock
(`isLock = true`) or an unlock (`isLock = false`): on connect a lock stages
add and an unlock stages delete; on disconnect the polarity inverts. -/
def specPolarity : Bool → Bool → DbDataFlag
  | true, true => DbDataFlag.eADD
  | false, true => DbDataFlag.eDELETE
  | true, false => DbDataFlag.eDELETE
  | false, false => DbDataFlag.eADD

/-- A cache whose staged list for coin 5 holds two reports of id 7. -/
def repeatedIdCache : BranchChainTxRecordsCache :=
  ⟨[], [], [(5, [⟨7, DbDataFlag.eDELETE⟩, ⟨7, DbDataFlag.eDELETE⟩])]⟩

/-- The pay-to-script-hash script of a hash `h`: `OP_HASH160`, the direct push
of 20 bytes, `OP_EQUAL`. -/
def p2shScript (h : valtype) : MCScript :=
  [OP_HASH160, 0x14] ++ h ++ [OP_EQUAL]

/-- The version-0 witness program of `program`: `OP_0` and one direct push
that ends the script. -/
def witnessV0Script (program : valtype) : MCScript :=
  [OP_0, program.length] ++ program

/-- A push operation: a push of data in one of the four encodings, or a
one-byte opcode that pushes a number (`OP_1NEGATE`, `OP_RESERVED`,
`OP_1`..`OP_16`: the opcodes from 0x4f up to `OP_16`). -/
inductive PushOp where
  | data (form : PushForm) (d : valtype)
  | small (opcode : Nat)
  deriving DecidableEq, Repr

/-- The length of the data fits the encoding, or the opcode is in the range
of the number opcodes. -/
def PushOp.valid : PushOp → Prop
  | .data .direct d => d.length < 0x4c
  | .data .pushdata1 d => d.length < 256
  | .data .pushdata2 d => d.length < 65536
  | .data .pushdata4 d => d.length < 4294967296
  | .small opcode => 0x4f ≤ opcode ∧ opcode ≤ OP_16

instance (t : PushOp) : Decidable t.valid := by
  cases t with
  | data form d => cases form <;> (unfold PushOp.valid; infer_instance)
  | small opcode => unfold PushOp.valid; infer_instance

/-- The bytes of a push operation. -/
def PushOp.bytes : PushOp → MCScript
  | .data form d => pushBytes form d
  | .small opcode => [opcode]

/-- The bytes of a sequence of push operations. -/
def pushOpsBytes : List PushOp → MCScript
  | [] => []
  | t :: ts => t.bytes ++ pushOpsBytes ts

/-- The third token of a script: the result of the third `GetOp`. -/
def thirdToken (s : MCScript) : OpRead :=
  GetOp (GetOp (GetOp s).pc).pc

/-- A mine-mortgage script whose height position holds the opcode `OP_DUP`
instead of a push. -/
def sampleNonPushHeight : MCScript :=
  [sampleOps.OP_MINE_BRANCH_MORTGAGE, 32] ++ List.replicate 32 1 ++ [OP_DUP] ++
    [OP_2DROP, OP_DUP, OP_HASH160, 20] ++ List.replicate 20 1 ++ [OP_EQUALVERIFY, OP_CHECKSIG]

/-- A mine-mortgage script whose height is a push of three bytes. -/
def sampleMineMortgage : MCScript :=
  [sampleOps.OP_MINE_BRANCH_MORTGAGE, 32] ++ List.replicate 32 1 ++ [3, 1, 2, 3] ++
    [OP_2DROP, OP_DUP, OP_HASH160, 20] ++ List.replicate 20 1 ++ [OP_EQUALVERIFY, OP_CHECKSIG]

/-- What the first loop of `Flush` leaves under a branch-transaction key, from
the staged record: the record for a staged add, no key for a staged delete. -/
def txResult (v : BranchChainTxInfo) : Option BranchChainTxInfo :=
  match v.flags with
  | .eADD => some v
  | .eDELETE => none

/-- A flush environment with the batch threshold 0: every batched operation
is committed at once. -/
def smallBatchEnv : FlushEnv :=
  { batch_size := 0
    SizeEstimate := List.length
    commitOk := fun _ => true
    CREATE_BRANCH_VERSION := 3 }

/-- A cache that stages the add of the record of transaction 3 and the delete
of the record of transaction 4. -/
def sampleTxCache : BranchChainTxRecordsCache :=
  ⟨[(3, { blockhash := 9, txindex := 1, txnVersion := 5,
          createchaininfo := ⟨0, [], [], 0⟩, flags := DbDataFlag.eADD }),
    (4, { blockhash := 0, txindex := 0, txnVersion := 0,
          createchaininfo := ⟨0, [], [], 0⟩, flags := DbDataFlag.eDELETE })], [], []⟩

/-! ## Destinations -/

/-- A 160-bit identity (`uint160`): its 20 bytes. The constructor
`uint160(vch)` from a byte vector keeps the bytes. -/
abbrev uint160 := valtype

/-- The destination variants (`MCTxDestination`), in the order of the
visitors of `standard.cpp`. -/
inductive MCTxDestination where
  | MCNoDestination
  | MCContractID (id : uint160)
  | MCKeyID (id : uint160)
  | MCScriptID (id : uint160)
  deriving DecidableEq, Repr

/-- What the classifier uses of `MCPubKey` (`key/pubkey.h`, not among the
sources): whether the key built from a byte vector is valid, and the identity
of a key. Both are parameters. -/
structure PubKeyOps where
  IsValid : valtype → Bool
  GetID : valtype → uint160

/-- Modelled from the spec: `MCScript::operator<<` for a byte vector
(`script/script.h`, not among the sources) appends a push of the vector in
the shortest encoding of the standard script encoding: direct below
`OP_PUSHDATA1`, else with a 1-, 2- or 4-byte length. -/
def pushVector (b : valtype) : MCScript :=
  if b.length < OP_PUSHDATA1 then pushBytes PushForm.direct b
  else if b.length ≤ 0xff then pushBytes PushForm.pushdata1 b
  else if b.length ≤ 0xffff then pushBytes PushForm.pushdata2 b
  else pushBytes PushForm.pushdata4 b

/-- Source: `ExtractDestination`. `whichType` is the value of the
uninitialised local before the call of `Solver`, `addressRet` the value of the
out-parameter at the call; `vSolutions[0]` is the head of the solutions. -/
def ExtractDestination (ops : BranchOpcodes) (pk : PubKeyOps) (scriptPubKey : MCScript)
    (whichType : txnouttype) (addressRet : MCTxDestination) : Bool × MCTxDestination :=
  let r := Solver ops scriptPubKey whichType
  if !r.ret then (false, addressRet)
  else if r.typeRet = .TX_PUBKEY then
    if !pk.IsValid (r.vSolutionsRet.headD []) then (false, addressRet)
    else (true, .MCKeyID (pk.GetID (r.vSolutionsRet.headD [])))
  else if r.typeRet = .TX_PUBKEYHASH then
    (true, .MCKeyID (r.vSolutionsRet.headD []))
  else if r.typeRet = .TX_SCRIPTHASH then
    (true, .MCScriptID (r.vSolutionsRet.headD []))
  else if r.typeRet = .TX_CREATE_BRANCH ∨ r.typeRet = .TX_MINE_MORTGAGE ∨
      r.typeRet = .TX_MORTGAGE_COIN then
    (true, .MCKeyID (r.vSolutionsRet.headD []))
  else (false, addressRet)

/-- What `ExtractDestinations` returns: the Boolean result and the three
out-parameters. -/
structure DestinationsResult where
  ret : Bool
  typeRet : txnouttype
  addressRet : List MCTxDestination
  nRequiredRet : Int
  deriving DecidableEq, Repr

/-- The loop of `ExtractDestinations` over `vSolutions[1 .. size()-2]`: the
identities of the valid keys, in order. -/
def validKeyIds (pk : PubKeyOps) : List valtype → List MCTxDestination
  | [] => []
  | v :: rest =>
    if !pk.IsValid v then validKeyIds pk rest
    else .MCKeyID (pk.GetID v) :: validKeyIds pk rest

/-- Source: `ExtractDestinations`. `addressRet` is cleared and `typeRet` set
to `TX_NONSTANDARD` on entry, so only `nRequiredRet` is taken at its value at
the call; `whichType` is the uninitialised local of the inner
`ExtractDestination`, whose `address` starts as the default destination. -/
def ExtractDestinations (ops : BranchOpcodes) (pk : PubKeyOps) (scriptPubKey : MCScript)
    (whichType : txnouttype) (nRequiredRet : Int) : DestinationsResult :=
  let r := Solver ops scriptPubKey .TX_NONSTANDARD
  if !r.ret then ⟨false, r.typeRet, [], nRequiredRet⟩
  else if r.typeRet = .TX_NULL_DATA then ⟨false, r.typeRet, [], nRequiredRet⟩
  else if r.typeRet = .TX_MULTISIG then
    let nRequired : Int := ((r.vSolutionsRet.headD []).headD 0 : Nat)
    let addresses := validKeyIds pk (r.vSolutionsRet.drop 1).dropLast
    if addresses.isEmpty then ⟨false, r.typeRet, addresses, nRequired⟩
    else ⟨true, r.typeRet, addresses, nRequired⟩
  else
    let e := ExtractDestination ops pk scriptPubKey whichType .MCNoDestination
    if !e.1 then ⟨false, r.typeRet, [], 1⟩
    else ⟨true, r.typeRet, [e.2], 1⟩

/-- Source: `GetScriptForDestination` with `CScriptVisitor`. `OP_CONTRACT` is
declared in `script/script.h` and is a parameter. -/
def GetScriptForDestination (OP_CONTRACT : Nat) : MCTxDestination → MCScript
  | .MCNoDestination => []
  | .MCContractID contractID => [OP_CONTRACT] ++ pushVector contractID
  | .MCKeyID keyID =>
    [OP_DUP, OP_HASH160] ++ pushVector keyID ++ [OP_EQUALVERIFY, OP_CHECKSIG]
  | .MCScriptID scriptID => [OP_HASH160] ++ pushVector scriptID ++ [OP_EQUAL]

/-- The loop `for (key : keys) script << ToByteVector(key)` of
`GetScriptForMultisig`; a key is its byte vector. -/
def pushKeys : List valtype → MCScript
  | [] => []
  | key :: keys => pushVector key ++ pushKeys keys

/-- Source: `GetScriptForMultisig`. -/
def GetScriptForMultisig (nRequired : Nat) (keys : List valtype) : MCScript :=
  [EncodeOP_N nRequired] ++ pushKeys keys ++ [EncodeOP_N keys.length, OP_CHECKMULTISIG]

/-- A template opcode that the comparison treats as a literal: it is read as
an opcode without data and is none of the wildcards. -/
def IsLiteral (ops : BranchOpcodes) (x : Nat) : Prop :=
  OP_PUSHDATA4 < x ∧ x ≠ OP_PUBKEYS ∧ x ≠ OP_PUBKEY ∧ x ≠ OP_PUBKEYHASH ∧
    x ≠ OP_SMALLINTEGER ∧ x ≠ ops.OP_HASH256_DATA ∧ x ≠ ops.OP_BLOCK_HIGH

/-- The pay-to-pubkey-hash script of a 20-byte key hash, as the builder
writes it. -/
def sampleP2PKH : MCScript :=
  [OP_DUP, OP_HASH160, 20] ++ List.replicate 20 1 ++ [OP_EQUALVERIFY, OP_CHECKSIG]

/-- A sample of the key operations: a key is valid when it has 33 bytes, and
its identity is made of its first 20 bytes. -/
def samplePk : PubKeyOps :=
  ⟨fun v => decide (v.length = 33), fun v => v.take 20⟩

/-- The 1-of-2 multisig script of a 33-byte key and a 34-byte key, as
`GetScriptForMultisig` writes it. -/
def sampleMultisig : MCScript :=
  GetScriptForMultisig 1 [sampleKey, List.replicate 34 8]

/-- The variant of `scanTemplates` without early exits: the `return false` of
an over-long height and the `return false` of the failed multisig arity check
abandon the current template, and the loop goes on with the next one. After
the loop the solutions are cleared and the type is `TX_NONSTANDARD`. -/
def scanTemplatesNoEarlyExit (ops : BranchOpcodes) :
    List (txnouttype × MCScript) → MCScript → SolverResult
  | [], _ => ⟨false, .TX_NONSTANDARD, []⟩
  | (ty, script2) :: rest, script1 =>
    match matchLoop ops (script1.length + 1) script1 script2 [] with
    | .found sols =>
      if (foundResult ty sols).ret then foundResult ty sols
      else scanTemplatesNoEarlyExit ops rest script1
    | .abort _ => scanTemplatesNoEarlyExit ops rest script1
    | .brk => scanTemplatesNoEarlyExit ops rest script1

/-- The variant of `Solver` without the two early exits of the template
loop: the fast paths are those of `Solver`, the templates are scanned by
`scanTemplatesNoEarlyExit`. -/
def SolverNoEarlyExit (ops : BranchOpcodes) (scriptPubKey : MCScript) (typeRet : txnouttype) :
    SolverResult :=
  if IsPayToScriptHash scriptPubKey then
    ⟨true, .TX_SCRIPTHASH, [(scriptPubKey.drop 2).take 20]⟩
  else
    match IsWitnessProgram scriptPubKey with
    | some (witnessversion, witnessprogram) =>
      if witnessversion = 0 ∧ witnessprogram.length = 20 then
        ⟨true, .TX_WITNESS_V0_KEYHASH, [witnessprogram]⟩
      else if witnessversion = 0 ∧ witnessprogram.length = 32 then
        ⟨true, .TX_WITNESS_V0_SCRIPTHASH, [witnessprogram]⟩
      else ⟨false, typeRet, []⟩
    | none =>
      if scriptPubKey.length ≥ 1 ∧ scriptPubKey.getD 0 0 = OP_RETURN ∧
          IsPushOnly (scriptPubKey.drop 1) then
        ⟨true, .TX_NULL_DATA, []⟩
      else scanTemplatesNoEarlyExit ops (mTemplates ops) scriptPubKey

/-- The one template that the first tokens of a script leave possible: a
token with data can only be a public key, a small integer can only open a
multisig script, and every other template opens with a literal opcode of its
own, except the two that open with `OP_RETURN`, which differ in the second
token. -/
def templateOfFirstTokens (ops : BranchOpcodes) (s : MCScript) : txnouttype :=
  if (GetOp s).vch ≠ [] then .TX_PUBKEY
  else if (GetOp s).opcode ≤ OP_16 then .TX_MULTISIG
  else if (GetOp s).opcode = OP_DUP then .TX_PUBKEYHASH
  else if (GetOp s).opcode = ops.OP_CREATE_BRANCH then .TX_CREATE_BRANCH
  else if (GetOp s).opcode = ops.OP_TRANS_BRANCH then .TX_SEND_BRANCH
  else if (GetOp s).opcode = ops.OP_MINE_BRANCH_MORTGAGE then .TX_MINE_MORTGAGE
  else if (GetOp s).opcode = ops.OP_MINE_BRANCH_COIN then .TX_MORTGAGE_COIN
  else if (GetOp s).opcode = OP_RETURN then
    if (GetOp (GetOp s).pc).opcode = ops.OP_TRANS_BRANCH then .TX_TRANS_BRANCH
    else .TX_REDEEM_MORTGAGE
  else .TX_NONSTANDARD

/-! # Theorems -/

/-! ## Lemmas on maps -/

theorem mapFind_mapModify_self {V : Type} (dflt : V) (f : V → V) (k : uint256)
    (m : List (uint256 × V)) (hm : mapSorted m) :
    mapFind k (mapModify dflt f k m) = some (f ((mapFind k m).getD dflt)) := by
  induction m with
  | nil => simp [mapModify, mapFind]
  | cons e rest ih =>
    obtain ⟨k', v⟩ := e
    have hrest : mapSorted rest := by
      unfold mapSorted at hm ⊢
      exact (List.pairwise_cons.mp hm).2
    by_cases h1 : k < k'
    · have hne : k ≠ k' := Nat.ne_of_lt h1
      simp [mapModify, mapFind, h1, hne]
      have : ∀ r : List (uint256 × V), (∀ x ∈ r.map Prod.fst, k < x) → mapFind k r = none := by
        intro r
        induction r with
        | nil => intro _; rfl
        | cons a r ihr =>
          intro h
          have ha : k < a.1 := h a.1 (by simp)
          have hne2 : k ≠ a.1 := Nat.ne_of_lt ha
          simp only [mapFind, hne2, if_false]
          exact ihr (fun x hx => h x (by simp at hx ⊢; exact Or.inr hx))
      have hall : ∀ x ∈ rest.map Prod.fst, k < x := by
        intro x hx
        unfold mapSorted at hm
        exact Nat.lt_trans h1 ((List.pairwise_cons.mp hm).1 x hx)
      rw [this rest hall]; rfl
    · by_cases h2 : k = k'
      · subst h2
        simp [mapModify, mapFind]
      · simp [mapModify, mapFind, h1, h2, ih hrest]

theorem mapFind_mapModify_other {V : Type} (dflt : V) (f : V → V) (k k2 : uint256)
    (m : List (uint256 × V)) (hne : k2 ≠ k) :
    mapFind k2 (mapModify dflt f k m) = mapFind k2 m := by
  induction m with
  | nil => simp [mapModify, mapFind, hne]
  | cons e rest ih =>
    obtain ⟨k', v⟩ := e
    by_cases h1 : k < k'
    · simp [mapModify, mapFind, h1, hne]
    · by_cases h2 : k = k'
      · subst h2
        simp [mapModify, mapFind, hne]
      · simp [mapModify, mapFind, h1, h2, ih]

theorem mapModify_keys_lower {V : Type} (dflt : V) (f : V → V) (k b : uint256)
    (m : List (uint256 × V)) (hb : b < k) (hm : ∀ x ∈ m.map Prod.fst, b < x) :
    ∀ x ∈ (mapModify dflt f k m).map Prod.fst, b < x := by
  induction m with
  | nil => intro x hx; simp [mapModify] at hx; rw [hx]; exact hb
  | cons e rest ih =>
    obtain ⟨k', v⟩ := e
    have hk' : b < k' := hm k' (by simp)
    have hrest : ∀ x ∈ rest.map Prod.fst, b < x :=
      fun x hx => hm x (by simp at hx ⊢; exact Or.inr hx)
    intro x hx
    by_cases h1 : k < k'
    · simp [mapModify, h1] at hx
      rcases hx with rfl | rfl | ⟨a, ha⟩
      · exact hb
      · exact hk'
      · exact hrest x (by simp; exact ⟨a, ha⟩)
    · by_cases h2 : k = k'
      · subst h2
        simp [mapModify] at hx
        rcases hx with rfl | ⟨a, ha⟩
        · exact hb
        · exact hrest x (by simp; exact ⟨a, ha⟩)
      · simp only [mapModify, h1, h2, if_false, List.map_cons, List.mem_cons] at hx
        rcases hx with rfl | hx
        · exact hk'
        · exact ih hrest x hx

theorem mapSorted_mapModify {V : Type} (dflt : V) (f : V → V) (k : uint256)
    (m : List (uint256 × V)) (hm : mapSorted m) : mapSorted (mapModify dflt f k m) := by
  induction m with
  | nil => simp [mapModify, mapSorted]
  | cons e rest ih =>
    obtain ⟨k', v⟩ := e
    have hp := List.pairwise_cons.mp hm
    have hrest : mapSorted rest := hp.2
    by_cases h1 : k < k'
    · simp only [mapModify, h1, if_true]
      unfold mapSorted
      simp only [List.map_cons]
      refine List.pairwise_cons.mpr ⟨?_, hm⟩
      intro x hx
      simp only [List.mem_cons] at hx
      rcases hx with rfl | hx
      · exact h1
      · exact Nat.lt_trans h1 (hp.1 x hx)
    · by_cases h2 : k = k'
      · subst h2
        simp only [mapModify, Nat.lt_irrefl, if_false, if_true]
        exact hm
      · simp only [mapModify, h1, h2, if_false]
        unfold mapSorted
        simp only [List.map_cons]
        refine List.pairwise_cons.mpr ⟨?_, ih hrest⟩
        have hlt : k' < k :=
          Nat.lt_of_le_of_ne (Nat.le_of_not_lt h1) (fun h => h2 h.symm)
        exact mapModify_keys_lower dflt f k k' rest hlt hp.1

theorem mapFind_none_of_keys_ne {V : Type} (k : uint256) (m : List (uint256 × V))
    (h : ∀ e ∈ m, e.1 ≠ k) : mapFind k m = none := by
  induction m with
  | nil => rfl
  | cons e rest ih =>
    have he : e.1 ≠ k := h e (by simp)
    have : k ≠ e.1 := fun hh => he hh.symm
    simp only [mapFind, this, if_false]
    exact ih (fun e' he' => h e' (by simp [he']))

theorem keys_ne_of_sorted_cons {V : Type} (k : uint256) (v : V) (rest : List (uint256 × V))
    (hm : mapSorted ((k, v) :: rest)) : ∀ e ∈ rest, e.1 ≠ k := by
  intro e he
  have hp := List.pairwise_cons.mp hm
  have : k < e.1 := hp.1 e.1 (by simp; exact ⟨e.2, he⟩)
  exact (Nat.ne_of_lt this).symm

/-! ## Lemmas on `Flush` -/

theorem applyOp_mineCoin (s : MCDBWrapper) (op : BatchOp) :
    (applyOp s op).mineCoin = s.mineCoin := by
  cases op <;> rfl

theorem foldl_applyOp_mineCoin (b : List BatchOp) (s : MCDBWrapper) :
    (b.foldl applyOp s).mineCoin = s.mineCoin := by
  induction b generalizing s with
  | nil => rfl
  | cons op rest ih => simp only [List.foldl_cons, ih, applyOp_mineCoin]

theorem WriteBatch_mineCoin (ok : Bool) (s : MCDBWrapper) (b : List BatchOp) :
    (WriteBatch ok s b).mineCoin = s.mineCoin := by
  unfold WriteBatch
  split
  · exact foldl_applyOp_mineCoin b s
  · rfl

theorem commitIfLarge_mineCoin (env : FlushEnv) (st : FlushState) :
    (commitIfLarge env st).store.mineCoin = st.store.mineCoin := by
  unfold commitIfLarge
  split
  · exact WriteBatch_mineCoin _ _ _
  · rfl

theorem updateCreated_store (env : FlushEnv) (st : FlushState) (i : BranchChainTxInfo) :
    (updateCreated env st i).store = st.store ∧ (updateCreated env st i).batch = st.batch ∧
      (updateCreated env st i).nCommits = st.nCommits := by
  unfold updateCreated
  split
  · split
    · split <;> simp
    · split <;> simp
  · simp

theorem flushTxEntry_mineCoin (env : FlushEnv) (st : FlushState)
    (e : uint256 × BranchChainTxInfo) :
    (flushTxEntry env st e).store.mineCoin = st.store.mineCoin := by
  unfold flushTxEntry
  rw [(updateCreated_store env _ e.2).1, commitIfLarge_mineCoin]

theorem foldl_flushTxEntry_mineCoin (env : FlushEnv) (l : List (uint256 × BranchChainTxInfo))
    (st : FlushState) :
    (l.foldl (flushTxEntry env) st).store.mineCoin = st.store.mineCoin := by
  induction l generalizing st with
  | nil => rfl
  | cons e rest ih => simp only [List.foldl_cons, ih, flushTxEntry_mineCoin]

theorem foldl_flushRecvEntry_mineCoin (env : FlushEnv)
    (l : List (uint256 × BranchChainTxRecvInfo)) (st : FlushState) :
    (l.foldl (flushRecvEntry env) st).store.mineCoin = st.store.mineCoin := by
  induction l generalizing st with
  | nil => rfl
  | cons e rest ih =>
    simp only [List.foldl_cons, ih]
    unfold flushRecvEntry
    rw [commitIfLarge_mineCoin]

theorem flushBatched_mineCoin (env : FlushEnv) (db : BranchChainTxRecordsDb)
    (cache : BranchChainTxRecordsCache) :
    (flushBatched env db cache).store.mineCoin = db.m_db.mineCoin := by
  unfold flushBatched
  simp only
  split <;>
    simp only [foldl_flushRecvEntry_mineCoin, foldl_flushTxEntry_mineCoin]

/-- What the write-back of one coin leaves under its key, from what was there
(`old`) and the staged reports `vec`. -/
theorem flushCoinEntry_mineCoin_self (s : MCDBWrapper) (e : uint256 × List CoinReportInfo) :
    (flushCoinEntry s e).mineCoin e.1 = coinResult (s.mineCoin e.1) e.2 := by
  unfold flushCoinEntry coinResult mergedVec
  cases h : s.mineCoin e.1 with
  | none => simp [eraseMineCoin]
  | some d =>
    simp only
    split <;> simp [writeMineCoin, eraseMineCoin]

theorem flushCoinEntry_mineCoin_other (s : MCDBWrapper) (e : uint256 × List CoinReportInfo)
    (k : uint256) (h : k ≠ e.1) : (flushCoinEntry s e).mineCoin k = s.mineCoin k := by
  unfold flushCoinEntry
  simp only
  split <;> simp [writeMineCoin, eraseMineCoin, h]

theorem foldl_flushCoin_other (l : List (uint256 × List CoinReportInfo)) (s : MCDBWrapper)
    (k : uint256) (h : ∀ e ∈ l, e.1 ≠ k) :
    (l.foldl flushCoinEntry s).mineCoin k = s.mineCoin k := by
  induction l generalizing s with
  | nil => rfl
  | cons e rest ih =>
    simp only [List.foldl_cons]
    rw [ih _ (fun e' he' => h e' (by simp [he']))]
    exact flushCoinEntry_mineCoin_other s e k (fun hh => h e (by simp) hh.symm)

theorem foldl_flushCoin_find (l : List (uint256 × List CoinReportInfo)) (s : MCDBWrapper)
    (k : uint256) (hl : mapSorted l) :
    (l.foldl flushCoinEntry s).mineCoin k =
      match mapFind k l with
      | some vec => coinResult (s.mineCoin k) vec
      | none => s.mineCoin k := by
  induction l generalizing s with
  | nil => rfl
  | cons e rest ih =>
    obtain ⟨k', v⟩ := e
    have hrest : mapSorted rest := (List.pairwise_cons.mp hl).2
    simp only [List.foldl_cons]
    by_cases hk : k = k'
    · subst hk
      rw [foldl_flushCoin_other rest _ k (keys_ne_of_sorted_cons k v rest hl)]
      simp only [mapFind, if_true]
      exact flushCoinEntry_mineCoin_self s (k, v)
    · rw [ih _ hrest]
      simp only [mapFind, hk, if_false]
      rw [flushCoinEntry_mineCoin_other s (k', v) k hk]

/-- The coin-report list `Flush` leaves under a coin's key. -/
theorem Flush_mineCoin (env : FlushEnv) (db : BranchChainTxRecordsDb)
    (cache : BranchChainTxRecordsCache) (k : uint256)
    (h : mapSorted cache.m_mapCoinBeReport) :
    (Flush env db cache).1.m_db.mineCoin k =
      match mapFind k cache.m_mapCoinBeReport with
      | some vec => coinResult (db.m_db.mineCoin k) vec
      | none => db.m_db.mineCoin k := by
  unfold Flush
  simp only
  rw [foldl_flushCoin_find _ _ k h, WriteBatch_mineCoin, flushBatched_mineCoin]

/-- A coin without a persisted report list has none after `Flush`, whatever
is staged. -/
theorem Flush_mineCoin_absent (env : FlushEnv) (db : BranchChainTxRecordsDb)
    (cache : BranchChainTxRecordsCache) (k : uint256) (h : db.m_db.mineCoin k = none) :
    (Flush env db cache).1.m_db.mineCoin k = none := by
  unfold Flush
  simp only
  have h1 : (WriteBatch (flushRet env db cache) (flushBatched env db cache).store
      (flushBatched env db cache).batch).mineCoin k = none := by
    rw [WriteBatch_mineCoin, flushBatched_mineCoin]; exact h
  generalize WriteBatch (flushRet env db cache) (flushBatched env db cache).store
      (flushBatched env db cache).batch = s at h1
  induction cache.m_mapCoinBeReport generalizing s with
  | nil => exact h1
  | cons e rest ih =>
    simp only [List.foldl_cons]
    apply ih
    by_cases hk : k = e.1
    · subst hk
      rw [flushCoinEntry_mineCoin_self, h1]
      rfl
    · rw [flushCoinEntry_mineCoin_other s e k hk]; exact h1

/-! ## The coin-lock staging -/

theorem mergeFound_none (nv : CoinReportInfo) (d : List CoinReportInfo)
    (h : ∀ r ∈ d, r.reporttxid ≠ nv.reporttxid) : mergeFound nv d = none := by
  induction d with
  | nil => rfl
  | cons it rest ih =>
    have h1 : it.reporttxid ≠ nv.reporttxid := h it (by simp)
    simp only [mergeFound, h1, if_false]
    rw [ih (fun r hr => h r (by simp [hr]))]
    rfl

/-- What is staged for a coin with nothing staged after the connect of a
lock-mortgage transaction: one report, flagged add, or flagged delete when
the transaction also carries the unlock flag. -/
theorem UpdateLockMineCoin_connect_fresh (cache : BranchChainTxRecordsCache)
    (tx : MCTransaction) (hs : mapSorted cache.m_mapCoinBeReport)
    (hc : mapFind tx.coinpreouthash cache.m_mapCoinBeReport = none)
    (hl : tx.isLockMortgageMineCoin = true) :
    mapSorted (UpdateLockMineCoin cache tx true).m_mapCoinBeReport ∧
    mapFind tx.coinpreouthash (UpdateLockMineCoin cache tx true).m_mapCoinBeReport =
      some [⟨tx.reporttxid,
        if tx.isUnLockMortgageMineCoin then DbDataFlag.eDELETE else DbDataFlag.eADD⟩] := by
  have hs1 := mapSorted_mapModify [] (stageReportVec tx.reporttxid DbDataFlag.eADD)
    tx.coinpreouthash cache.m_mapCoinBeReport hs
  have hf1 := mapFind_mapModify_self [] (stageReportVec tx.reporttxid DbDataFlag.eADD)
    tx.coinpreouthash cache.m_mapCoinBeReport hs
  rw [hc] at hf1
  simp only [Option.getD_none] at hf1
  cases hu : tx.isUnLockMortgageMineCoin with
  | false =>
    simp only [UpdateLockMineCoin, updateArm, stageReport, hl, hu, hc, if_true,
      Option.getD_none, List.any_nil, Bool.false_eq_true, if_false]
    exact ⟨hs1, by rw [hf1]; rfl⟩
  | true =>
    simp only [UpdateLockMineCoin, updateArm, stageReport, hl, hu, hc, if_true,
      Option.getD_none, List.any_nil, Bool.false_eq_true, if_false]
    refine ⟨mapSorted_mapModify _ _ _ _ hs1, ?_⟩
    rw [mapFind_mapModify_self _ _ _ _ hs1, hf1]
    simp [stageReportVec, setReportFlag]

/-- Connect followed by disconnect of a lock-mortgage transaction, on a coin
with nothing staged, stages one report flagged delete. -/
theorem UpdateLockMineCoin_connect_disconnect (cache : BranchChainTxRecordsCache)
    (tx : MCTransaction) (hs : mapSorted cache.m_mapCoinBeReport)
    (hc : mapFind tx.coinpreouthash cache.m_mapCoinBeReport = none)
    (hl : tx.isLockMortgageMineCoin = true) :
    mapSorted (UpdateLockMineCoin (UpdateLockMineCoin cache tx true) tx false).m_mapCoinBeReport ∧
    mapFind tx.coinpreouthash
        (UpdateLockMineCoin (UpdateLockMineCoin cache tx true) tx false).m_mapCoinBeReport =
      some [⟨tx.reporttxid, DbDataFlag.eDELETE⟩] := by
  obtain ⟨hs1, hf1⟩ := UpdateLockMineCoin_connect_fresh cache tx hs hc hl
  generalize UpdateLockMineCoin cache tx true = c1 at hs1 hf1
  have hs2 := mapSorted_mapModify [] (stageReportVec tx.reporttxid DbDataFlag.eDELETE)
    tx.coinpreouthash c1.m_mapCoinBeReport hs1
  have hf2 := mapFind_mapModify_self [] (stageReportVec tx.reporttxid DbDataFlag.eDELETE)
    tx.coinpreouthash c1.m_mapCoinBeReport hs1
  rw [hf1] at hf2
  simp only [UpdateLockMineCoin, updateArm, stageReport, hl, hf1, if_true, Option.getD_some,
    List.any_cons, List.any_nil, beq_self_eq_true, Bool.or_false, Bool.false_eq_true, if_false]
  refine ⟨hs2, ?_⟩
  rw [hf2]
  simp [stageReportVec, setReportFlag]

/-! ## Claims on the coin-lock reports -/

/-- C1 (coin-lock end to end), evaluated on the code: on an index whose store
holds no report list for coin 5, the connect of the lock-mortgage transaction
(coin 5, report id 7) stages the add report, and after `Flush` the coin still
has no persisted list, so `IsMineCoinLock 5` is false where the claim says
true. -/
theorem C1_first_lock_is_not_persisted :
    (UpdateLockMineCoin emptyCache sampleLockTx true).m_mapCoinBeReport
      = [(5, [⟨7, DbDataFlag.eADD⟩])] ∧
    IsMineCoinLock emptyDb 5 = false ∧
    IsMineCoinLock
      (Flush sampleEnv emptyDb (UpdateLockMineCoin emptyCache sampleLockTx true)).1 5
      = false := by
  refine ⟨rfl, rfl, ?_⟩
  unfold IsMineCoinLock
  rw [Flush_mineCoin_absent sampleEnv emptyDb _ 5 rfl]

/-- C4 (coin-report merge on `Flush`), evaluated on the code: for coin 5 with
no persisted list and the staged add of report 7, folding the staged reports
over the empty list gives the one-report list, while `Flush` leaves the coin
without a persisted list. -/
theorem C4_staged_add_on_absent_key_is_dropped :
    [(⟨7, DbDataFlag.eADD⟩ : CoinReportInfo)].foldl mergeReport (reportList emptyDb 5)
      = [⟨7, DbDataFlag.eADD⟩] ∧
    reportList (Flush sampleEnv emptyDb ⟨[], [], [(5, [⟨7, DbDataFlag.eADD⟩])]⟩).1 5 = [] := by
  refine ⟨rfl, ?_⟩
  unfold reportList
  rw [Flush_mineCoin_absent sampleEnv emptyDb _ 5 rfl]
  rfl

/-- The merge of `Flush` on a coin whose key is present: the persisted list
becomes the fold of the staged reports over the list read, written back when
non-empty and erased otherwise. -/
theorem Flush_reportList_present (env : FlushEnv) (db : BranchChainTxRecordsDb)
    (cache : BranchChainTxRecordsCache) (k : uint256) (d vec : List CoinReportInfo)
    (hs : mapSorted cache.m_mapCoinBeReport) (hd : db.m_db.mineCoin k = some d)
    (hv : mapFind k cache.m_mapCoinBeReport = some vec) :
    reportList (Flush env db cache).1 k = vec.foldl mergeReport d := by
  unfold reportList
  rw [Flush_mineCoin env db cache k hs, hv, hd]
  simp only [coinResult]
  split
  · rfl
  · rename_i h
    simp only [gt_iff_lt, List.length_pos, ne_eq, not_not] at h
    rw [h]; rfl

/-- C9, as stated, fails: with report 7 already persisted for coin 5, connect
then disconnect of the lock-mortgage transaction (coin 5, report 7) followed
by `Flush` removes the persisted report. -/
theorem C9_counterexample :
    reportList
        (Flush sampleEnv sampleLockedDb
          (UpdateLockMineCoin (UpdateLockMineCoin emptyCache sampleLockTx true)
            sampleLockTx false)).1 5
      ≠ reportList sampleLockedDb 5 := by
  have h : reportList
        (Flush sampleEnv sampleLockedDb
          (UpdateLockMineCoin (UpdateLockMineCoin emptyCache sampleLockTx true)
            sampleLockTx false)).1 5 = [] := by
    unfold reportList
    rw [Flush_mineCoin sampleEnv sampleLockedDb _ 5 (by decide)]
    rfl
  rw [h]
  intro hh
  have h2 : reportList sampleLockedDb 5 = [⟨7, DbDataFlag.eADD⟩] := rfl
  rw [h2] at hh
  exact List.noConfusion hh

/-- C9 (amended): for every index, every cache with nothing staged for coin C
and every lock-mortgage transaction (coin C, report id R) such that no
persisted report of C has id R, the sequence connect, disconnect, `Flush`
leaves the persisted report list of C as it was. -/
theorem C9_connect_disconnect_cancels (env : FlushEnv) (db : BranchChainTxRecordsDb)
    (cache : BranchChainTxRecordsCache) (tx : MCTransaction)
    (hs : mapSorted cache.m_mapCoinBeReport)
    (hc : mapFind tx.coinpreouthash cache.m_mapCoinBeReport = none)
    (hl : tx.isLockMortgageMineCoin = true)
    (hR : ∀ r ∈ reportList db tx.coinpreouthash, r.reporttxid ≠ tx.reporttxid) :
    reportList
        (Flush env db (UpdateLockMineCoin (UpdateLockMineCoin cache tx true) tx false)).1
        tx.coinpreouthash
      = reportList db tx.coinpreouthash := by
  obtain ⟨hs2, hf2⟩ := UpdateLockMineCoin_connect_disconnect cache tx hs hc hl
  unfold reportList at hR ⊢
  rw [Flush_mineCoin env db _ tx.coinpreouthash hs2, hf2]
  cases hd : db.m_db.mineCoin tx.coinpreouthash with
  | none => rfl
  | some d =>
    rw [hd] at hR
    simp only [Option.getD_some] at hR
    have hm : mergeFound ⟨tx.reporttxid, DbDataFlag.eDELETE⟩ d = none :=
      mergeFound_none _ d hR
    simp only [coinResult, List.foldl_cons, List.foldl_nil, mergeReport, hm]
    split
    · rfl
    · rename_i h
      simp only [gt_iff_lt, List.length_pos, ne_eq, not_not] at h
      rw [h]; rfl

/-- Witness for C9 (amended): coin 5 with the persisted
report 9 and the lock-mortgage transaction of report 7. -/
theorem C9_connect_disconnect_cancels_witness :
    reportList
        (Flush sampleEnv
          ⟨{ emptyStore with
              mineCoin := fun k => if k = 5 then some [⟨9, DbDataFlag.eADD⟩] else none }, []⟩
          (UpdateLockMineCoin (UpdateLockMineCoin emptyCache sampleLockTx true)
            sampleLockTx false)).1 sampleLockTx.coinpreouthash
      = reportList
          ⟨{ emptyStore with
              mineCoin := fun k => if k = 5 then some [⟨9, DbDataFlag.eADD⟩] else none }, []⟩
          sampleLockTx.coinpreouthash :=
  C9_connect_disconnect_cancels sampleEnv _ emptyCache sampleLockTx (by decide) rfl rfl
    (by
      intro r hr
      have : r = ⟨9, DbDataFlag.eADD⟩ := by
        simpa [reportList, sampleLockTx, emptyStore] using hr
      rw [this]
      decide)

/-- C10 (`Flush` consumes the cache), evaluated on the code: `Flush` empties
the staged branch-transaction map and the staged receipt map and returns the
staged coin-report map as it received it; with the report of transaction 7
staged for coin 5, the coin-report map is not empty after `Flush`. -/
theorem C10_coin_reports_stay_staged :
    (∀ (env : FlushEnv) (db : BranchChainTxRecordsDb) (cache : BranchChainTxRecordsCache),
      (Flush env db cache).2.m_mapChainTxInfos = [] ∧
      (Flush env db cache).2.m_mapRecvRecord = [] ∧
      (Flush env db cache).2.m_mapCoinBeReport = cache.m_mapCoinBeReport) ∧
    (Flush sampleEnv emptyDb ⟨[], [], [(5, [⟨7, DbDataFlag.eADD⟩])]⟩).2.m_mapCoinBeReport
      = [(5, [⟨7, DbDataFlag.eADD⟩])] :=
  ⟨fun _ _ _ => ⟨rfl, rfl, rfl⟩, rfl⟩

/-! ## Claims on the created-branches list -/

theorem commitIfLarge_created (env : FlushEnv) (st : FlushState) :
    (commitIfLarge env st).created = st.created ∧
      (commitIfLarge env st).bCreatedChainTxChanged = st.bCreatedChainTxChanged := by
  unfold commitIfLarge
  split <;> exact ⟨rfl, rfl⟩

theorem foldl_flushRecvEntry_created (env : FlushEnv)
    (l : List (uint256 × BranchChainTxRecvInfo)) (st : FlushState) :
    (l.foldl (flushRecvEntry env) st).created = st.created := by
  induction l generalizing st with
  | nil => rfl
  | cons e rest ih =>
    simp only [List.foldl_cons, ih]
    unfold flushRecvEntry
    exact (commitIfLarge_created env _).1

/-- The created-branches list after `Flush` is the one the first loop leaves. -/
theorem Flush_created (env : FlushEnv) (db : BranchChainTxRecordsDb)
    (cache : BranchChainTxRecordsCache) :
    (Flush env db cache).1.m_vCreatedBranchTxs =
      (cache.m_mapChainTxInfos.foldl (flushTxEntry env)
        ⟨db.m_db, [], 0, db.m_vCreatedBranchTxs, false⟩).created := by
  unfold Flush flushBatched
  simp only
  split <;> simp only [foldl_flushRecvEntry_created]

/-- Unrecording on a cache whose branch-transaction map is empty (as `Flush`
leaves it) creates a record with the default-constructed `txnVersion`; when
that is not `CREATE_BRANCH_VERSION`, the next `Flush` leaves the
created-branches list as it was. -/
theorem Flush_Del_fresh_keeps_created (env : FlushEnv) (dflt : BranchChainTxInfo)
    (db : BranchChainTxRecordsDb) (cache : BranchChainTxRecordsCache) (tx : MCTransaction)
    (hc : cache.m_mapChainTxInfos = [])
    (hv : dflt.txnVersion ≠ env.CREATE_BRANCH_VERSION) :
    (Flush env db (DelBranchChainTxRecord dflt cache tx)).1.m_vCreatedBranchTxs =
      db.m_vCreatedBranchTxs := by
  rw [Flush_created]
  unfold DelBranchChainTxRecord
  split
  · rw [hc]; rfl
  · simp only [hc, mapModify, List.foldl_cons, List.foldl_nil, flushTxEntry, updateCreated, hv,
      if_false]
    exact (commitIfLarge_created env _).1

/-- C2 (branch-create end to end), evaluated on the code: after recording the
branch-create transaction 7 in block 9 and `Flush`, `IsBranchCreated 7` is
true; after unrecording it on the flushed cache and a second `Flush`,
`IsBranchCreated 7` is still true where the claim says false: the record
staged by the unrecord carries the default `txnVersion`, not
`CREATE_BRANCH_VERSION`, so `Flush` skips the list update. -/
theorem C2_unrecord_after_flush_keeps_branch :
    IsBranchCreated
      (Flush sampleEnv emptyDb
        (AddBranchChainTxRecord sampleDflt emptyCache sampleCreateTx 9 0)).1 7 = true ∧
    (Flush sampleEnv emptyDb
        (AddBranchChainTxRecord sampleDflt emptyCache sampleCreateTx 9 0)).2 = emptyCache ∧
    (DelBranchChainTxRecord sampleDflt emptyCache sampleCreateTx).m_mapChainTxInfos
      = [(7, { sampleDflt with
                createchaininfo := ⟨7, [1], [2], 0⟩, flags := DbDataFlag.eDELETE })] ∧
    IsBranchCreated
      (Flush sampleEnv
        (Flush sampleEnv emptyDb
          (AddBranchChainTxRecord sampleDflt emptyCache sampleCreateTx 9 0)).1
        (DelBranchChainTxRecord sampleDflt
          (Flush sampleEnv emptyDb
            (AddBranchChainTxRecord sampleDflt emptyCache sampleCreateTx 9 0)).2
          sampleCreateTx)).1 7 = true := by
  refine ⟨rfl, rfl, rfl, ?_⟩
  have h := Flush_Del_fresh_keeps_created sampleEnv sampleDflt
    (Flush sampleEnv emptyDb
      (AddBranchChainTxRecord sampleDflt emptyCache sampleCreateTx 9 0)).1
    (Flush sampleEnv emptyDb
      (AddBranchChainTxRecord sampleDflt emptyCache sampleCreateTx 9 0)).2
    sampleCreateTx rfl (by decide)
  unfold IsBranchCreated
  rw [h]
  rfl

/-! ## The receipt records -/

theorem commitIfLarge_pending (env : FlushEnv) (st : FlushState)
    (hok : ∀ k, env.commitOk k = true) : pending (commitIfLarge env st) = pending st := by
  unfold commitIfLarge
  split
  · simp [pending, WriteBatch, hok]
  · rfl

theorem updateCreated_pending (env : FlushEnv) (st : FlushState) (i : BranchChainTxInfo) :
    pending (updateCreated env st i) = pending st := by
  obtain ⟨h1, h2, _⟩ := updateCreated_store env st i
  unfold pending
  rw [h1, h2]

theorem flushTxEntry_pending (env : FlushEnv) (st : FlushState)
    (e : uint256 × BranchChainTxInfo) (hok : ∀ k, env.commitOk k = true) :
    pending (flushTxEntry env st e) = applyOp (pending st) (txOp e) := by
  unfold flushTxEntry
  simp only
  rw [updateCreated_pending, commitIfLarge_pending env _ hok]
  simp [pending]

theorem flushRecvEntry_pending (env : FlushEnv) (st : FlushState)
    (e : uint256 × BranchChainTxRecvInfo) (hok : ∀ k, env.commitOk k = true) :
    pending (flushRecvEntry env st e) = applyOp (pending st) (recvOp e) := by
  unfold flushRecvEntry
  simp only
  rw [commitIfLarge_pending env _ hok]
  simp [pending]

theorem applyOp_txOp_recvData (s : MCDBWrapper) (e : uint256 × BranchChainTxInfo) :
    (applyOp s (txOp e)).recvData = s.recvData := by
  unfold txOp
  split <;> rfl

theorem foldl_flushTxEntry_recvData (env : FlushEnv) (l : List (uint256 × BranchChainTxInfo))
    (st : FlushState) (hok : ∀ k, env.commitOk k = true) :
    (pending (l.foldl (flushTxEntry env) st)).recvData = (pending st).recvData := by
  induction l generalizing st with
  | nil => rfl
  | cons e rest ih =>
    simp only [List.foldl_cons]
    rw [ih, flushTxEntry_pending env st e hok, applyOp_txOp_recvData]

theorem applyOp_recvOp_self (s : MCDBWrapper) (e : uint256 × BranchChainTxRecvInfo) :
    (applyOp s (recvOp e)).recvData e.1 = recvResult e.2 := by
  unfold recvOp recvResult
  split <;> simp [applyOp, *]

theorem applyOp_recvOp_other (s : MCDBWrapper) (e : uint256 × BranchChainTxRecvInfo)
    (k : uint256) (h : k ≠ e.1) : (applyOp s (recvOp e)).recvData k = s.recvData k := by
  unfold recvOp
  split <;> simp [applyOp, h]

theorem foldl_flushRecvEntry_other (env : FlushEnv)
    (l : List (uint256 × BranchChainTxRecvInfo)) (st : FlushState) (k : uint256)
    (hok : ∀ k, env.commitOk k = true) (h : ∀ e ∈ l, e.1 ≠ k) :
    (pending (l.foldl (flushRecvEntry env) st)).recvData k = (pending st).recvData k := by
  induction l generalizing st with
  | nil => rfl
  | cons e rest ih =>
    simp only [List.foldl_cons]
    rw [ih _ (fun e' he' => h e' (by simp [he'])), flushRecvEntry_pending env st e hok]
    exact applyOp_recvOp_other _ e k (fun hh => h e (by simp) hh.symm)

theorem foldl_flushRecvEntry_find (env : FlushEnv)
    (l : List (uint256 × BranchChainTxRecvInfo)) (st : FlushState) (k : uint256)
    (hok : ∀ k, env.commitOk k = true) (hl : mapSorted l) :
    (pending (l.foldl (flushRecvEntry env) st)).recvData k =
      match mapFind k l with
      | some v => recvResult v
      | none => (pending st).recvData k := by
  induction l generalizing st with
  | nil => rfl
  | cons e rest ih =>
    obtain ⟨k', v⟩ := e
    have hrest : mapSorted rest := (List.pairwise_cons.mp hl).2
    simp only [List.foldl_cons]
    by_cases hk : k = k'
    · subst hk
      rw [foldl_flushRecvEntry_other env rest _ k hok (keys_ne_of_sorted_cons k v rest hl),
        flushRecvEntry_pending env st (k, v) hok]
      simp only [mapFind, if_true]
      exact applyOp_recvOp_self _ (k, v)
    · rw [ih _ hrest, flushRecvEntry_pending env st (k', v) hok]
      simp only [mapFind, hk, if_false]
      rw [applyOp_recvOp_other _ (k', v) k hk]

theorem flushCoinEntry_recvData (s : MCDBWrapper) (e : uint256 × List CoinReportInfo) :
    (flushCoinEntry s e).recvData = s.recvData := by
  unfold flushCoinEntry
  simp only
  split <;> rfl

theorem foldl_flushCoin_recvData (l : List (uint256 × List CoinReportInfo)) (s : MCDBWrapper) :
    (l.foldl flushCoinEntry s).recvData = s.recvData := by
  induction l generalizing s with
  | nil => rfl
  | cons e rest ih => simp only [List.foldl_cons, ih, flushCoinEntry_recvData]

/-- The receipt record `Flush` leaves under a key when every commit succeeds:
the staged record for a staged add, none for a staged delete, what was there
for a key that is not staged. -/
theorem Flush_recvData (env : FlushEnv) (db : BranchChainTxRecordsDb)
    (cache : BranchChainTxRecordsCache) (k : uint256)
    (hok : ∀ k, env.commitOk k = true) (hs : mapSorted cache.m_mapRecvRecord) :
    (Flush env db cache).1.m_db.recvData k =
      match mapFind k cache.m_mapRecvRecord with
      | some v => recvResult v
      | none => db.m_db.recvData k := by
  have hfin : (WriteBatch (flushRet env db cache) (flushBatched env db cache).store
      (flushBatched env db cache).batch) = pending (flushBatched env db cache) := by
    simp [WriteBatch, flushRet, hok, pending]
  have hb : (pending (flushBatched env db cache)).recvData k =
      (pending (cache.m_mapRecvRecord.foldl (flushRecvEntry env)
        (cache.m_mapChainTxInfos.foldl (flushTxEntry env)
          ⟨db.m_db, [], 0, db.m_vCreatedBranchTxs, false⟩))).recvData k := by
    unfold flushBatched
    simp only
    split
    · simp [pending, applyOp]
    · rfl
  unfold Flush
  simp only
  rw [foldl_flushCoin_recvData, hfin, hb, foldl_flushRecvEntry_find env _ _ k hok hs,
    foldl_flushTxEntry_recvData env _ _ hok]
  rfl

/-- C3 (receipt end to end): for every step-2 transaction `tx`, after
`AddBranchChainRecvTxRecord tx B1` and a `Flush` whose commits all succeed,
`IsTxRecvRepeat tx block` is true for every block whose hash differs from
`B1` and false for every block whose hash is `B1`; the receipt is stored
under the origin id, and the record under `tx`'s own id, when that differs
from the origin id and was not staged, is what it was. -/
theorem C3_receipt_end_to_end (env : FlushEnv) (GetOriTxHash : MCTransaction → uint256)
    (dflt : BranchChainTxRecvInfo) (db : BranchChainTxRecordsDb)
    (cache : BranchChainTxRecordsCache) (tx : MCTransaction) (B1 : uint256)
    (hs : mapSorted cache.m_mapRecvRecord) (h2 : tx.isBranchChainTransStep2 = true)
    (hok : ∀ k, env.commitOk k = true) :
    (∀ blk : MCBlock, blk.hash ≠ B1 →
      IsTxRecvRepeat GetOriTxHash
        (Flush env db (AddBranchChainRecvTxRecord GetOriTxHash dflt cache tx B1)).1 tx
        (some blk) = true) ∧
    (∀ blk : MCBlock, blk.hash = B1 →
      IsTxRecvRepeat GetOriTxHash
        (Flush env db (AddBranchChainRecvTxRecord GetOriTxHash dflt cache tx B1)).1 tx
        (some blk) = false) ∧
    (Flush env db (AddBranchChainRecvTxRecord GetOriTxHash dflt cache tx B1)).1.m_db.recvData
        (GetOriTxHash tx) = some ⟨B1, DbDataFlag.eADD⟩ ∧
    (tx.hash ≠ GetOriTxHash tx → mapFind tx.hash cache.m_mapRecvRecord = none →
      (Flush env db (AddBranchChainRecvTxRecord GetOriTxHash dflt cache tx B1)).1.m_db.recvData
        tx.hash = db.m_db.recvData tx.hash) := by
  have hadd : (AddBranchChainRecvTxRecord GetOriTxHash dflt cache tx B1).m_mapRecvRecord =
      mapModify dflt (fun _ => ⟨B1, DbDataFlag.eADD⟩) (GetOriTxHash tx)
        cache.m_mapRecvRecord := by
    simp [AddBranchChainRecvTxRecord, h2]
  have hs' : mapSorted (AddBranchChainRecvTxRecord GetOriTxHash dflt cache tx B1).m_mapRecvRecord := by
    rw [hadd]; exact mapSorted_mapModify _ _ _ _ hs
  have hstored :
      (Flush env db (AddBranchChainRecvTxRecord GetOriTxHash dflt cache tx B1)).1.m_db.recvData
        (GetOriTxHash tx) = some ⟨B1, DbDataFlag.eADD⟩ := by
    rw [Flush_recvData env db _ _ hok hs', hadd, mapFind_mapModify_self _ _ _ _ hs]
    rfl
  refine ⟨?_, ?_, hstored, ?_⟩
  · intro blk hne
    simp [IsTxRecvRepeat, h2, hstored, hne]
  · intro blk heq
    simp [IsTxRecvRepeat, h2, hstored, heq]
  · intro hne hnone
    rw [Flush_recvData env db _ _ hok hs', hadd,
      mapFind_mapModify_other _ _ _ _ _ hne, hnone]

/-- Witness for C3: the step-2 transaction 21 with origin
121, received in block 9, on the empty index and the empty cache. -/
theorem C3_receipt_end_to_end_witness :
    (∀ blk : MCBlock, blk.hash ≠ 9 →
      IsTxRecvRepeat sampleOri
        (Flush sampleEnv emptyDb
          (AddBranchChainRecvTxRecord sampleOri ⟨0, DbDataFlag.eADD⟩ emptyCache
            sampleStep2Tx 9)).1 sampleStep2Tx (some blk) = true) ∧
    (∀ blk : MCBlock, blk.hash = 9 →
      IsTxRecvRepeat sampleOri
        (Flush sampleEnv emptyDb
          (AddBranchChainRecvTxRecord sampleOri ⟨0, DbDataFlag.eADD⟩ emptyCache
            sampleStep2Tx 9)).1 sampleStep2Tx (some blk) = false) ∧
    (Flush sampleEnv emptyDb
        (AddBranchChainRecvTxRecord sampleOri ⟨0, DbDataFlag.eADD⟩ emptyCache
          sampleStep2Tx 9)).1.m_db.recvData (sampleOri sampleStep2Tx)
      = some ⟨9, DbDataFlag.eADD⟩ ∧
    (sampleStep2Tx.hash ≠ sampleOri sampleStep2Tx →
      mapFind sampleStep2Tx.hash emptyCache.m_mapRecvRecord = none →
      (Flush sampleEnv emptyDb
        (AddBranchChainRecvTxRecord sampleOri ⟨0, DbDataFlag.eADD⟩ emptyCache
          sampleStep2Tx 9)).1.m_db.recvData sampleStep2Tx.hash
        = emptyDb.m_db.recvData sampleStep2Tx.hash) :=
  C3_receipt_end_to_end sampleEnv sampleOri ⟨0, DbDataFlag.eADD⟩ emptyDb emptyCache
    sampleStep2Tx 9 (by decide) rfl (fun _ => rfl)

/-- C5 (duplicate-receipt check): `IsTxRecvRepeat tx block` is true exactly
when `tx` is a step-2 transaction, a receipt record is stored under its origin
id, and either no block is given or the hash of the given block differs from
the stored block hash; in every other case it is false. -/
theorem C5_IsTxRecvRepeat_iff (GetOriTxHash : MCTransaction → uint256)
    (db : BranchChainTxRecordsDb) (tx : MCTransaction) (pBlock : Option MCBlock) :
    (IsTxRecvRepeat GetOriTxHash db tx pBlock = true ↔
      tx.isBranchChainTransStep2 = true ∧
      ∃ recvInfo, db.m_db.recvData (GetOriTxHash tx) = some recvInfo ∧
        (pBlock = none ∨ ∃ b, pBlock = some b ∧ b.hash ≠ recvInfo.blockhash)) ∧
    (IsTxRecvRepeat GetOriTxHash db tx pBlock = false ↔
      tx.isBranchChainTransStep2 = false ∨
      db.m_db.recvData (GetOriTxHash tx) = none ∨
      ∃ recvInfo b, db.m_db.recvData (GetOriTxHash tx) = some recvInfo ∧
        pBlock = some b ∧ b.hash = recvInfo.blockhash) := by
  unfold IsTxRecvRepeat
  cases h2 : tx.isBranchChainTransStep2 with
  | false => simp
  | true =>
    cases hr : db.m_db.recvData (GetOriTxHash tx) with
    | none => simp
    | some recvInfo =>
      cases pBlock with
      | none => simp
      | some b =>
        by_cases hb : b.hash = recvInfo.blockhash
        · simp [hb]
        · simp [hb]


/-! ## Claims on the classifier -/

/-- C7 (failure means nonstandard and no solutions), evaluated on the code:
on a version-1 witness program `Solver` returns false and leaves the type tag
at the value it had at the call, whatever that was; on a mine-mortgage script
with a six-byte height it returns false and leaves the tag `TX_PUBKEY` it was
called with. -/
theorem C7_failure_keeps_caller_type :
    (∀ (ops : BranchOpcodes) (typeRet : txnouttype),
      Solver ops sampleWitnessV1 typeRet = ⟨false, typeRet, []⟩) ∧
    Solver sampleOps sampleWitnessV1 txnouttype.TX_PUBKEY
      = ⟨false, txnouttype.TX_PUBKEY, []⟩ ∧
    Solver sampleOps sampleLongHeight txnouttype.TX_PUBKEY
      = ⟨false, txnouttype.TX_PUBKEY, []⟩ := by
  refine ⟨fun _ _ => rfl, rfl, ?_⟩
  decide

/-- C8 (failed multisig arity check), evaluated on the code: on
`OP_2 <key> OP_1 OP_CHECKMULTISIG` (m = 2 > n = 1) `Solver` returns false with
the type tag `TX_MULTISIG` and the three captured solutions still in the
list. -/
theorem C8_failed_arity_keeps_multisig_tag :
    Solver sampleOps sampleBadMultisig txnouttype.TX_NONSTANDARD
      = ⟨false, txnouttype.TX_MULTISIG, [[2], sampleKey, [1]]⟩ := by
  decide


/-! ## Reading the tokens of a multisig script -/

theorem readData_append (opcode : Nat) (d rest : MCScript) :
    readData opcode d.length (d ++ rest) = ⟨true, opcode, d, rest⟩ := by
  simp [readData]

theorem GetOp_pushBytes (f : PushForm) (d rest : MCScript)
    (hd : 33 ≤ d.length ∧ d.length ≤ 65) :
    GetOp (pushBytes f d ++ rest) = ⟨true, (pushBytes f d).headD 0, d, rest⟩ := by
  obtain ⟨h1, h2⟩ := hd
  cases f with
  | direct =>
    have h3 : d.length ≤ OP_PUSHDATA4 := by show d.length ≤ 0x4e; omega
    have h4 : d.length < OP_PUSHDATA1 := by show d.length < 0x4c; omega
    simp only [pushBytes, List.cons_append, GetOp, h3, h4, if_true, List.headD_cons]
    exact readData_append _ d rest
  | pushdata1 =>
    simp only [pushBytes, List.cons_append, GetOp, List.headD_cons]
    simp only [show OP_PUSHDATA1 ≤ OP_PUSHDATA4 by decide, if_true,
      show ¬ OP_PUSHDATA1 < OP_PUSHDATA1 by decide, if_false]
    exact readData_append _ d rest
  | pushdata2 =>
    have hle : ReadLE 2 (d.length % 256 :: d.length / 256 :: (d ++ rest)) = d.length := by
      simp only [ReadLE]; omega
    simp only [pushBytes, List.cons_append, GetOp, List.headD_cons]
    simp only [show OP_PUSHDATA2 ≤ OP_PUSHDATA4 by decide, if_true,
      show ¬ OP_PUSHDATA2 < OP_PUSHDATA1 by decide, if_false,
      show ¬ OP_PUSHDATA2 = OP_PUSHDATA1 by decide, hle]
    have hlen : ¬ (d.length % 256 :: d.length / 256 :: (d ++ rest)).length < 2 := by
      simp
    simp only [hlen, if_false, List.drop_succ_cons, List.drop_zero]
    exact readData_append _ d rest
  | pushdata4 =>
    have hle : ReadLE 4 (d.length % 256 :: d.length / 256 % 256 ::
        d.length / 65536 % 256 :: d.length / 16777216 :: (d ++ rest)) = d.length := by
      simp only [ReadLE]; omega
    simp only [pushBytes, List.cons_append, GetOp, List.headD_cons]
    simp only [show OP_PUSHDATA4 ≤ OP_PUSHDATA4 by decide, if_true,
      show ¬ OP_PUSHDATA4 < OP_PUSHDATA1 by decide, if_false,
      show ¬ OP_PUSHDATA4 = OP_PUSHDATA1 by decide,
      show ¬ OP_PUSHDATA4 = OP_PUSHDATA2 by decide, hle]
    have hlen : ¬ (d.length % 256 :: d.length / 256 % 256 ::
        d.length / 65536 % 256 :: d.length / 16777216 :: (d ++ rest)).length < 4 := by
      simp
    simp only [hlen, if_false, List.drop_succ_cons, List.drop_zero]
    exact readData_append _ d rest

theorem EncodeOP_N_cases (n : Nat) (hn : n ≤ 16) :
    EncodeOP_N n = OP_0 ∧ n = 0 ∨
      (OP_1 ≤ EncodeOP_N n ∧ EncodeOP_N n ≤ OP_16 ∧ EncodeOP_N n = n + 0x50 ∧ 1 ≤ n) := by
  unfold EncodeOP_N
  by_cases h : n = 0
  · left; simp [h]
  · right
    simp only [h, if_false]
    refine ⟨?_, ?_, ?_, ?_⟩
    · show 0x51 ≤ 0x51 + n - 1; omega
    · show 0x51 + n - 1 ≤ 0x60; omega
    · show 0x51 + n - 1 = n + 0x50; omega
    · omega

theorem GetOp_smallint (n : Nat) (hn : n ≤ 16) (rest : MCScript) :
    GetOp (EncodeOP_N n :: rest) = ⟨true, EncodeOP_N n, [], rest⟩ := by
  rcases EncodeOP_N_cases n hn with ⟨h, _⟩ | ⟨h1, h2, _, _⟩
  · rw [h]
    simp [GetOp, readData]
  · have h3 : ¬ EncodeOP_N n ≤ OP_PUSHDATA4 := by
      have : OP_1 ≤ EncodeOP_N n := h1
      simp only [OP_1, OP_PUSHDATA4] at *
      omega
    simp only [GetOp, h3, if_false]

theorem DecodeOP_N_EncodeOP_N (n : Nat) (hn : n ≤ 16) : DecodeOP_N (EncodeOP_N n) = n := by
  rcases EncodeOP_N_cases n hn with ⟨h, h0⟩ | ⟨_, _, h3, h4⟩
  · rw [h, h0]; rfl
  · rw [h3]
    unfold DecodeOP_N
    have : ¬ n + 0x50 = OP_0 := by simp only [OP_0]; omega
    simp only [this, if_false, OP_1]
    omega


theorem GetOp_opcode (op : Nat) (h : OP_PUSHDATA4 < op) (rest : MCScript) :
    GetOp (op :: rest) = ⟨true, op, [], rest⟩ := by
  have h3 : ¬ op ≤ OP_PUSHDATA4 := Nat.not_le_of_lt h
  simp only [GetOp, h3, if_false]

theorem pushesBytes_length (keys : List (PushForm × valtype)) :
    keys.length ≤ (pushesBytes keys).length := by
  induction keys with
  | nil => simp [pushesBytes]
  | cons k ks ih =>
    have : 1 ≤ (pushBytes k.1 k.2).length := by
      cases h : k.1 <;> simp [pushBytes, h]
    simp only [pushesBytes, List.length_append, List.length_cons]
    omega

theorem GetOp_pushes_head (keys : List (PushForm × valtype))
    (hk : ∀ k ∈ keys, 33 ≤ k.2.length ∧ k.2.length ≤ 65) (n : Nat) (hn : n ≤ 16)
    (rest : MCScript) :
    (GetOp (pushesBytes keys ++ EncodeOP_N n :: rest)).ok = true ∧
      keys.length ≤ (GetOp (pushesBytes keys ++ EncodeOP_N n :: rest)).pc.length + 1 := by
  cases keys with
  | nil =>
    simp only [pushesBytes, List.nil_append, GetOp_smallint n hn rest]
    simp
  | cons k ks =>
    have h := GetOp_pushBytes k.1 k.2 (pushesBytes ks ++ EncodeOP_N n :: rest)
      (hk k (by simp))
    simp only [pushesBytes, List.append_assoc, h]
    have := pushesBytes_length ks
    simp only [List.length_append, List.length_cons]
    refine ⟨trivial, ?_⟩
    omega

theorem pubkeysLoop_keys (keys : List (PushForm × valtype))
    (hk : ∀ k ∈ keys, 33 ≤ k.2.length ∧ k.2.length ≤ 65) (n : Nat) (hn : n ≤ 16)
    (rest : MCScript) (sols : List valtype) (fuel : Nat) (hf : keys.length ≤ fuel) :
    pubkeysLoop fuel (GetOp (pushesBytes keys ++ EncodeOP_N n :: rest)) sols =
      (⟨true, EncodeOP_N n, [], rest⟩, sols ++ keys.map Prod.snd) := by
  induction keys generalizing sols fuel with
  | nil =>
    simp only [pushesBytes, List.nil_append, GetOp_smallint n hn rest, List.map_nil,
      List.append_nil]
    cases fuel with
    | zero => rfl
    | succ f => simp [pubkeysLoop]
  | cons k ks ih =>
    have hk' : ∀ k ∈ ks, 33 ≤ k.2.length ∧ k.2.length ≤ 65 :=
      fun x hx => hk x (by simp [hx])
    have h := GetOp_pushBytes k.1 k.2 (pushesBytes ks ++ EncodeOP_N n :: rest)
      (hk k (by simp))
    have hok := (GetOp_pushes_head ks hk' n hn rest).1
    cases fuel with
    | zero => simp at hf
    | succ f =>
      have hf' : ks.length ≤ f := by simpa using hf
      simp only [pushesBytes, List.append_assoc, h, pubkeysLoop, hk k (by simp), and_self,
        if_true, hok, Bool.not_true, Bool.false_eq_true, if_false]
      rw [ih hk' _ f hf']
      simp


theorem BranchOpcodes.WF.not_template {ops : BranchOpcodes} (h : ops.WF) (x op : Nat)
    (hx : x ∈ ops.all) (hop : op ∈ templateOpcodes) : op ≠ x := by
  intro he
  exact (h.2 x hx).2.2 (he ▸ hop)

theorem EncodeOP_N_ne (n : Nat) (hn : n ≤ 16) (op : Nat) (hop : OP_16 < op) :
    EncodeOP_N n ≠ op := by
  rcases EncodeOP_N_cases n hn with ⟨h, _⟩ | ⟨_, h2, _, _⟩
  · rw [h]; intro he; rw [← he] at hop; exact absurd hop (by decide)
  · intro he; rw [he] at h2; exact absurd hop (Nat.not_lt_of_le h2)

/-- The multisig script does not match the pay-to-pubkey template. -/
theorem matchLoop_multisig_pubkey (ops : BranchOpcodes) (m n : Nat) (hm : m ≤ 16)
    (keys : List (PushForm × valtype)) (fuel : Nat) :
    matchLoop ops fuel (multisigScript m keys n) [OP_PUBKEY, OP_CHECKSIG] [] = .brk := by
  cases fuel with
  | zero => rfl
  | succ f =>
    simp [matchLoop, multisigScript, GetOp_smallint m hm, GetOp_opcode OP_PUBKEY (by decide),
      tokenCheck]

/-- The multisig script does not match the pay-to-pubkey-hash template. -/
theorem matchLoop_multisig_pubkeyhash (ops : BranchOpcodes) (hops : ops.WF) (m n : Nat)
    (hm : m ≤ 16) (keys : List (PushForm × valtype)) (fuel : Nat) :
    matchLoop ops fuel (multisigScript m keys n)
      [OP_DUP, OP_HASH160, OP_PUBKEYHASH, OP_EQUALVERIFY, OP_CHECKSIG] [] = .brk := by
  cases fuel with
  | zero => rfl
  | succ f =>
    have h1 : OP_DUP ≠ ops.OP_HASH256_DATA :=
      hops.not_template _ _ (by simp [BranchOpcodes.all]) (by simp [templateOpcodes])
    have h2 : OP_DUP ≠ ops.OP_BLOCK_HIGH :=
      hops.not_template _ _ (by simp [BranchOpcodes.all]) (by simp [templateOpcodes])
    have h3 : EncodeOP_N m ≠ OP_DUP := EncodeOP_N_ne m hm _ (by decide)
    simp [matchLoop, multisigScript, GetOp_smallint m hm, GetOp_opcode OP_DUP (by decide),
      tokenCheck, h1, h2, h3]

/-- The multisig script matches the multisig template, capturing `m`, the
pushed keys in order, and `n`. -/
theorem matchLoop_multisig (ops : BranchOpcodes) (hops : ops.WF) (m n : Nat) (hm : m ≤ 16)
    (hn : n ≤ 16) (keys : List (PushForm × valtype))
    (hk : ∀ k ∈ keys, 33 ≤ k.2.length ∧ k.2.length ≤ 65) (fuel : Nat) (hf : 4 ≤ fuel) :
    matchLoop ops fuel (multisigScript m keys n)
        [OP_SMALLINTEGER, OP_PUBKEYS, OP_SMALLINTEGER, OP_CHECKMULTISIG] []
      = .found ([m] :: keys.map Prod.snd ++ [[n]]) := by
  obtain ⟨f, rfl⟩ : ∃ f, fuel = f + 4 := ⟨fuel - 4, by omega⟩
  have h1 : OP_CHECKMULTISIG ≠ ops.OP_HASH256_DATA :=
    hops.not_template _ _ (by simp [BranchOpcodes.all]) (by simp [templateOpcodes])
  have h2 : OP_CHECKMULTISIG ≠ ops.OP_BLOCK_HIGH :=
    hops.not_template _ _ (by simp [BranchOpcodes.all]) (by simp [templateOpcodes])
  have hm' : EncodeOP_N m = OP_0 ∨ OP_1 ≤ EncodeOP_N m ∧ EncodeOP_N m ≤ OP_16 := by
    rcases EncodeOP_N_cases m hm with ⟨h, _⟩ | ⟨a, b, _, _⟩
    · exact Or.inl h
    · exact Or.inr ⟨a, b⟩
  have hn' : EncodeOP_N n = OP_0 ∨ OP_1 ≤ EncodeOP_N n ∧ EncodeOP_N n ≤ OP_16 := by
    rcases EncodeOP_N_cases n hn with ⟨h, _⟩ | ⟨a, b, _, _⟩
    · exact Or.inl h
    · exact Or.inr ⟨a, b⟩
  have hhead := GetOp_pushes_head keys hk n hn [OP_CHECKMULTISIG]
  have hloop := pubkeysLoop_keys keys hk n hn [OP_CHECKMULTISIG] [[m]] _ hhead.2
  -- first round: the small integer m
  rw [matchLoop]
  simp only [multisigScript, GetOp_smallint m hm, GetOp_opcode OP_SMALLINTEGER (by decide),
    tokenCheck, hm', DecodeOP_N_EncodeOP_N m hm]
  simp only [reduceCtorEq, false_and, if_false, Bool.not_true, Bool.false_eq_true,
    show ¬ OP_SMALLINTEGER = OP_PUBKEYS by decide, show ¬ OP_SMALLINTEGER = OP_PUBKEY by decide,
    show ¬ OP_SMALLINTEGER = OP_PUBKEYHASH by decide, if_true, List.nil_append]
  -- second round: the keys, then the small integer n
  rw [matchLoop]
  simp only [hhead.1, GetOp_opcode OP_PUBKEYS (by decide), hloop,
    GetOp_opcode OP_SMALLINTEGER (by decide), tokenCheck, hn', DecodeOP_N_EncodeOP_N n hn]
  simp only [List.append_eq_nil, reduceCtorEq, and_false, false_and, if_false, Bool.not_true,
    Bool.false_eq_true, show ¬ OP_SMALLINTEGER = OP_PUBKEY by decide,
    show ¬ OP_SMALLINTEGER = OP_PUBKEYHASH by decide, if_true]
  -- third round: OP_CHECKMULTISIG
  rw [matchLoop]
  simp only [GetOp_opcode OP_CHECKMULTISIG (by decide), tokenCheck]
  simp only [reduceCtorEq, false_and, and_self, if_false, Bool.not_true, Bool.false_eq_true,
    show ¬ OP_CHECKMULTISIG = OP_PUBKEYS by decide,
    show ¬ OP_CHECKMULTISIG = OP_PUBKEY by decide,
    show ¬ OP_CHECKMULTISIG = OP_PUBKEYHASH by decide,
    show ¬ OP_CHECKMULTISIG = OP_SMALLINTEGER by decide, h1, h2, ne_eq, not_true_eq_false,
    or_self]
  -- fourth round: both ends reached
  rw [matchLoop]
  simp


theorem multisigScript_not_p2sh (m n : Nat) (hm : m ≤ 16) (keys : List (PushForm × valtype)) :
    IsPayToScriptHash (multisigScript m keys n) = false := by
  have h : EncodeOP_N m ≠ OP_HASH160 := EncodeOP_N_ne m hm _ (by decide)
  simp [IsPayToScriptHash, multisigScript, h]

theorem multisigScript_not_witness (m n : Nat) (keys : List (PushForm × valtype))
    (hk : ∀ k ∈ keys, 33 ≤ k.2.length ∧ k.2.length ≤ 65) :
    IsWitnessProgram (multisigScript m keys n) = none := by
  cases keys with
  | nil => simp [IsWitnessProgram, multisigScript, pushesBytes]
  | cons k ks =>
    obtain ⟨f, d⟩ := k
    have hd : 33 ≤ d.length ∧ d.length ≤ 65 := hk (f, d) (by simp)
    have key : ¬ ((multisigScript m ((f, d) :: ks) n).length ≤ 42 ∧
        (multisigScript m ((f, d) :: ks) n).getD 1 0 + 2
          = (multisigScript m ((f, d) :: ks) n).length) := by
      cases f <;>
        simp only [multisigScript, pushesBytes, pushBytes, List.cons_append, List.length_cons,
          List.length_append, List.getD_cons_succ, List.getD_cons_zero, OP_PUSHDATA1,
          OP_PUSHDATA2, OP_PUSHDATA4] <;>
        omega
    unfold IsWitnessProgram
    split
    · rfl
    · rename_i h1
      split
      · rfl
      · split
        · rename_i h3
          exact absurd ⟨by omega, h3⟩ key
        · rfl

theorem multisigScript_not_return (m n : Nat) (hm : m ≤ 16)
    (keys : List (PushForm × valtype)) :
    ¬ ((multisigScript m keys n).length ≥ 1 ∧ (multisigScript m keys n).getD 0 0 = OP_RETURN ∧
      IsPushOnly ((multisigScript m keys n).drop 1) = true) := by
  have h : EncodeOP_N m ≠ OP_RETURN := EncodeOP_N_ne m hm _ (by decide)
  intro hh
  exact h (by simpa [multisigScript] using hh.2.1)

/-- The result of `Solver` on a multisig-shaped script: the tag is `TX_MULTISIG`, the
solutions are `m`, the keys and `n`, and the result is the arity check. -/
theorem Solver_multisigScript (ops : BranchOpcodes) (hops : ops.WF) (m n : Nat) (hm : m ≤ 16)
    (hn : n ≤ 16) (keys : List (PushForm × valtype))
    (hk : ∀ k ∈ keys, 33 ≤ k.2.length ∧ k.2.length ≤ 65) (hlen : keys.length < 2 ^ 64)
    (typeRet : txnouttype) :
    Solver ops (multisigScript m keys n) typeRet =
      ⟨decide (1 ≤ m ∧ m ≤ n ∧ keys.length = n), txnouttype.TX_MULTISIG,
        [m] :: keys.map Prod.snd ++ [[n]]⟩ := by
  have hfuel : 4 ≤ (multisigScript m keys n).length + 1 := by
    simp [multisigScript]
  unfold Solver
  rw [multisigScript_not_p2sh m n hm keys, multisigScript_not_witness m n keys hk]
  simp only [Bool.false_eq_true, if_false, multisigScript_not_return m n hm keys]
  simp only [mTemplates, scanTemplates, matchLoop_multisig_pubkey ops m n hm keys,
    matchLoop_multisig_pubkeyhash ops hops m n hm keys,
    matchLoop_multisig ops hops m n hm hn keys hk _ hfuel]
  have hlast : ([m] :: (keys.map Prod.snd ++ [[n]])).getLastD [] = [n] := by
    rw [List.getLastD_cons, List.getLastD_concat]
  have hsz : (keys.length + 1 + 1 + 2 ^ 64 - 2) % 2 ^ 64 = keys.length := by
    have : keys.length + 1 + 1 + 2 ^ 64 - 2 = keys.length + 2 ^ 64 := by omega
    rw [this, Nat.add_mod_right, Nat.mod_eq_of_lt hlen]
  simp only [foundResult, if_true, List.cons_append, List.headD_cons, hlast, List.length_cons,
    List.length_append, List.length_map, List.length_nil, Nat.zero_add, hsz]
  by_cases hc : 1 ≤ m ∧ m ≤ n ∧ keys.length = n
  · have : ¬ (m < 1 ∨ n < 1 ∨ m > n ∨ keys.length ≠ n) := by omega
    rw [if_neg this]
    simp [hc]
  · have : m < 1 ∨ n < 1 ∨ m > n ∨ keys.length ≠ n := by omega
    rw [if_pos this]
    simp [hc]

/-- C6 (multisig arity): for every script `<small integer m> <k pushes of 33
to 65 bytes> <small integer n> OP_CHECKMULTISIG` with m and n in 0..16,
`Solver` succeeds if and only if 1 <= m <= n and k = n, and it then returns
the type multisig and the solutions m, the keys in order, n. -/
theorem C6_multisig_arity (ops : BranchOpcodes) (hops : ops.WF) (m n : Nat) (hm : m ≤ 16)
    (hn : n ≤ 16) (keys : List (PushForm × valtype))
    (hk : ∀ k ∈ keys, 33 ≤ k.2.length ∧ k.2.length ≤ 65) (hlen : keys.length < 2 ^ 64)
    (typeRet : txnouttype) :
    ((Solver ops (multisigScript m keys n) typeRet).ret = true ↔
      1 ≤ m ∧ m ≤ n ∧ keys.length = n) ∧
    (Solver ops (multisigScript m keys n) typeRet
        = ⟨true, txnouttype.TX_MULTISIG, [m] :: keys.map Prod.snd ++ [[n]]⟩ ↔
      1 ≤ m ∧ m ≤ n ∧ keys.length = n) := by
  rw [Solver_multisigScript ops hops m n hm hn keys hk hlen typeRet]
  constructor
  · simp
  · constructor
    · intro h
      have := congrArg SolverResult.ret h
      simpa using this
    · intro h
      simp [h]

/-- Witness for C6: the script `OP_1 <key> OP_1
OP_CHECKMULTISIG` with one 33-byte key. -/
theorem C6_multisig_arity_witness :
    ((Solver sampleOps (multisigScript 1 [(PushForm.direct, sampleKey)] 1)
        txnouttype.TX_NONSTANDARD).ret = true ↔
      1 ≤ 1 ∧ 1 ≤ 1 ∧ [(PushForm.direct, sampleKey)].length = 1) ∧
    (Solver sampleOps (multisigScript 1 [(PushForm.direct, sampleKey)] 1)
        txnouttype.TX_NONSTANDARD
        = ⟨true, txnouttype.TX_MULTISIG,
            [1] :: [(PushForm.direct, sampleKey)].map Prod.snd ++ [[1]]⟩ ↔
      1 ≤ 1 ∧ 1 ≤ 1 ∧ [(PushForm.direct, sampleKey)].length = 1) :=
  C6_multisig_arity sampleOps (by decide) 1 1 (by decide) (by decide)
    [(PushForm.direct, sampleKey)] (by decide) (by decide) txnouttype.TX_NONSTANDARD


/-! ## The loops of the classifier terminate within their round bounds -/

theorem readData_pc (opcode nSize : Nat) (pc : MCScript) :
    (readData opcode nSize pc).pc.length ≤ pc.length := by
  unfold readData
  split
  · exact Nat.le_refl _
  · simp

/-- A successful read consumes at least one byte. -/
theorem GetOp_pc_lt (pc : MCScript) (h : (GetOp pc).ok = true) :
    (GetOp pc).pc.length < pc.length := by
  cases pc with
  | nil => simp [GetOp] at h
  | cons opcode r =>
    unfold GetOp
    simp only
    split
    · split
      · exact Nat.lt_succ_of_le (readData_pc _ _ _)
      · split
        · cases r with
          | nil => simp
          | cons n r' =>
            simp only
            have := readData_pc opcode n r'
            simp only [List.length_cons]
            omega
        · split
          · split
            · simp
            · have := readData_pc opcode (ReadLE 2 r) (r.drop 2)
              simp only [List.length_cons, List.length_drop] at this ⊢
              omega
          · split
            · simp
            · have := readData_pc opcode (ReadLE 4 r) (r.drop 4)
              simp only [List.length_cons, List.length_drop] at this ⊢
              omega
    · simp

/-- The key loop gives the same result for every round bound above the
length of the script left to read. -/
theorem pubkeysLoop_fuel (fuel fuel' : Nat) (r1 : OpRead) (sols : List valtype)
    (h : r1.pc.length < fuel) (h' : r1.pc.length < fuel') :
    pubkeysLoop fuel r1 sols = pubkeysLoop fuel' r1 sols := by
  induction fuel generalizing fuel' r1 sols with
  | zero => omega
  | succ f ih =>
    cases fuel' with
    | zero => omega
    | succ f' =>
      simp only [pubkeysLoop]
      split
      · cases hok : (GetOp r1.pc).ok with
        | false => simp
        | true =>
          simp only [Bool.not_true, Bool.false_eq_true, if_false]
          have := GetOp_pc_lt r1.pc hok
          exact ih f' _ _ (by omega) (by omega)
      · rfl

/-- The key loop does not move `pc1` backwards. -/
theorem pubkeysLoop_pc (fuel : Nat) (r1 : OpRead) (sols : List valtype) :
    (pubkeysLoop fuel r1 sols).1.pc.length ≤ r1.pc.length := by
  induction fuel generalizing r1 sols with
  | zero => exact Nat.le_refl _
  | succ f ih =>
    simp only [pubkeysLoop]
    split
    · cases hok : (GetOp r1.pc).ok with
      | false =>
        simp only [Bool.not_false, if_true]
        cases hpc : r1.pc with
        | nil => simp [GetOp]
        | cons a r =>
          have : (GetOp (a :: r)).pc.length ≤ (a :: r).length := by
            unfold GetOp
            simp only
            have h1 := readData_pc a a r
            split
            · split
              · simp only [List.length_cons]; omega
              · split
                · cases r with
                  | nil => simp
                  | cons n r' =>
                    have := readData_pc a n r'
                    simp only [List.length_cons]
                    omega
                · split
                  · split
                    · simp
                    · have := readData_pc a (ReadLE 2 r) (r.drop 2)
                      simp only [List.length_cons, List.length_drop] at this ⊢
                      omega
                  · split
                    · simp
                    · have := readData_pc a (ReadLE 4 r) (r.drop 4)
                      simp only [List.length_cons, List.length_drop] at this ⊢
                      omega
            · simp
          exact this
      | true =>
        simp only [Bool.not_true, Bool.false_eq_true, if_false]
        have h1 := GetOp_pc_lt r1.pc hok
        have h2 := ih (GetOp r1.pc) (sols ++ [r1.vch])
        omega
    · exact Nat.le_refl _

/-- The template comparison gives the same result for every round bound above
the length of the script: the bound `script1.length + 1` of `scanTemplates` is
never exhausted. -/
theorem matchLoop_fuel (ops : BranchOpcodes) (fuel fuel' : Nat) (pc1 pc2 : MCScript)
    (sols : List valtype) (h : pc1.length < fuel) (h' : pc1.length < fuel') :
    matchLoop ops fuel pc1 pc2 sols = matchLoop ops fuel' pc1 pc2 sols := by
  induction fuel generalizing fuel' pc1 pc2 sols with
  | zero => omega
  | succ f ih =>
    cases fuel' with
    | zero => omega
    | succ f' =>
      simp only [matchLoop]
      split
      · rfl
      · cases hok : (GetOp pc1).ok with
        | false => simp
        | true =>
          have hlt := GetOp_pc_lt pc1 hok
          simp only [Bool.not_true, Bool.false_eq_true, if_false]
          split
          · rfl
          · split
            · split
              · rfl
              · have hp := pubkeysLoop_pc ((GetOp pc1).pc.length + 1) (GetOp pc1) sols
                split
                · exact ih f' _ _ _ (by omega) (by omega)
                · rfl
                · rfl
            · split
              · exact ih f' _ _ _ (by omega) (by omega)
              · rfl
              · rfl

/-! ## Claims on the result of `Flush` and on the created-branches list -/

/-- C11 (`Flush` surfaces store failure), evaluated on the code: `Flush` is a
`void` function and what it hands back is the state of the index and of the
cache only. With every commit failing, the final commit of the flush of the
recorded branch-create transaction 7 fails (the local `ret` is false), the
record is not in the store, yet the cache is emptied and the in-memory
created-branches list holds the branch; and for a cache with only a coin
report staged, `Flush` gives its caller the same under failing commits as
under succeeding commits. -/
theorem C11_commit_failure_is_not_reported :
    flushRet failEnv emptyDb
        (AddBranchChainTxRecord sampleDflt emptyCache sampleCreateTx 9 0) = false ∧
    (Flush failEnv emptyDb
        (AddBranchChainTxRecord sampleDflt emptyCache sampleCreateTx 9 0)).1.m_db.txData 7
      = none ∧
    IsBranchCreated
        (Flush failEnv emptyDb
          (AddBranchChainTxRecord sampleDflt emptyCache sampleCreateTx 9 0)).1 7 = true ∧
    (Flush failEnv emptyDb
        (AddBranchChainTxRecord sampleDflt emptyCache sampleCreateTx 9 0)).2 = emptyCache ∧
    flushRet failEnv emptyDb coinOnlyCache = false ∧
    flushRet sampleEnv emptyDb coinOnlyCache = true ∧
    Flush failEnv emptyDb coinOnlyCache = Flush sampleEnv emptyDb coinOnlyCache :=
  ⟨rfl, rfl, rfl, rfl, rfl, rfl, rfl⟩

theorem eraseCreated_sublist (id : uint256) (l l' : List BranchCreateInfo)
    (h : eraseCreated id l = some l') : l'.Sublist l := by
  induction l generalizing l' with
  | nil => simp [eraseCreated] at h
  | cons it rest ih =>
    simp only [eraseCreated] at h
    split at h
    · simp only [Option.some.injEq] at h
      subst h
      exact List.sublist_cons_self it rest
    · cases he : eraseCreated id rest with
      | none => simp [he] at h
      | some r =>
        simp only [he, Option.map_some', Option.some.injEq] at h
        subst h
        exact (ih r he).cons₂ it

/-- One step of the list update keeps the transaction ids of the
created-branches list pairwise distinct. -/
theorem updateCreated_nodup (env : FlushEnv) (st : FlushState) (i : BranchChainTxInfo)
    (h : (createdIds st.created).Nodup) :
    (createdIds (updateCreated env st i).created).Nodup := by
  unfold updateCreated
  split
  · split
    · split
      · exact h
      · rename_i hany
        simp only [createdIds, List.map_append, List.map_cons, List.map_nil]
        rw [List.nodup_append]
        refine ⟨h, List.nodup_singleton _, ?_⟩
        intro a ha hb
        simp only [List.mem_singleton] at hb
        subst hb
        apply hany
        simp only [List.mem_map] at ha
        obtain ⟨v, hv, hvid⟩ := ha
        simp only [List.any_eq_true]
        exact ⟨v, hv, by simp [BranchCreateInfo.same, hvid]⟩
    · split
      · rename_i l hl
        exact h.sublist ((eraseCreated_sublist _ _ _ hl).map _)
      · exact h
  · exact h

theorem flushTxEntry_created_nodup (env : FlushEnv) (st : FlushState)
    (e : uint256 × BranchChainTxInfo) (h : (createdIds st.created).Nodup) :
    (createdIds (flushTxEntry env st e).created).Nodup := by
  unfold flushTxEntry
  apply updateCreated_nodup
  rw [(commitIfLarge_created env _).1]
  exact h

theorem foldl_flushTxEntry_created_nodup (env : FlushEnv)
    (l : List (uint256 × BranchChainTxInfo)) (st : FlushState)
    (h : (createdIds st.created).Nodup) :
    (createdIds (l.foldl (flushTxEntry env) st).created).Nodup := by
  induction l generalizing st with
  | nil => exact h
  | cons e rest ih =>
    simp only [List.foldl_cons]
    exact ih _ (flushTxEntry_created_nodup env st e h)

/-- C12 (created-branches uniqueness is a `Flush` invariant): if the in-memory
created-branches list has at most one entry per branch transaction id before
`Flush`, then for every cache and every environment it has at most one entry
per branch transaction id after `Flush`. -/
theorem C12_created_unique_invariant (env : FlushEnv) (db : BranchChainTxRecordsDb)
    (cache : BranchChainTxRecordsCache) (h : (createdIds db.m_vCreatedBranchTxs).Nodup) :
    (createdIds (Flush env db cache).1.m_vCreatedBranchTxs).Nodup := by
  rw [Flush_created]
  exact foldl_flushTxEntry_created_nodup env _ _ h

/-- Witness for C12: branch 7, created in block 9, is recorded again in block
10 on an index that already lists it; the list keeps one entry of id 7. -/
theorem C12_created_unique_invariant_witness :
    (createdIds
      (Flush sampleEnv ⟨emptyStore, [⟨7, [1], [2], 9⟩]⟩
        (AddBranchChainTxRecord sampleDflt emptyCache sampleCreateTx 10 0)).1.m_vCreatedBranchTxs).Nodup :=
  C12_created_unique_invariant sampleEnv ⟨emptyStore, [⟨7, [1], [2], 9⟩]⟩
    (AddBranchChainTxRecord sampleDflt emptyCache sampleCreateTx 10 0) (by decide)

/-! ## Recording the same branch twice -/

theorem mapFind_mem {V : Type} (k : uint256) (v : V) (m : List (uint256 × V))
    (h : mapFind k m = some v) : (k, v) ∈ m := by
  induction m with
  | nil => simp [mapFind] at h
  | cons e rest ih =>
    obtain ⟨k', v'⟩ := e
    simp only [mapFind] at h
    split at h
    · rename_i hk
      simp only [Option.some.injEq] at h
      subst hk; subst h
      exact List.mem_cons_self _ _
    · exact List.mem_cons_of_mem _ (ih h)

/-- The entries of a map after `m[k]` and an update: the updated entry of `k`,
and the entries of the other keys as they were. -/
theorem mem_mapModify {V : Type} (dflt : V) (f : V → V) (k : uint256)
    (m : List (uint256 × V)) (hm : mapSorted m) (e : uint256 × V)
    (he : e ∈ mapModify dflt f k m) :
    e = (k, f ((mapFind k m).getD dflt)) ∨ (e ∈ m ∧ e.1 ≠ k) := by
  induction m with
  | nil =>
    simp only [mapModify, List.mem_singleton] at he
    left; rw [he]; rfl
  | cons a rest ih =>
    obtain ⟨k', v⟩ := a
    have hp := List.pairwise_cons.mp hm
    have hrest : mapSorted rest := hp.2
    have hgt : ∀ x ∈ rest, k' < x.1 := fun x hx => hp.1 x.1 (List.mem_map_of_mem _ hx)
    by_cases h1 : k < k'
    · have hne : k ≠ k' := Nat.ne_of_lt h1
      simp only [mapModify, h1, if_true, List.mem_cons] at he
      have hnone : mapFind k rest = none :=
        mapFind_none_of_keys_ne k rest (fun x hx => by
          have := hgt x hx
          exact (Nat.ne_of_lt (Nat.lt_trans h1 this)).symm)
      rcases he with rfl | rfl | he
      · left; simp [mapFind, hne, hnone]
      · right; exact ⟨List.mem_cons_self _ _, hne.symm⟩
      · right
        refine ⟨List.mem_cons_of_mem _ he, ?_⟩
        have := hgt e he
        exact (Nat.ne_of_lt (Nat.lt_trans h1 this)).symm
    · by_cases h2 : k = k'
      · subst h2
        simp only [mapModify, Nat.lt_irrefl, if_false, if_true, List.mem_cons] at he
        rcases he with rfl | he
        · left; simp [mapFind]
        · right
          exact ⟨List.mem_cons_of_mem _ he, (Nat.ne_of_lt (hgt e he)).symm⟩
      · simp only [mapModify, h1, h2, if_false, List.mem_cons] at he
        rcases he with rfl | he
        · right; exact ⟨List.mem_cons_self _ _, fun hh => h2 hh.symm⟩
        · rcases ih hrest he with h | ⟨h, hne⟩
          · left; rw [h]; simp [mapFind, h2]
          · right; exact ⟨List.mem_cons_of_mem _ h, hne⟩

theorem eraseCreated_countId (id id2 : uint256) (l l' : List BranchCreateInfo)
    (h : eraseCreated id2 l = some l') (hne : id2 ≠ id) : countId id l' = countId id l := by
  induction l generalizing l' with
  | nil => simp [eraseCreated] at h
  | cons it rest ih =>
    simp only [eraseCreated] at h
    split at h
    · rename_i hit
      simp only [Option.some.injEq] at h
      subst h
      have : (it.txid == id) = false := by
        simp only [beq_eq_false_iff_ne, ne_eq]
        rw [hit]; exact hne
      simp [countId, List.countP_cons, this]
    · cases he : eraseCreated id2 rest with
      | none => simp [he] at h
      | some r =>
        simp only [he, Option.map_some', Option.some.injEq] at h
        subst h
        have := ih r he
        simp only [countId, List.countP_cons] at this ⊢
        rw [this]

/-- A record whose creation info carries another id leaves the number of
entries of `id` as it is. -/
theorem updateCreated_countId_other (env : FlushEnv) (st : FlushState)
    (i : BranchChainTxInfo) (id : uint256) (hne : i.createchaininfo.txid ≠ id) :
    countId id (updateCreated env st i).created = countId id st.created := by
  unfold updateCreated
  split
  · split
    · split
      · rfl
      · have : (i.createchaininfo.txid == id) = false := by
          simp only [beq_eq_false_iff_ne, ne_eq]; exact hne
        simp [countId, List.countP_append, List.countP_cons, this]
    · split
      · rename_i l hl
        exact eraseCreated_countId id _ _ _ hl hne
      · rfl
  · rfl

/-- A staged add of a branch-create record with creation id `id` leaves
exactly one entry of `id` when there was at most one. -/
theorem updateCreated_countId_add (env : FlushEnv) (st : FlushState)
    (i : BranchChainTxInfo) (id : uint256) (hv : i.txnVersion = env.CREATE_BRANCH_VERSION)
    (hf : i.flags = DbDataFlag.eADD) (hid : i.createchaininfo.txid = id)
    (hle : countId id st.created ≤ 1) :
    countId id (updateCreated env st i).created = 1 ∧
      (countId id st.created = 1 → (updateCreated env st i).created = st.created) := by
  unfold updateCreated
  simp only [hv, if_true, hf]
  split
  · rename_i hany
    have hpos : 0 < countId id st.created := by
      simp only [countId, List.countP_pos_iff]
      simp only [List.any_eq_true] at hany
      obtain ⟨v, hvm, hsame⟩ := hany
      refine ⟨v, hvm, ?_⟩
      simp only [BranchCreateInfo.same, beq_iff_eq] at hsame
      simp [hsame, hid]
    exact ⟨by omega, fun _ => rfl⟩
  · rename_i hany
    have hzero : countId id st.created = 0 := by
      simp only [countId, List.countP_eq_zero]
      intro v hvm hp
      apply hany
      simp only [List.any_eq_true]
      refine ⟨v, hvm, ?_⟩
      simp only [beq_iff_eq] at hp
      simp [BranchCreateInfo.same, hp, hid]
    constructor
    · have : (i.createchaininfo.txid == id) = true := by simp [hid]
      simp only [countId, List.countP_append, List.countP_cons, this, List.countP_nil] at hzero ⊢
      simp [hzero]
    · intro h1; omega

theorem updateCreated_created_congr (env : FlushEnv) (st st' : FlushState)
    (i : BranchChainTxInfo) (h : st.created = st'.created) :
    (updateCreated env st i).created = (updateCreated env st' i).created := by
  unfold updateCreated
  by_cases hv : i.txnVersion = env.CREATE_BRANCH_VERSION
  · simp only [hv, if_true]
    cases hf : i.flags with
    | eADD =>
      simp only [h]
      by_cases ha : (st'.created.any fun v => v.same i.createchaininfo) = true
      · simp [ha, h]
      · simp [ha]
    | eDELETE =>
      simp only [h]
      cases eraseCreated i.createchaininfo.txid st'.created <;> simp [h]
  · simp [hv, h]

theorem flushTxEntry_created (env : FlushEnv) (st : FlushState)
    (e : uint256 × BranchChainTxInfo) :
    (flushTxEntry env st e).created = (updateCreated env st e.2).created := by
  unfold flushTxEntry
  exact updateCreated_created_congr env _ _ e.2 (commitIfLarge_created env _).1

/-- The first loop of `Flush` over staged records of which each either is
the staged add of the branch-create record of `id` or carries another
creation id: at most one entry of `id` stays at most one, exactly one stays
exactly one, and the add makes it exactly one. -/
theorem foldl_flushTxEntry_countId (env : FlushEnv) (id : uint256)
    (l : List (uint256 × BranchChainTxInfo)) (st : FlushState)
    (hgood : ∀ e ∈ l,
      (e.2.txnVersion = env.CREATE_BRANCH_VERSION ∧ e.2.flags = DbDataFlag.eADD ∧
        e.2.createchaininfo.txid = id) ∨ e.2.createchaininfo.txid ≠ id)
    (hle : countId id st.created ≤ 1) :
    countId id (l.foldl (flushTxEntry env) st).created ≤ 1 ∧
    (countId id st.created = 1 →
      countId id (l.foldl (flushTxEntry env) st).created = 1) ∧
    ((∃ e ∈ l, e.2.txnVersion = env.CREATE_BRANCH_VERSION ∧ e.2.flags = DbDataFlag.eADD ∧
        e.2.createchaininfo.txid = id) →
      countId id (l.foldl (flushTxEntry env) st).created = 1) := by
  induction l generalizing st with
  | nil =>
    refine ⟨hle, fun h => h, ?_⟩
    rintro ⟨e, he, _⟩
    simp at he
  | cons a rest ih =>
    simp only [List.foldl_cons]
    have hrest : ∀ e ∈ rest,
        (e.2.txnVersion = env.CREATE_BRANCH_VERSION ∧ e.2.flags = DbDataFlag.eADD ∧
          e.2.createchaininfo.txid = id) ∨ e.2.createchaininfo.txid ≠ id :=
      fun e he => hgood e (List.mem_cons_of_mem _ he)
    have hstep : countId id (flushTxEntry env st a).created ≤ 1 ∧
        (countId id st.created = 1 → countId id (flushTxEntry env st a).created = 1) ∧
        ((a.2.txnVersion = env.CREATE_BRANCH_VERSION ∧ a.2.flags = DbDataFlag.eADD ∧
          a.2.createchaininfo.txid = id) → countId id (flushTxEntry env st a).created = 1) := by
      rw [flushTxEntry_created]
      rcases hgood a (List.mem_cons_self _ _) with ⟨hv, hf, hid⟩ | hne
      · have := (updateCreated_countId_add env st a.2 id hv hf hid hle).1
        exact ⟨by omega, fun _ => this, fun _ => this⟩
      · have := updateCreated_countId_other env st a.2 id hne
        rw [this]
        refine ⟨hle, fun h => h, ?_⟩
        rintro ⟨_, _, hid⟩
        exact absurd hid hne
    obtain ⟨h1, h2, h3⟩ := ih (flushTxEntry env st a) hrest hstep.1
    refine ⟨h1, fun h => h2 (hstep.2.1 h), ?_⟩
    rintro ⟨e, he, hX⟩
    rcases List.mem_cons.mp he with rfl | he
    · exact h2 (hstep.2.2 hX)
    · exact h3 ⟨e, he, hX⟩

/-- C13 (`Flush` is idempotent on the created-branches list): for every
branch-create transaction X and block hash B, on an index that lists X.id at
most once and a cache in which no staged record of another transaction
carries the creation id X.id, staging the add of X and flushing, then staging
the identical add again and flushing again, leaves the created-branches list
as it was after the first flush, with exactly one entry whose id is X.id. -/
theorem C13_flush_idempotent_created (env : FlushEnv) (dflt : BranchChainTxInfo)
    (db : BranchChainTxRecordsDb) (cache : BranchChainTxRecordsCache) (X : MCTransaction)
    (B : uint256) (i : Nat) (hX : X.isBranchCreate = true)
    (hv : X.nVersion = env.CREATE_BRANCH_VERSION)
    (hs : mapSorted cache.m_mapChainTxInfos)
    (hother : ∀ e ∈ cache.m_mapChainTxInfos, e.1 ≠ X.hash → e.2.createchaininfo.txid ≠ X.hash)
    (hle : countId X.hash db.m_vCreatedBranchTxs ≤ 1) :
    (Flush env (Flush env db (AddBranchChainTxRecord dflt cache X B i)).1
        (AddBranchChainTxRecord dflt
          (Flush env db (AddBranchChainTxRecord dflt cache X B i)).2 X B i)).1.m_vCreatedBranchTxs
      = (Flush env db (AddBranchChainTxRecord dflt cache X B i)).1.m_vCreatedBranchTxs ∧
    countId X.hash
      (Flush env db (AddBranchChainTxRecord dflt cache X B i)).1.m_vCreatedBranchTxs = 1 := by
  have hfirst : countId X.hash
      (Flush env db (AddBranchChainTxRecord dflt cache X B i)).1.m_vCreatedBranchTxs = 1 := by
    rw [Flush_created]
    have hadd : (AddBranchChainTxRecord dflt cache X B i).m_mapChainTxInfos =
        mapModify dflt
          (fun sendinfo =>
            { blockhash := B, txindex := i, txnVersion := X.nVersion,
              createchaininfo := ⟨X.hash, X.branchSeedSpec6, X.branchVSeeds, B⟩,
              flags := DbDataFlag.eADD })
          X.hash cache.m_mapChainTxInfos := by
      simp [AddBranchChainTxRecord, hX]
    rw [hadd]
    refine (foldl_flushTxEntry_countId env X.hash _ _ ?_ hle).2.2 ?_
    · intro e he
      rcases mem_mapModify _ _ _ _ hs e he with h | ⟨hm, hne⟩
      · left; rw [h]; exact ⟨hv, rfl, rfl⟩
      · right; exact hother e hm hne
    · exact ⟨_, mapFind_mem _ _ _ (mapFind_mapModify_self _ _ _ _ hs), hv, rfl, rfl⟩
  refine ⟨?_, hfirst⟩
  rw [Flush_created env (Flush env db (AddBranchChainTxRecord dflt cache X B i)).1]
  have hc2 : (AddBranchChainTxRecord dflt
      (Flush env db (AddBranchChainTxRecord dflt cache X B i)).2 X B i).m_mapChainTxInfos =
      [(X.hash, { blockhash := B, txindex := i, txnVersion := X.nVersion,
                  createchaininfo := ⟨X.hash, X.branchSeedSpec6, X.branchVSeeds, B⟩,
                  flags := DbDataFlag.eADD })] := by
    simp [AddBranchChainTxRecord, hX, Flush, mapModify]
  rw [hc2]
  simp only [List.foldl_cons, List.foldl_nil]
  rw [flushTxEntry_created]
  exact (updateCreated_countId_add env _ _ X.hash hv rfl rfl (by simp only; omega)).2 hfirst

/-- Witness for C13: the branch-create transaction 7 recorded in block 9 on
the empty index and the empty cache. -/
theorem C13_flush_idempotent_created_witness :
    (Flush sampleEnv
        (Flush sampleEnv emptyDb
          (AddBranchChainTxRecord sampleDflt emptyCache sampleCreateTx 9 0)).1
        (AddBranchChainTxRecord sampleDflt
          (Flush sampleEnv emptyDb
            (AddBranchChainTxRecord sampleDflt emptyCache sampleCreateTx 9 0)).2
          sampleCreateTx 9 0)).1.m_vCreatedBranchTxs
      = (Flush sampleEnv emptyDb
          (AddBranchChainTxRecord sampleDflt emptyCache sampleCreateTx 9 0)).1.m_vCreatedBranchTxs ∧
    countId sampleCreateTx.hash
      (Flush sampleEnv emptyDb
        (AddBranchChainTxRecord sampleDflt emptyCache sampleCreateTx 9 0)).1.m_vCreatedBranchTxs
      = 1 :=
  C13_flush_idempotent_created sampleEnv sampleDflt emptyDb emptyCache sampleCreateTx 9 0 rfl rfl
    (by decide) (by intro e he; simp [emptyCache] at he) (by decide)

/-! ## The persisted coin-report lists stay well-formed -/

theorem mergeFound_sublist (nv : CoinReportInfo) (d v : List CoinReportInfo)
    (h : mergeFound nv d = some v) : v.Sublist d := by
  induction d generalizing v with
  | nil => simp [mergeFound] at h
  | cons it rest ih =>
    simp only [mergeFound] at h
    split at h
    · simp only [Option.some.injEq] at h
      subst h
      cases nv.flags with
      | eADD => exact List.Sublist.refl _
      | eDELETE => exact List.sublist_cons_self it rest
    · cases he : mergeFound nv rest with
      | none => simp [he] at h
      | some r =>
        simp only [he, Option.map_some', Option.some.injEq] at h
        subst h
        exact (ih r he).cons₂ it

theorem mergeFound_none_ids (nv : CoinReportInfo) (d : List CoinReportInfo)
    (h : mergeFound nv d = none) : nv.reporttxid ∉ reportIds d := by
  induction d with
  | nil => simp [reportIds]
  | cons it rest ih =>
    simp only [mergeFound] at h
    split at h
    · simp at h
    · rename_i hne
      cases he : mergeFound nv rest with
      | some r => simp [he] at h
      | none =>
        have := ih he
        simp only [reportIds, List.map_cons, List.mem_cons, not_or] at this ⊢
        exact ⟨fun hh => hne hh.symm, this⟩

/-- The merge of one staged report keeps the ids of the list pairwise
distinct. -/
theorem mergeReport_nodup (d : List CoinReportInfo) (nv : CoinReportInfo)
    (h : (reportIds d).Nodup) : (reportIds (mergeReport d nv)).Nodup := by
  unfold mergeReport
  cases hf : mergeFound nv d with
  | some v =>
    simp only
    exact h.sublist ((mergeFound_sublist nv d v hf).map _)
  | none =>
    simp only
    cases nv.flags with
    | eDELETE => exact h
    | eADD =>
      simp only [reportIds, List.map_append, List.map_cons, List.map_nil]
      rw [List.nodup_append]
      refine ⟨h, List.nodup_singleton _, ?_⟩
      intro a ha hb
      simp only [List.mem_singleton] at hb
      subst hb
      exact mergeFound_none_ids nv d hf ha

theorem foldl_mergeReport_nodup (vec d : List CoinReportInfo) (h : (reportIds d).Nodup) :
    (reportIds (vec.foldl mergeReport d)).Nodup := by
  induction vec generalizing d with
  | nil => exact h
  | cons nv rest ih =>
    simp only [List.foldl_cons]
    exact ih _ (mergeReport_nodup d nv h)

/-- The write-back of one coin keeps the persisted lists well-formed, for
every staged list. -/
theorem flushCoinEntry_reportsWF (s : MCDBWrapper) (e : uint256 × List CoinReportInfo)
    (h : reportsWF s) : reportsWF (flushCoinEntry s e) := by
  intro k l hl
  by_cases hk : k = e.1
  · subst hk
    rw [flushCoinEntry_mineCoin_self] at hl
    unfold coinResult at hl
    cases hd : s.mineCoin e.1 with
    | none => simp [hd] at hl
    | some d =>
      simp only [hd] at hl
      split at hl
      · rename_i hpos
        simp only [Option.some.injEq] at hl
        subst hl
        refine ⟨?_, foldl_mergeReport_nodup _ _ (h _ d hd).2⟩
        intro hnil
        rw [hnil] at hpos
        simp at hpos
      · simp at hl
  · rw [flushCoinEntry_mineCoin_other s e k hk] at hl
    exact h k l hl

theorem foldl_flushCoin_reportsWF (l : List (uint256 × List CoinReportInfo)) (s : MCDBWrapper)
    (h : reportsWF s) : reportsWF (l.foldl flushCoinEntry s) := by
  induction l generalizing s with
  | nil => exact h
  | cons e rest ih =>
    simp only [List.foldl_cons]
    exact ih _ (flushCoinEntry_reportsWF s e h)

/-- C14 (persisted coin-report lists stay well-formed): if before `Flush`
every persisted coin-report list is non-empty and has pairwise distinct
reporting-transaction ids, then after `Flush`, for every cache and every
environment, every persisted coin-report list is again non-empty with
pairwise distinct ids; and a coin whose merged list is empty has its key
erased. -/
theorem C14_reports_stay_well_formed (env : FlushEnv) (db : BranchChainTxRecordsDb)
    (cache : BranchChainTxRecordsCache) (h : reportsWF db.m_db) :
    reportsWF (Flush env db cache).1.m_db ∧
    (∀ (k : uint256) (d vec : List CoinReportInfo),
      mapSorted cache.m_mapCoinBeReport → db.m_db.mineCoin k = some d →
      mapFind k cache.m_mapCoinBeReport = some vec → vec.foldl mergeReport d = [] →
      (Flush env db cache).1.m_db.mineCoin k = none) := by
  constructor
  · unfold Flush
    simp only
    apply foldl_flushCoin_reportsWF
    intro k l hl
    rw [WriteBatch_mineCoin, flushBatched_mineCoin] at hl
    exact h k l hl
  · intro k d vec hs hd hv hnil
    rw [Flush_mineCoin env db cache k hs, hv, hd]
    simp [coinResult, hnil]

/-- Witness for C14: coin 5 with the persisted report 7, and a cache that
stages the add of report 9 twice and the delete of report 7. -/
theorem C14_reports_stay_well_formed_witness :
    reportsWF
      (Flush sampleEnv sampleLockedDb
        ⟨[], [], [(5, [⟨9, DbDataFlag.eADD⟩, ⟨9, DbDataFlag.eADD⟩,
          ⟨7, DbDataFlag.eDELETE⟩])]⟩).1.m_db ∧
    (∀ (k : uint256) (d vec : List CoinReportInfo),
      mapSorted (⟨[], [], [(5, [⟨9, DbDataFlag.eADD⟩, ⟨9, DbDataFlag.eADD⟩,
          ⟨7, DbDataFlag.eDELETE⟩])]⟩ : BranchChainTxRecordsCache).m_mapCoinBeReport →
      sampleLockedDb.m_db.mineCoin k = some d →
      mapFind k (⟨[], [], [(5, [⟨9, DbDataFlag.eADD⟩, ⟨9, DbDataFlag.eADD⟩,
          ⟨7, DbDataFlag.eDELETE⟩])]⟩ : BranchChainTxRecordsCache).m_mapCoinBeReport
        = some vec →
      vec.foldl mergeReport d = [] →
      (Flush sampleEnv sampleLockedDb
        ⟨[], [], [(5, [⟨9, DbDataFlag.eADD⟩, ⟨9, DbDataFlag.eADD⟩,
          ⟨7, DbDataFlag.eDELETE⟩])]⟩).1.m_db.mineCoin k = none) :=
  C14_reports_stay_well_formed sampleEnv sampleLockedDb _ (by
    intro k l hl
    by_cases hk : k = 5
    · subst hk
      have : l = [⟨7, DbDataFlag.eADD⟩] := by
        simpa [sampleLockedDb, emptyStore] using hl.symm
      rw [this]
      exact ⟨by simp, by decide⟩
    · simp [sampleLockedDb, emptyStore, hk] at hl)

/-! ## The polarity of coin-lock staging -/

theorem setReportFlag_none (id : uint256) (fl : DbDataFlag) (vec : List CoinReportInfo)
    (h : setReportFlag id fl vec = none) : ∀ r ∈ vec, r.reporttxid ≠ id := by
  induction vec with
  | nil => simp
  | cons info rest ih =>
    simp only [setReportFlag] at h
    split at h
    · simp at h
    · rename_i hne
      cases he : setReportFlag id fl rest with
      | some r => simp [he] at h
      | none =>
        intro r hr
        rcases List.mem_cons.mp hr with rfl | hr
        · exact hne
        · exact ih he r hr

theorem setReportFlag_some (id : uint256) (fl : DbDataFlag) (vec v : List CoinReportInfo)
    (h : setReportFlag id fl vec = some v) :
    v.filter (fun r => r.reporttxid != id) = vec.filter (fun r => r.reporttxid != id) ∧
    (vec.countP (fun r => r.reporttxid == id) ≤ 1 →
      v.filter (fun r => r.reporttxid == id) = [⟨id, fl⟩]) := by
  induction vec generalizing v with
  | nil => simp [setReportFlag] at h
  | cons info rest ih =>
    simp only [setReportFlag] at h
    split at h
    · rename_i heq
      simp only [Option.some.injEq] at h
      subst h
      constructor
      · simp [List.filter_cons, heq]
      · intro hc
        have hc' : rest.countP (fun r => r.reporttxid == id) = 0 := by
          simp only [List.countP_cons, heq, beq_self_eq_true, if_true] at hc
          omega
        have hnil : rest.filter (fun r => r.reporttxid == id) = [] := by
          rw [List.filter_eq_nil_iff]
          exact List.countP_eq_zero.mp hc'
        simp [List.filter_cons, hnil, heq]
    · rename_i hne
      cases he : setReportFlag id fl rest with
      | none => simp [he] at h
      | some r =>
        simp only [he, Option.map_some', Option.some.injEq] at h
        subst h
        obtain ⟨h1, h2⟩ := ih r he
        have hb : (info.reporttxid == id) = false := by
          simp only [beq_eq_false_iff_ne, ne_eq]; exact hne
        constructor
        · simp only [List.filter_cons, h1]
        · intro hc
          simp only [List.countP_cons, hb, Bool.false_eq_true, if_false, Nat.add_zero] at hc
          simp only [List.filter_cons, hb, Bool.false_eq_true, if_false]
          exact h2 hc

/-- One branch of `UpdateLockMineCoin` on the staged vector: the reports of
other ids are kept, and when the vector held at most one report of the id it
holds exactly one afterwards, with the staged flag. -/
theorem stageReportVec_spec (id : uint256) (fl : DbDataFlag) (vec : List CoinReportInfo) :
    (stageReportVec id fl vec).filter (fun r => r.reporttxid != id)
      = vec.filter (fun r => r.reporttxid != id) ∧
    (vec.countP (fun r => r.reporttxid == id) ≤ 1 →
      (stageReportVec id fl vec).filter (fun r => r.reporttxid == id) = [⟨id, fl⟩]) := by
  unfold stageReportVec
  cases h : setReportFlag id fl vec with
  | some v => exact setReportFlag_some id fl vec v h
  | none =>
    have hall := setReportFlag_none id fl vec h
    have hnil : vec.filter (fun r => r.reporttxid == id) = [] := by
      rw [List.filter_eq_nil_iff]
      intro r hr
      simp only [beq_iff_eq]
      exact hall r hr
    simp only [List.filter_append, hnil, List.nil_append]
    constructor
    · simp [List.filter_cons]
    · intro _
      simp [List.filter_cons]

/-- For a transaction that is exactly one of lock and unlock,
`UpdateLockMineCoin` is one staging of the flag the polarity table gives. -/
theorem UpdateLockMineCoin_one_flag (cache : BranchChainTxRecordsCache) (tx : MCTransaction)
    (connect : Bool) (hx : tx.isLockMortgageMineCoin ≠ tx.isUnLockMortgageMineCoin) :
    (UpdateLockMineCoin cache tx connect).m_mapCoinBeReport =
      mapModify [] (stageReportVec tx.reporttxid
          (specPolarity tx.isLockMortgageMineCoin connect))
        tx.coinpreouthash cache.m_mapCoinBeReport := by
  cases hl : tx.isLockMortgageMineCoin <;> cases hu : tx.isUnLockMortgageMineCoin <;>
    cases connect <;>
    simp [hl, hu] at hx <;>
    simp [UpdateLockMineCoin, updateArm, stageReport, hl, hu, specPolarity]

/-- C15, as stated, fails: on a cache whose staged list for coin 5 holds two
reports of id 7, the connect of the lock-mortgage transaction (coin 5, report
7) flags the first of them add and leaves the second, so the staged list
holds two reports of the transaction's id, not exactly one. -/
theorem C15_counterexample :
    stagedReports (UpdateLockMineCoin repeatedIdCache sampleLockTx true) 5
      = [⟨7, DbDataFlag.eADD⟩, ⟨7, DbDataFlag.eDELETE⟩] ∧
    (stagedReports (UpdateLockMineCoin repeatedIdCache sampleLockTx true) 5).countP
      (fun r => r.reporttxid == 7) ≠ 1 := by
  decide

/-- C15 (amended): for every cache whose staged list for the transaction's
coin holds at most one report of the transaction's report id, and every
transaction that is exactly one of lock-mortgage and unlock-mortgage, after
`UpdateLockMineCoin tx connect` the staged list of the coin holds exactly one
report of that id, flagged add for a lock and delete for an unlock on connect
and the opposite on disconnect; the reports of other ids and the lists of
other coins are as they were. -/
theorem C15_coin_lock_polarity (cache : BranchChainTxRecordsCache) (tx : MCTransaction)
    (connect : Bool) (hs : mapSorted cache.m_mapCoinBeReport)
    (hx : tx.isLockMortgageMineCoin ≠ tx.isUnLockMortgageMineCoin)
    (hone : (stagedReports cache tx.coinpreouthash).countP
      (fun r => r.reporttxid == tx.reporttxid) ≤ 1) :
    (stagedReports (UpdateLockMineCoin cache tx connect) tx.coinpreouthash).filter
        (fun r => r.reporttxid == tx.reporttxid)
      = [⟨tx.reporttxid, specPolarity tx.isLockMortgageMineCoin connect⟩] ∧
    (stagedReports (UpdateLockMineCoin cache tx connect) tx.coinpreouthash).filter
        (fun r => r.reporttxid != tx.reporttxid)
      = (stagedReports cache tx.coinpreouthash).filter
        (fun r => r.reporttxid != tx.reporttxid) ∧
    (∀ coin, coin ≠ tx.coinpreouthash →
      mapFind coin (UpdateLockMineCoin cache tx connect).m_mapCoinBeReport
        = mapFind coin cache.m_mapCoinBeReport) ∧
    (UpdateLockMineCoin cache tx connect).m_mapChainTxInfos = cache.m_mapChainTxInfos ∧
    (UpdateLockMineCoin cache tx connect).m_mapRecvRecord = cache.m_mapRecvRecord := by
  have hmap := UpdateLockMineCoin_one_flag cache tx connect hx
  have hstaged : stagedReports (UpdateLockMineCoin cache tx connect) tx.coinpreouthash =
      stageReportVec tx.reporttxid (specPolarity tx.isLockMortgageMineCoin connect)
        (stagedReports cache tx.coinpreouthash) := by
    unfold stagedReports
    rw [hmap, mapFind_mapModify_self _ _ _ _ hs]
    rfl
  obtain ⟨h1, h2⟩ := stageReportVec_spec tx.reporttxid
    (specPolarity tx.isLockMortgageMineCoin connect) (stagedReports cache tx.coinpreouthash)
  refine ⟨?_, ?_, ?_, ?_, ?_⟩
  · rw [hstaged]; exact h2 hone
  · rw [hstaged]; exact h1
  · intro coin hne
    rw [hmap, mapFind_mapModify_other _ _ _ _ _ hne]
  · cases hl : tx.isLockMortgageMineCoin <;> cases hu : tx.isUnLockMortgageMineCoin <;>
      cases connect <;>
      simp [hl, hu] at hx <;>
      simp [UpdateLockMineCoin, updateArm, stageReport, hl, hu]
  · cases hl : tx.isLockMortgageMineCoin <;> cases hu : tx.isUnLockMortgageMineCoin <;>
      cases connect <;>
      simp [hl, hu] at hx <;>
      simp [UpdateLockMineCoin, updateArm, stageReport, hl, hu]

/-- Witness for C15 (amended): the disconnect of the lock-mortgage transaction
(coin 5, report 7) on the cache that stages the add of report 7 for coin 5. -/
theorem C15_coin_lock_polarity_witness :
    (stagedReports (UpdateLockMineCoin coinOnlyCache sampleLockTx false)
        sampleLockTx.coinpreouthash).filter
        (fun r => r.reporttxid == sampleLockTx.reporttxid)
      = [⟨sampleLockTx.reporttxid,
          specPolarity sampleLockTx.isLockMortgageMineCoin false⟩] ∧
    (stagedReports (UpdateLockMineCoin coinOnlyCache sampleLockTx false)
        sampleLockTx.coinpreouthash).filter
        (fun r => r.reporttxid != sampleLockTx.reporttxid)
      = (stagedReports coinOnlyCache sampleLockTx.coinpreouthash).filter
        (fun r => r.reporttxid != sampleLockTx.reporttxid) ∧
    (∀ coin, coin ≠ sampleLockTx.coinpreouthash →
      mapFind coin (UpdateLockMineCoin coinOnlyCache sampleLockTx false).m_mapCoinBeReport
        = mapFind coin coinOnlyCache.m_mapCoinBeReport) ∧
    (UpdateLockMineCoin coinOnlyCache sampleLockTx false).m_mapChainTxInfos
      = coinOnlyCache.m_mapChainTxInfos ∧
    (UpdateLockMineCoin coinOnlyCache sampleLockTx false).m_mapRecvRecord
      = coinOnlyCache.m_mapRecvRecord :=
  C15_coin_lock_polarity coinOnlyCache sampleLockTx false (by decide) (by decide) (by decide)

/-! ## Last writer wins in the cache -/

/-- A key that a map binds has exactly one entry in it. -/
theorem filter_key_of_mapFind {V : Type} (k : uint256) (v : V) (m : List (uint256 × V))
    (hm : mapSorted m) (h : mapFind k m = some v) :
    m.filter (fun e => e.1 == k) = [(k, v)] := by
  induction m with
  | nil => simp [mapFind] at h
  | cons a rest ih =>
    obtain ⟨k', v'⟩ := a
    have hp := List.pairwise_cons.mp hm
    have hrest : mapSorted rest := hp.2
    by_cases hk : k = k'
    · subst hk
      simp only [mapFind, if_true, Option.some.injEq] at h
      subst h
      have hnil : rest.filter (fun e => e.1 == k) = [] := by
        rw [List.filter_eq_nil_iff]
        intro e he
        simp only [beq_iff_eq]
        exact keys_ne_of_sorted_cons k v' rest hm e he
      simp [List.filter_cons, hnil]
    · simp only [mapFind, hk, if_false] at h
      have hb : (k' == k) = false := by
        simp only [beq_eq_false_iff_ne, ne_eq]
        exact fun hh => hk hh.symm
      simp only [List.filter_cons, hb, Bool.false_eq_true, if_false]
      exact ih hrest h

/-- Two updates of the same key in a row: the key has one entry, holding the
second update of the first update of what was there. -/
theorem filter_mapModify_twice {V : Type} (dflt : V) (f g : V → V) (k : uint256)
    (m : List (uint256 × V)) (hm : mapSorted m) :
    (mapModify dflt g k (mapModify dflt f k m)).filter (fun e => e.1 == k)
      = [(k, g (f ((mapFind k m).getD dflt)))] := by
  apply filter_key_of_mapFind
  · exact mapSorted_mapModify _ _ _ _ (mapSorted_mapModify _ _ _ _ hm)
  · rw [mapFind_mapModify_self _ _ _ _ (mapSorted_mapModify _ _ _ _ hm),
      mapFind_mapModify_self _ _ _ _ hm]
    rfl

/-- C16 (last writer wins in the cache): for every cache and every pregnant or
branch-create transaction `tx`, after `AddBranchChainTxRecord tx B i` followed
by `DelBranchChainTxRecord tx` the one staged entry of key `tx.id` is flagged
delete, and after the delete followed by the add it is flagged add with block
hash `B` and index `i`; for every step-2 transaction the same holds of
`AddBranchChainRecvTxRecord` and `DelBranchChainRecvTxRecord` on the one
entry keyed by the origin id. -/
theorem C16_last_writer_wins (GetOriTxHash : MCTransaction → uint256)
    (dflt : BranchChainTxInfo) (dfltRecv : BranchChainTxRecvInfo)
    (cache : BranchChainTxRecordsCache) (tx : MCTransaction) (B : uint256) (i : Nat)
    (hs1 : mapSorted cache.m_mapChainTxInfos) (hs2 : mapSorted cache.m_mapRecvRecord) :
    (tx.isPregnantTx = true ∨ tx.isBranchCreate = true →
      (∃ e, (DelBranchChainTxRecord dflt (AddBranchChainTxRecord dflt cache tx B i)
              tx).m_mapChainTxInfos.filter (fun x => x.1 == tx.hash) = [(tx.hash, e)] ∧
            e.flags = DbDataFlag.eDELETE) ∧
      (∃ e, (AddBranchChainTxRecord dflt (DelBranchChainTxRecord dflt cache tx)
              tx B i).m_mapChainTxInfos.filter (fun x => x.1 == tx.hash) = [(tx.hash, e)] ∧
            e.flags = DbDataFlag.eADD ∧ e.blockhash = B ∧ e.txindex = i)) ∧
    (tx.isBranchChainTransStep2 = true →
      (∃ e, (DelBranchChainRecvTxRecord GetOriTxHash dfltRecv
              (AddBranchChainRecvTxRecord GetOriTxHash dfltRecv cache tx B)
              tx).m_mapRecvRecord.filter (fun x => x.1 == GetOriTxHash tx)
              = [(GetOriTxHash tx, e)] ∧
            e.flags = DbDataFlag.eDELETE) ∧
      (AddBranchChainRecvTxRecord GetOriTxHash dfltRecv
          (DelBranchChainRecvTxRecord GetOriTxHash dfltRecv cache tx)
          tx B).m_mapRecvRecord.filter (fun x => x.1 == GetOriTxHash tx)
        = [(GetOriTxHash tx, ⟨B, DbDataFlag.eADD⟩)]) := by
  constructor
  · intro hpc
    have hguard : (!tx.isPregnantTx && !tx.isBranchCreate) = false := by
      rcases hpc with h | h <;> simp [h]
    simp only [DelBranchChainTxRecord, AddBranchChainTxRecord, hguard, Bool.false_eq_true,
      if_false]
    rw [filter_mapModify_twice _ _ _ _ _ hs1, filter_mapModify_twice _ _ _ _ _ hs1]
    exact ⟨⟨_, rfl, rfl⟩, ⟨_, rfl, rfl, rfl, rfl⟩⟩
  · intro h2
    have hguard : (tx.isBranchChainTransStep2 == false) = false := by simp [h2]
    simp only [DelBranchChainRecvTxRecord, AddBranchChainRecvTxRecord, hguard,
      Bool.false_eq_true, if_false]
    rw [filter_mapModify_twice _ _ _ _ _ hs2, filter_mapModify_twice _ _ _ _ _ hs2]
    exact ⟨⟨_, rfl, rfl⟩, rfl⟩

/-- Witness for C16: the branch-create transaction 7 and the step-2
transaction 21 (origin 121) on the empty cache. -/
theorem C16_last_writer_wins_witness :
    (∃ e, (DelBranchChainTxRecord sampleDflt
            (AddBranchChainTxRecord sampleDflt emptyCache sampleCreateTx 9 4)
            sampleCreateTx).m_mapChainTxInfos.filter (fun x => x.1 == sampleCreateTx.hash)
            = [(sampleCreateTx.hash, e)] ∧
          e.flags = DbDataFlag.eDELETE) ∧
    ((AddBranchChainRecvTxRecord sampleOri ⟨0, DbDataFlag.eADD⟩
        (DelBranchChainRecvTxRecord sampleOri ⟨0, DbDataFlag.eADD⟩ emptyCache sampleStep2Tx)
        sampleStep2Tx 9).m_mapRecvRecord.filter (fun x => x.1 == sampleOri sampleStep2Tx)
      = [(sampleOri sampleStep2Tx, ⟨9, DbDataFlag.eADD⟩)]) :=
  ⟨((C16_last_writer_wins sampleOri sampleDflt ⟨0, DbDataFlag.eADD⟩ emptyCache
      sampleCreateTx 9 4 (by decide) (by decide)).1 (Or.inr rfl)).1,
   ((C16_last_writer_wins sampleOri sampleDflt ⟨0, DbDataFlag.eADD⟩ emptyCache
      sampleStep2Tx 9 4 (by decide) (by decide)).2 rfl).2⟩

/-! ## The fast paths of the classifier -/

/-- C17 (pay-to-script-hash fast path): for every 20-byte value `h`, `Solver`
on the 23-byte script `OP_HASH160`, push-20, `h`, `OP_EQUAL` succeeds with
type script-hash and the one solution `h`. -/
theorem C17_p2sh_fast_path (ops : BranchOpcodes) (h : valtype) (hlen : h.length = 20)
    (typeRet : txnouttype) :
    (p2shScript h).length = 23 ∧
    Solver ops (p2shScript h) typeRet = ⟨true, txnouttype.TX_SCRIPTHASH, [h]⟩ := by
  have hl : (p2shScript h).length = 23 := by simp [p2shScript, hlen]
  have h22 : (p2shScript h).getD 22 0 = OP_EQUAL := by
    simp only [p2shScript, List.cons_append, List.nil_append, List.getD_cons_succ]
    rw [List.getD_append_right _ _ _ _ (by omega), hlen]
    rfl
  have hp : IsPayToScriptHash (p2shScript h) = true := by
    unfold IsPayToScriptHash
    rw [hl, h22]
    rfl
  have htake : ((p2shScript h).drop 2).take 20 = h := by
    simp only [p2shScript, List.cons_append, List.nil_append, List.drop_succ_cons,
      List.drop_zero]
    rw [← hlen, List.take_left']
    rfl
  refine ⟨hl, ?_⟩
  unfold Solver
  rw [hp, htake]
  rfl

/-- Witness for C17: the hash made of twenty bytes 1. -/
theorem C17_p2sh_fast_path_witness :
    (p2shScript (List.replicate 20 1)).length = 23 ∧
    Solver sampleOps (p2shScript (List.replicate 20 1)) txnouttype.TX_NONSTANDARD
      = ⟨true, txnouttype.TX_SCRIPTHASH, [List.replicate 20 1]⟩ :=
  C17_p2sh_fast_path sampleOps (List.replicate 20 1) (by decide) txnouttype.TX_NONSTANDARD

/-- C20 (witness fast path): for every version-0 witness program, `OP_0`
followed by one direct push that ends the script, `Solver` succeeds with type
witness-v0-keyhash and the program as its one solution when the program has
20 bytes, and with type witness-v0-scripthash and the program when it has 32
bytes. -/
theorem C20_witness_fast_path (ops : BranchOpcodes) (program : valtype)
    (typeRet : txnouttype) :
    (program.length = 20 →
      Solver ops (witnessV0Script program) typeRet
        = ⟨true, txnouttype.TX_WITNESS_V0_KEYHASH, [program]⟩) ∧
    (program.length = 32 →
      Solver ops (witnessV0Script program) typeRet
        = ⟨true, txnouttype.TX_WITNESS_V0_SCRIPTHASH, [program]⟩) := by
  constructor
  · intro hlen
    have hp : IsPayToScriptHash (witnessV0Script program) = false := by
      simp [IsPayToScriptHash, witnessV0Script, hlen]
    have hw : IsWitnessProgram (witnessV0Script program) = some (0, program) := by
      simp [IsWitnessProgram, witnessV0Script, hlen, DecodeOP_N]
    unfold Solver
    rw [hp, hw]
    simp [hlen]
  · intro hlen
    have hp : IsPayToScriptHash (witnessV0Script program) = false := by
      simp [IsPayToScriptHash, witnessV0Script, hlen]
    have hw : IsWitnessProgram (witnessV0Script program) = some (0, program) := by
      simp [IsWitnessProgram, witnessV0Script, hlen, DecodeOP_N]
    unfold Solver
    rw [hp, hw]
    simp [hlen]

/-- Witness for C20: a 20-byte and a 32-byte program. -/
theorem C20_witness_fast_path_witness :
    Solver sampleOps (witnessV0Script (List.replicate 20 1)) txnouttype.TX_NONSTANDARD
      = ⟨true, txnouttype.TX_WITNESS_V0_KEYHASH, [List.replicate 20 1]⟩ ∧
    Solver sampleOps (witnessV0Script (List.replicate 32 1)) txnouttype.TX_NONSTANDARD
      = ⟨true, txnouttype.TX_WITNESS_V0_SCRIPTHASH, [List.replicate 32 1]⟩ :=
  ⟨(C20_witness_fast_path sampleOps (List.replicate 20 1) txnouttype.TX_NONSTANDARD).1
      (by decide),
   (C20_witness_fast_path sampleOps (List.replicate 32 1) txnouttype.TX_NONSTANDARD).2
      (by decide)⟩

/-- Reading one push operation: it is read whole, and its opcode is at most
`OP_16`. -/
theorem GetOp_pushOp (t : PushOp) (ht : t.valid) (rest : MCScript) :
    ∃ opcode vch, opcode ≤ OP_16 ∧ GetOp (t.bytes ++ rest) = ⟨true, opcode, vch, rest⟩ := by
  cases t with
  | small opcode =>
    obtain ⟨h1, h2⟩ := ht
    refine ⟨opcode, [], h2, ?_⟩
    have h3 : ¬ opcode ≤ OP_PUSHDATA4 := by
      show ¬ opcode ≤ 0x4e
      omega
    simp only [PushOp.bytes, List.cons_append, List.nil_append, GetOp, h3, if_false]
  | data f d =>
    cases f with
    | direct =>
      have hlt : d.length < 0x4c := ht
      refine ⟨d.length, d, by show d.length ≤ 0x60; omega, ?_⟩
      have h3 : d.length ≤ OP_PUSHDATA4 := by show d.length ≤ 0x4e; omega
      have h4 : d.length < OP_PUSHDATA1 := hlt
      simp only [PushOp.bytes, pushBytes, List.cons_append, GetOp, h3, h4, if_true]
      exact readData_append _ d rest
    | pushdata1 =>
      refine ⟨OP_PUSHDATA1, d, by decide, ?_⟩
      simp only [PushOp.bytes, pushBytes, List.cons_append, GetOp]
      simp only [show OP_PUSHDATA1 ≤ OP_PUSHDATA4 by decide, if_true,
        show ¬ OP_PUSHDATA1 < OP_PUSHDATA1 by decide, if_false]
      exact readData_append _ d rest
    | pushdata2 =>
      have hlt : d.length < 65536 := ht
      have hle : ReadLE 2 (d.length % 256 :: d.length / 256 :: (d ++ rest)) = d.length := by
        simp only [ReadLE]; omega
      refine ⟨OP_PUSHDATA2, d, by decide, ?_⟩
      simp only [PushOp.bytes, pushBytes, List.cons_append, GetOp]
      simp only [show OP_PUSHDATA2 ≤ OP_PUSHDATA4 by decide, if_true,
        show ¬ OP_PUSHDATA2 < OP_PUSHDATA1 by decide, if_false,
        show ¬ OP_PUSHDATA2 = OP_PUSHDATA1 by decide, hle]
      have hlen : ¬ (d.length % 256 :: d.length / 256 :: (d ++ rest)).length < 2 := by
        simp
      simp only [hlen, if_false, List.drop_succ_cons, List.drop_zero]
      exact readData_append _ d rest
    | pushdata4 =>
      have hlt : d.length < 4294967296 := ht
      have hle : ReadLE 4 (d.length % 256 :: d.length / 256 % 256 ::
          d.length / 65536 % 256 :: d.length / 16777216 :: (d ++ rest)) = d.length := by
        simp only [ReadLE]; omega
      refine ⟨OP_PUSHDATA4, d, by decide, ?_⟩
      simp only [PushOp.bytes, pushBytes, List.cons_append, GetOp]
      simp only [show OP_PUSHDATA4 ≤ OP_PUSHDATA4 by decide, if_true,
        show ¬ OP_PUSHDATA4 < OP_PUSHDATA1 by decide, if_false,
        show ¬ OP_PUSHDATA4 = OP_PUSHDATA1 by decide,
        show ¬ OP_PUSHDATA4 = OP_PUSHDATA2 by decide, hle]
      have hlen : ¬ (d.length % 256 :: d.length / 256 % 256 ::
          d.length / 65536 % 256 :: d.length / 16777216 :: (d ++ rest)).length < 4 := by
        simp
      simp only [hlen, if_false, List.drop_succ_cons, List.drop_zero]
      exact readData_append _ d rest

theorem PushOp.bytes_ne_nil (t : PushOp) : t.bytes ≠ [] := by
  cases t with
  | small opcode => simp [PushOp.bytes]
  | data f d => cases f <;> simp [PushOp.bytes, pushBytes]

/-- A sequence of push operations passes `IsPushOnly`, for every round bound
from the length of the script on. -/
theorem IsPushOnlyLoop_pushOps (toks : List PushOp) (hv : ∀ t ∈ toks, t.valid) (fuel : Nat)
    (hf : (pushOpsBytes toks).length ≤ fuel) :
    IsPushOnlyLoop fuel (pushOpsBytes toks) = true := by
  induction toks generalizing fuel with
  | nil =>
    cases fuel with
    | zero => rfl
    | succ f => simp [IsPushOnlyLoop, pushOpsBytes]
  | cons t ts ih =>
    have hne : t.bytes ++ pushOpsBytes ts ≠ [] := by
      intro h
      exact t.bytes_ne_nil (List.append_eq_nil.mp h).1
    have hpos : 1 ≤ t.bytes.length := by
      cases hb : t.bytes with
      | nil => exact absurd hb t.bytes_ne_nil
      | cons a r => simp
    simp only [pushOpsBytes, List.length_append] at hf
    cases fuel with
    | zero => omega
    | succ f =>
      obtain ⟨opcode, vch, hop, hget⟩ := GetOp_pushOp t (hv t (by simp)) (pushOpsBytes ts)
      have hop' : ¬ opcode > OP_16 := Nat.not_lt_of_le hop
      simp only [IsPushOnlyLoop, pushOpsBytes, hne, if_false, hget, Bool.not_true,
        Bool.false_eq_true, hop']
      exact ih (fun x hx => hv x (by simp [hx])) f (by omega)

/-- The check `IsPushOnly` gives the same result for every round bound from
the length of the script on. -/
theorem IsPushOnlyLoop_fuel (fuel fuel' : Nat) (pc : MCScript) (h : pc.length ≤ fuel)
    (h' : pc.length ≤ fuel') : IsPushOnlyLoop fuel pc = IsPushOnlyLoop fuel' pc := by
  induction fuel generalizing fuel' pc with
  | zero =>
    have hnil : pc = [] := List.length_eq_zero.mp (Nat.le_zero.mp h)
    subst hnil
    cases fuel' <;> simp [IsPushOnlyLoop]
  | succ f ih =>
    cases fuel' with
    | zero =>
      have hnil : pc = [] := List.length_eq_zero.mp (Nat.le_zero.mp h')
      subst hnil
      simp [IsPushOnlyLoop]
    | succ f' =>
      simp only [IsPushOnlyLoop]
      split
      · rfl
      · cases hok : (GetOp pc).ok with
        | false => simp
        | true =>
          have := GetOp_pc_lt pc hok
          simp only [Bool.not_true, Bool.false_eq_true, if_false]
          split
          · rfl
          · exact ih f' _ (by omega) (by omega)

/-- C18 (null-data fast path): for every script whose first opcode is
`OP_RETURN` and whose remainder passes the push-only check, in particular for
every remainder that is a sequence of push operations (the empty sequence
included), `Solver` succeeds with type null-data and no solution. -/
theorem C18_null_data_fast_path (ops : BranchOpcodes) (typeRet : txnouttype) :
    (∀ rest : MCScript, IsPushOnly rest = true →
      Solver ops (OP_RETURN :: rest) typeRet = ⟨true, txnouttype.TX_NULL_DATA, []⟩) ∧
    (∀ toks : List PushOp, (∀ t ∈ toks, t.valid) →
      Solver ops (OP_RETURN :: pushOpsBytes toks) typeRet
        = ⟨true, txnouttype.TX_NULL_DATA, []⟩) := by
  have key : ∀ rest : MCScript, IsPushOnly rest = true →
      Solver ops (OP_RETURN :: rest) typeRet = ⟨true, txnouttype.TX_NULL_DATA, []⟩ := by
    intro rest hr
    have hp : IsPayToScriptHash (OP_RETURN :: rest) = false := by
      simp [IsPayToScriptHash]
    have hw : IsWitnessProgram (OP_RETURN :: rest) = none := by
      have h0 : (OP_RETURN :: rest).getD 0 0 ≠ OP_0 ∧
          ((OP_RETURN :: rest).getD 0 0 < OP_1 ∨ (OP_RETURN :: rest).getD 0 0 > OP_16) := by
        simp only [List.getD_cons_zero]
        decide
      unfold IsWitnessProgram
      rw [if_pos h0]
      split <;> rfl
    unfold Solver
    rw [hp, hw]
    simp [hr]
  refine ⟨key, ?_⟩
  intro toks hv
  exact key _ (IsPushOnlyLoop_pushOps toks hv _ (Nat.le_refl _))

/-- Witness for C18: `OP_RETURN` followed by a direct push of five bytes. -/
theorem C18_null_data_fast_path_witness :
    Solver sampleOps (OP_RETURN :: pushOpsBytes [PushOp.data PushForm.direct [1, 2, 3, 4, 5]])
        txnouttype.TX_NONSTANDARD
      = ⟨true, txnouttype.TX_NULL_DATA, []⟩ :=
  (C18_null_data_fast_path sampleOps txnouttype.TX_NONSTANDARD).2
    [PushOp.data PushForm.direct [1, 2, 3, 4, 5]] (by decide)

/-! ## What a successful template scan tells about the script -/

/-- A successful scan found a template of the table that the script matches;
the returned tag is the tag of that template and the returned solutions are
the captured ones. -/
theorem scanTemplates_ret_true (ops : BranchOpcodes) (L : List (txnouttype × MCScript))
    (s : MCScript) (t : txnouttype) (h : (scanTemplates ops L s t).ret = true) :
    ∃ ty tpl sols, (ty, tpl) ∈ L ∧ matchLoop ops (s.length + 1) s tpl [] = .found sols ∧
      (scanTemplates ops L s t).typeRet = ty ∧
      (scanTemplates ops L s t).vSolutionsRet = sols := by
  induction L with
  | nil => simp [scanTemplates] at h
  | cons a rest ih =>
    obtain ⟨ty, tpl⟩ := a
    simp only [scanTemplates] at h ⊢
    cases hm : matchLoop ops (s.length + 1) s tpl [] with
    | found sols =>
      refine ⟨ty, tpl, sols, List.mem_cons_self _ _, hm, ?_, ?_⟩
      · simp only [foundResult]
        split
        · split <;> rfl
        · rfl
      · simp only [foundResult]
        split
        · split <;> rfl
        · rfl
    | abort sols => simp [hm] at h
    | brk =>
      simp only [hm] at h ⊢
      obtain ⟨ty', tpl', sols', hmem, hfound, hty, hsol⟩ := ih h
      exact ⟨ty', tpl', sols', List.mem_cons_of_mem _ hmem, hfound, hty, hsol⟩

/-- A successful `Solver` with a tag that none of the three fast paths gives
comes from the template scan. -/
theorem Solver_ret_true_scan (ops : BranchOpcodes) (s : MCScript) (t : txnouttype)
    (h : (Solver ops s t).ret = true)
    (h1 : (Solver ops s t).typeRet ≠ txnouttype.TX_SCRIPTHASH)
    (h2 : (Solver ops s t).typeRet ≠ txnouttype.TX_WITNESS_V0_KEYHASH)
    (h3 : (Solver ops s t).typeRet ≠ txnouttype.TX_WITNESS_V0_SCRIPTHASH)
    (h4 : (Solver ops s t).typeRet ≠ txnouttype.TX_NULL_DATA) :
    Solver ops s t = scanTemplates ops (mTemplates ops) s t := by
  unfold Solver at h h1 h2 h3 h4 ⊢
  split
  · rename_i hp
    simp [hp] at h1
  · rename_i hp
    simp only [hp, Bool.false_eq_true, if_false] at h h1 h2 h3 h4
    cases hw : IsWitnessProgram s with
    | some p =>
      obtain ⟨v, prog⟩ := p
      simp only [hw] at h h1 h2 h3 h4
      split at h
      · rename_i hc; simp [hc] at h2
      · rename_i hc
        simp only [hc, if_false] at h h2 h3
        split at h
        · rename_i hc2; simp [hc2] at h3
        · simp at h
    | none =>
      simp only [hw] at h h1 h2 h3 h4 ⊢
      split
      · rename_i hc
        rw [if_pos hc] at h4
        exact absurd rfl h4
      · rfl

/-- What well-formedness gives for one branch-chain opcode: it is read as an
opcode without data and is none of the wildcards of the standard templates. -/
theorem BranchOpcodes.WF.opcode {ops : BranchOpcodes} (h : ops.WF) (x : Nat)
    (hx : x ∈ ops.all) :
    OP_PUSHDATA4 < x ∧ x ≠ OP_PUBKEYS ∧ x ≠ OP_PUBKEY ∧ x ≠ OP_PUBKEYHASH ∧
      x ≠ OP_SMALLINTEGER := by
  obtain ⟨h16, _, hnot⟩ := h.2 x hx
  refine ⟨Nat.lt_trans (by decide) h16, ?_, ?_, ?_, ?_⟩ <;>
    (intro he; apply hnot; rw [he]; simp [templateOpcodes])

/-- One round of the template comparison on a template token that is an
opcode without data and not `OP_PUBKEYS`: a match of the whole template means
that the script token reads, passes the check of the template token, and the
rest matches. -/
theorem matchLoop_step (ops : BranchOpcodes) (x : Nat) (hx : OP_PUSHDATA4 < x)
    (hnk : x ≠ OP_PUBKEYS) (tpl : MCScript) (fuel : Nat) (pc1 : MCScript)
    (sols res : List valtype)
    (h : matchLoop ops fuel pc1 (x :: tpl) sols = .found res) :
    ∃ f sols', fuel = f + 1 ∧ (GetOp pc1).ok = true ∧
      tokenCheck ops (GetOp pc1) ⟨true, x, [], tpl⟩ sols = .next sols' ∧
      matchLoop ops f (GetOp pc1).pc tpl sols' = .found res := by
  cases fuel with
  | zero => simp [matchLoop] at h
  | succ f =>
    simp only [matchLoop, GetOp_opcode x hx tpl, hnk, if_false, Bool.not_true,
      Bool.false_eq_true, reduceCtorEq, and_false] at h
    cases hok : (GetOp pc1).ok with
    | false => simp [hok] at h
    | true =>
      simp only [hok, Bool.not_true, Bool.false_eq_true, if_false] at h
      cases htc : tokenCheck ops (GetOp pc1) ⟨true, x, [], tpl⟩ sols with
      | next sols' =>
        simp only [htc] at h
        exact ⟨f, sols', rfl, rfl, rfl, h⟩
      | brk => simp [htc] at h
      | abort sols' => simp [htc] at h

/-- The branch-chain opcodes that the height templates use are pairwise
distinct. -/
theorem BranchOpcodes.WF.distinct {ops : BranchOpcodes} (h : ops.WF) :
    ops.OP_MINE_BRANCH_MORTGAGE ≠ ops.OP_HASH256_DATA ∧
    ops.OP_MINE_BRANCH_MORTGAGE ≠ ops.OP_BLOCK_HIGH ∧
    ops.OP_MINE_BRANCH_COIN ≠ ops.OP_HASH256_DATA ∧
    ops.OP_MINE_BRANCH_COIN ≠ ops.OP_BLOCK_HIGH ∧
    ops.OP_HASH256_DATA ≠ ops.OP_BLOCK_HIGH := by
  have hn := h.1
  simp only [BranchOpcodes.all, List.nodup_cons, List.mem_cons, List.mem_singleton,
    List.not_mem_nil, or_false, not_or, List.nodup_nil, and_true] at hn
  obtain ⟨_, _, ⟨_, _, hm1, hm2⟩, ⟨_, hc1, hc2⟩, _, hh⟩ := hn
  exact ⟨hm1, hm2, hc1, hc2, hh.1⟩

/-- A literal template token passes only a script token with the same opcode
and no data. -/
theorem tokenCheck_literal (ops : BranchOpcodes) (x : Nat) (h1 : x ≠ OP_PUBKEY)
    (h2 : x ≠ OP_PUBKEYHASH) (h3 : x ≠ OP_SMALLINTEGER) (h4 : x ≠ ops.OP_HASH256_DATA)
    (h5 : x ≠ ops.OP_BLOCK_HIGH) (r1 : OpRead) (tpl : MCScript) (sols sols' : List valtype)
    (h : tokenCheck ops r1 ⟨true, x, [], tpl⟩ sols = .next sols') :
    r1.opcode = x ∧ r1.vch = [] ∧ sols' = sols := by
  simp only [tokenCheck, h1, h2, h3, h4, h5, if_false] at h
  split at h
  · simp at h
  · rename_i hc
    simp only [not_or, not_not] at hc
    simp only [TokenOutcome.next.injEq] at h
    exact ⟨hc.1, hc.2, h.symm⟩

/-- The hash wildcard passes only a token with 32 bytes of data. -/
theorem tokenCheck_hash256 (ops : BranchOpcodes) (hops : ops.WF) (r1 : OpRead)
    (tpl : MCScript) (sols sols' : List valtype)
    (h : tokenCheck ops r1 ⟨true, ops.OP_HASH256_DATA, [], tpl⟩ sols = .next sols') :
    r1.vch.length = 32 ∧ sols' = sols := by
  obtain ⟨_, _, h1, h2, h3⟩ := hops.opcode ops.OP_HASH256_DATA (by simp [BranchOpcodes.all])
  simp only [tokenCheck, h1, h2, h3, if_false, if_true] at h
  split at h
  · simp at h
  · rename_i hc
    simp only [ne_eq, not_not] at hc
    simp only [TokenOutcome.next.injEq] at h
    exact ⟨hc, h.symm⟩

/-- The height wildcard passes only a token with at most 5 bytes of data. -/
theorem tokenCheck_block_high (ops : BranchOpcodes) (hops : ops.WF) (r1 : OpRead)
    (tpl : MCScript) (sols sols' : List valtype)
    (h : tokenCheck ops r1 ⟨true, ops.OP_BLOCK_HIGH, [], tpl⟩ sols = .next sols') :
    r1.vch.length ≤ 5 ∧ sols' = sols := by
  obtain ⟨_, _, h1, h2, h3⟩ := hops.opcode ops.OP_BLOCK_HIGH (by simp [BranchOpcodes.all])
  have h4 : ops.OP_BLOCK_HIGH ≠ ops.OP_HASH256_DATA := fun he => hops.distinct.2.2.2.2 he.symm
  simp only [tokenCheck, h1, h2, h3, h4, if_false, if_true] at h
  split at h
  · simp at h
  · rename_i hc
    simp only [TokenOutcome.next.injEq] at h
    exact ⟨Nat.le_of_not_lt hc, h.symm⟩

/-- A script that matches a template `marker, hash wildcard, height wildcard,
...` starts with the marker opcode, a token with 32 bytes of data and a token
with at most 5 bytes of data. -/
theorem matchLoop_height (ops : BranchOpcodes) (hops : ops.WF) (marker : Nat)
    (hmk : marker = ops.OP_MINE_BRANCH_MORTGAGE ∨ marker = ops.OP_MINE_BRANCH_COIN)
    (tail : MCScript) (fuel : Nat) (s : MCScript) (sols : List valtype)
    (h : matchLoop ops fuel s
      (marker :: ops.OP_HASH256_DATA :: ops.OP_BLOCK_HIGH :: tail) [] = .found sols) :
    (GetOp s).ok = true ∧ (GetOp s).opcode = marker ∧ (GetOp s).vch = [] ∧
    (GetOp (GetOp s).pc).ok = true ∧ (GetOp (GetOp s).pc).vch.length = 32 ∧
    (thirdToken s).ok = true ∧ (thirdToken s).vch.length ≤ 5 := by
  have hmem : marker ∈ ops.all := by
    rcases hmk with rfl | rfl <;> simp [BranchOpcodes.all]
  obtain ⟨m0, m1, m2, m3, m4⟩ := hops.opcode marker hmem
  obtain ⟨d1, d2, d3, d4, _⟩ := hops.distinct
  have m5 : marker ≠ ops.OP_HASH256_DATA := by rcases hmk with rfl | rfl <;> assumption
  have m6 : marker ≠ ops.OP_BLOCK_HIGH := by rcases hmk with rfl | rfl <;> assumption
  obtain ⟨a0, a1, _, _, _⟩ := hops.opcode ops.OP_HASH256_DATA (by simp [BranchOpcodes.all])
  obtain ⟨b0, b1, _, _, _⟩ := hops.opcode ops.OP_BLOCK_HIGH (by simp [BranchOpcodes.all])
  obtain ⟨f1, s1, _, hok1, ht1, hr1⟩ := matchLoop_step ops marker m0 m1 _ fuel s [] sols h
  obtain ⟨e1, e2, rfl⟩ := tokenCheck_literal ops marker m2 m3 m4 m5 m6 _ _ _ _ ht1
  obtain ⟨f2, s2, _, hok2, ht2, hr2⟩ :=
    matchLoop_step ops ops.OP_HASH256_DATA a0 a1 _ f1 _ _ sols hr1
  obtain ⟨e3, rfl⟩ := tokenCheck_hash256 ops hops _ _ _ _ ht2
  obtain ⟨f3, s3, _, hok3, ht3, _⟩ :=
    matchLoop_step ops ops.OP_BLOCK_HIGH b0 b1 _ f2 _ _ sols hr2
  obtain ⟨e4, _⟩ := tokenCheck_block_high ops hops _ _ _ _ ht3
  exact ⟨hok1, e1, e2, hok2, e3, hok3, e4⟩

/-- C19 (height wildcard accepts only short pushes), evaluated on the code:
the script `OP_MINE_BRANCH_MORTGAGE <32 bytes> OP_DUP OP_2DROP OP_DUP
OP_HASH160 <20 bytes> OP_EQUALVERIFY OP_CHECKSIG` is classified as
mine-mortgage although the token at its height position is the opcode
`OP_DUP`, which is above `OP_16` and pushes nothing: the height wildcard
tests `vch1.size() > 5` only. -/
theorem C19_non_push_height_is_accepted :
    Solver sampleOps sampleNonPushHeight txnouttype.TX_NONSTANDARD
      = ⟨true, txnouttype.TX_MINE_MORTGAGE, [List.replicate 20 1]⟩ ∧
    (thirdToken sampleNonPushHeight).opcode = OP_DUP ∧
    (thirdToken sampleNonPushHeight).vch = [] ∧
    OP_16 < (thirdToken sampleNonPushHeight).opcode := by
  decide

/-- What the height wildcard does enforce: for every script that `Solver`
classifies as mine-mortgage or mortgage-coin, the first token is the marker
opcode of the type, the second token carries 32 bytes of data, and the token
at the block-height position (the third token) carries at most 5 bytes of
data. -/
theorem Solver_height_at_most_five_bytes (ops : BranchOpcodes) (hops : ops.WF) (s : MCScript)
    (t : txnouttype) (hret : (Solver ops s t).ret = true)
    (hty : (Solver ops s t).typeRet = txnouttype.TX_MINE_MORTGAGE ∨
      (Solver ops s t).typeRet = txnouttype.TX_MORTGAGE_COIN) :
    (GetOp s).ok = true ∧
    ((Solver ops s t).typeRet = txnouttype.TX_MINE_MORTGAGE →
      (GetOp s).opcode = ops.OP_MINE_BRANCH_MORTGAGE) ∧
    ((Solver ops s t).typeRet = txnouttype.TX_MORTGAGE_COIN →
      (GetOp s).opcode = ops.OP_MINE_BRANCH_COIN) ∧
    (GetOp (GetOp s).pc).ok = true ∧ (GetOp (GetOp s).pc).vch.length = 32 ∧
    (thirdToken s).ok = true ∧ (thirdToken s).vch.length ≤ 5 := by
  have hscan : Solver ops s t = scanTemplates ops (mTemplates ops) s t := by
    apply Solver_ret_true_scan ops s t hret <;>
      (rcases hty with h | h <;> rw [h] <;> decide)
  rw [hscan] at hret hty ⊢
  obtain ⟨ty, tpl, sols, hmem, hfound, htyeq, _⟩ :=
    scanTemplates_ret_true ops (mTemplates ops) s t hret
  rw [htyeq] at hty ⊢
  simp only [mTemplates, List.mem_cons, Prod.mk.injEq, List.mem_singleton, List.not_mem_nil,
    or_false] at hmem
  rcases hmem with ⟨rfl, _⟩ | ⟨rfl, _⟩ | ⟨rfl, _⟩ | ⟨rfl, _⟩ | ⟨rfl, _⟩ | ⟨rfl, _⟩ |
    ⟨rfl, rfl⟩ | ⟨rfl, rfl⟩ | ⟨rfl, _⟩
  all_goals first
    | (rcases hty with h | h <;> exact absurd h (by decide))
    | skip
  · obtain ⟨a, b, _, c, d, e, f⟩ :=
      matchLoop_height ops hops _ (Or.inl rfl) _ _ s sols hfound
    exact ⟨a, fun _ => b, fun h => absurd h (by decide), c, d, e, f⟩
  · obtain ⟨a, b, _, c, d, e, f⟩ :=
      matchLoop_height ops hops _ (Or.inr rfl) _ _ s sols hfound
    exact ⟨a, fun h => absurd h (by decide), fun _ => b, c, d, e, f⟩

/-- An instance of `Solver_height_at_most_five_bytes`: a mine-mortgage script
with a three-byte height push. -/
theorem Solver_height_at_most_five_bytes_example :
    (GetOp sampleMineMortgage).ok = true ∧
    ((Solver sampleOps sampleMineMortgage txnouttype.TX_NONSTANDARD).typeRet
        = txnouttype.TX_MINE_MORTGAGE →
      (GetOp sampleMineMortgage).opcode = sampleOps.OP_MINE_BRANCH_MORTGAGE) ∧
    ((Solver sampleOps sampleMineMortgage txnouttype.TX_NONSTANDARD).typeRet
        = txnouttype.TX_MORTGAGE_COIN →
      (GetOp sampleMineMortgage).opcode = sampleOps.OP_MINE_BRANCH_COIN) ∧
    (GetOp (GetOp sampleMineMortgage).pc).ok = true ∧
    (GetOp (GetOp sampleMineMortgage).pc).vch.length = 32 ∧
    (thirdToken sampleMineMortgage).ok = true ∧
    (thirdToken sampleMineMortgage).vch.length ≤ 5 :=
  Solver_height_at_most_five_bytes sampleOps (by decide) sampleMineMortgage
    txnouttype.TX_NONSTANDARD (by decide) (Or.inl (by decide))

/-! ## The branch-transaction records -/

theorem applyOp_txOp_self (s : MCDBWrapper) (e : uint256 × BranchChainTxInfo) :
    (applyOp s (txOp e)).txData e.1 = txResult e.2 := by
  unfold txOp txResult
  split <;> simp [applyOp, *]

theorem applyOp_txOp_other (s : MCDBWrapper) (e : uint256 × BranchChainTxInfo)
    (k : uint256) (h : k ≠ e.1) : (applyOp s (txOp e)).txData k = s.txData k := by
  unfold txOp
  split <;> simp [applyOp, h]

theorem applyOp_recvOp_txData (s : MCDBWrapper) (e : uint256 × BranchChainTxRecvInfo) :
    (applyOp s (recvOp e)).txData = s.txData := by
  unfold recvOp
  split <;> rfl

theorem foldl_flushRecvEntry_txData (env : FlushEnv)
    (l : List (uint256 × BranchChainTxRecvInfo)) (st : FlushState)
    (hok : ∀ k, env.commitOk k = true) :
    (pending (l.foldl (flushRecvEntry env) st)).txData = (pending st).txData := by
  induction l generalizing st with
  | nil => rfl
  | cons e rest ih =>
    simp only [List.foldl_cons]
    rw [ih, flushRecvEntry_pending env st e hok, applyOp_recvOp_txData]

theorem foldl_flushTxEntry_other (env : FlushEnv) (l : List (uint256 × BranchChainTxInfo))
    (st : FlushState) (k : uint256) (hok : ∀ k, env.commitOk k = true)
    (h : ∀ e ∈ l, e.1 ≠ k) :
    (pending (l.foldl (flushTxEntry env) st)).txData k = (pending st).txData k := by
  induction l generalizing st with
  | nil => rfl
  | cons e rest ih =>
    simp only [List.foldl_cons]
    rw [ih _ (fun e' he' => h e' (by simp [he'])), flushTxEntry_pending env st e hok]
    exact applyOp_txOp_other _ e k (fun hh => h e (by simp) hh.symm)

theorem foldl_flushTxEntry_find (env : FlushEnv) (l : List (uint256 × BranchChainTxInfo))
    (st : FlushState) (k : uint256) (hok : ∀ k, env.commitOk k = true) (hl : mapSorted l) :
    (pending (l.foldl (flushTxEntry env) st)).txData k =
      match mapFind k l with
      | some v => txResult v
      | none => (pending st).txData k := by
  induction l generalizing st with
  | nil => rfl
  | cons e rest ih =>
    obtain ⟨k', v⟩ := e
    have hrest : mapSorted rest := (List.pairwise_cons.mp hl).2
    simp only [List.foldl_cons]
    by_cases hk : k = k'
    · subst hk
      rw [foldl_flushTxEntry_other env rest _ k hok (keys_ne_of_sorted_cons k v rest hl),
        flushTxEntry_pending env st (k, v) hok]
      simp only [mapFind, if_true]
      exact applyOp_txOp_self _ (k, v)
    · rw [ih _ hrest, flushTxEntry_pending env st (k', v) hok]
      simp only [mapFind, hk, if_false]
      rw [applyOp_txOp_other _ (k', v) k hk]

theorem flushCoinEntry_txData (s : MCDBWrapper) (e : uint256 × List CoinReportInfo) :
    (flushCoinEntry s e).txData = s.txData := by
  unfold flushCoinEntry
  simp only
  split <;> rfl

theorem foldl_flushCoin_txData (l : List (uint256 × List CoinReportInfo)) (s : MCDBWrapper) :
    (l.foldl flushCoinEntry s).txData = s.txData := by
  induction l generalizing s with
  | nil => rfl
  | cons e rest ih => simp only [List.foldl_cons, ih, flushCoinEntry_txData]

/-- The branch-transaction record `Flush` leaves under a key when every commit
succeeds, whatever the batch threshold and the size estimate: the staged
record for a staged add, none for a staged delete, what was there for a key
that is not staged. -/
theorem Flush_txData (env : FlushEnv) (db : BranchChainTxRecordsDb)
    (cache : BranchChainTxRecordsCache) (k : uint256)
    (hok : ∀ k, env.commitOk k = true) (hs : mapSorted cache.m_mapChainTxInfos) :
    (Flush env db cache).1.m_db.txData k =
      match mapFind k cache.m_mapChainTxInfos with
      | some v => txResult v
      | none => db.m_db.txData k := by
  have hfin : (WriteBatch (flushRet env db cache) (flushBatched env db cache).store
      (flushBatched env db cache).batch) = pending (flushBatched env db cache) := by
    simp [WriteBatch, flushRet, hok, pending]
  have hb : (pending (flushBatched env db cache)).txData k =
      (pending (cache.m_mapRecvRecord.foldl (flushRecvEntry env)
        (cache.m_mapChainTxInfos.foldl (flushTxEntry env)
          ⟨db.m_db, [], 0, db.m_vCreatedBranchTxs, false⟩))).txData k := by
    unfold flushBatched
    simp only
    split
    · simp [pending, applyOp]
    · rfl
  unfold Flush
  simp only
  rw [foldl_flushCoin_txData, hfin, hb, foldl_flushRecvEntry_txData env _ _ hok,
    foldl_flushTxEntry_find env _ _ k hok hs]
  rfl

/-- C24 (`Flush` result is independent of batching): when every store write
succeeds, for every cache, every batch-size threshold and every size
estimate, after `Flush` `GetBranchChainTxInfo id` returns the staged record
for an id staged as add, the null-block-hash sentinel for an id staged as
delete, and what it returned before `Flush` for an id that is not staged. -/
theorem C24_flush_independent_of_batching (env : FlushEnv) (dflt : BranchChainTxInfo)
    (db : BranchChainTxRecordsDb) (cache : BranchChainTxRecordsCache) (id : uint256)
    (hok : ∀ k, env.commitOk k = true) (hs : mapSorted cache.m_mapChainTxInfos) :
    (∀ v, mapFind id cache.m_mapChainTxInfos = some v → v.flags = DbDataFlag.eADD →
      GetBranchChainTxInfo dflt (Flush env db cache).1 id = v) ∧
    (∀ v, mapFind id cache.m_mapChainTxInfos = some v → v.flags = DbDataFlag.eDELETE →
      GetBranchChainTxInfo dflt (Flush env db cache).1 id = { dflt with blockhash := 0 }) ∧
    (mapFind id cache.m_mapChainTxInfos = none →
      GetBranchChainTxInfo dflt (Flush env db cache).1 id = GetBranchChainTxInfo dflt db id) := by
  refine ⟨?_, ?_, ?_⟩
  · intro v hv hf
    simp [GetBranchChainTxInfo, Flush_txData env db cache id hok hs, hv, txResult, hf]
  · intro v hv hf
    simp [GetBranchChainTxInfo, Flush_txData env db cache id hok hs, hv, txResult, hf]
  · intro hv
    simp [GetBranchChainTxInfo, Flush_txData env db cache id hok hs, hv]

/-- Witness for C24: with the batch threshold 0, the staged add of record 3,
the staged delete of record 4 and the unstaged id 8. -/
theorem C24_flush_independent_of_batching_witness :
    GetBranchChainTxInfo sampleDflt (Flush smallBatchEnv emptyDb sampleTxCache).1 3
      = { blockhash := 9, txindex := 1, txnVersion := 5,
          createchaininfo := ⟨0, [], [], 0⟩, flags := DbDataFlag.eADD } ∧
    GetBranchChainTxInfo sampleDflt (Flush smallBatchEnv emptyDb sampleTxCache).1 4
      = { sampleDflt with blockhash := 0 } ∧
    GetBranchChainTxInfo sampleDflt (Flush smallBatchEnv emptyDb sampleTxCache).1 8
      = GetBranchChainTxInfo sampleDflt emptyDb 8 :=
  ⟨(C24_flush_independent_of_batching smallBatchEnv sampleDflt emptyDb sampleTxCache 3
      (fun _ => rfl) (by decide)).1 _ rfl rfl,
   (C24_flush_independent_of_batching smallBatchEnv sampleDflt emptyDb sampleTxCache 4
      (fun _ => rfl) (by decide)).2.1 _ rfl rfl,
   (C24_flush_independent_of_batching smallBatchEnv sampleDflt emptyDb sampleTxCache 8
      (fun _ => rfl) (by decide)).2.2 rfl⟩

/-! ## The builders and the classifier -/

theorem pushKeys_direct (keys : List valtype)
    (hk : ∀ k ∈ keys, 33 ≤ k.length ∧ k.length ≤ 65) :
    pushKeys keys = pushesBytes (keys.map (fun k => (PushForm.direct, k))) := by
  induction keys with
  | nil => rfl
  | cons k ks ih =>
    have hlt : k.length < OP_PUSHDATA1 := by
      have := (hk k (by simp)).2
      show k.length < 0x4c
      omega
    simp only [pushKeys, List.map_cons, pushesBytes, pushVector, hlt, if_true]
    rw [ih (fun x hx => hk x (by simp [hx]))]

/-- The script `GetScriptForMultisig` builds is the multisig shape with the
keys pushed directly. -/
theorem GetScriptForMultisig_shape (m : Nat) (keys : List valtype)
    (hk : ∀ k ∈ keys, 33 ≤ k.length ∧ k.length ≤ 65) :
    GetScriptForMultisig m keys
      = multisigScript m (keys.map (fun k => (PushForm.direct, k))) keys.length := by
  simp [GetScriptForMultisig, multisigScript, pushKeys_direct keys hk]

/-- C26 (multisig builder round trip): for every m and n with
1 <= m <= n <= 16 and every list of n keys of 33 to 65 bytes, `Solver` on
`GetScriptForMultisig m keys` succeeds with type multisig and the solutions
m, the keys in their order, n. -/
theorem C26_multisig_round_trip (ops : BranchOpcodes) (hops : ops.WF) (m : Nat)
    (keys : List valtype) (hm : 1 ≤ m) (hmn : m ≤ keys.length) (hn : keys.length ≤ 16)
    (hk : ∀ k ∈ keys, 33 ≤ k.length ∧ k.length ≤ 65) (typeRet : txnouttype) :
    Solver ops (GetScriptForMultisig m keys) typeRet
      = ⟨true, txnouttype.TX_MULTISIG, [m] :: keys ++ [[keys.length]]⟩ := by
  rw [GetScriptForMultisig_shape m keys hk]
  have hk' : ∀ k ∈ keys.map (fun k => (PushForm.direct, k)),
      33 ≤ k.2.length ∧ k.2.length ≤ 65 := by
    intro k hkm
    simp only [List.mem_map] at hkm
    obtain ⟨x, hx, rfl⟩ := hkm
    exact hk x hx
  have h := Solver_multisigScript ops hops m keys.length (by omega) hn
    (keys.map (fun k => (PushForm.direct, k))) hk'
    (by simp only [List.length_map]; omega) typeRet
  rw [h]
  simp [hm, hmn]

/-- Witness for C26: one signature of two 33-byte keys. -/
theorem C26_multisig_round_trip_witness :
    Solver sampleOps (GetScriptForMultisig 1 [sampleKey, List.replicate 33 8])
        txnouttype.TX_NONSTANDARD
      = ⟨true, txnouttype.TX_MULTISIG,
          [1] :: [sampleKey, List.replicate 33 8] ++ [[[sampleKey, List.replicate 33 8].length]]⟩ :=
  C26_multisig_round_trip sampleOps (by decide) 1 [sampleKey, List.replicate 33 8]
    (by decide) (by decide) (by decide) (by decide) txnouttype.TX_NONSTANDARD

/-! ## The solutions a matched template captures -/

/-- The branch-chain opcodes are pairwise distinct. -/
theorem BranchOpcodes.WF.pairwise {ops : BranchOpcodes} (h : ops.WF) :
    (ops.OP_CREATE_BRANCH ≠ ops.OP_TRANS_BRANCH ∧
      ops.OP_CREATE_BRANCH ≠ ops.OP_MINE_BRANCH_MORTGAGE ∧
      ops.OP_CREATE_BRANCH ≠ ops.OP_MINE_BRANCH_COIN ∧
      ops.OP_CREATE_BRANCH ≠ ops.OP_REDEEM_MORTGAGE ∧
      ops.OP_CREATE_BRANCH ≠ ops.OP_HASH256_DATA ∧
      ops.OP_CREATE_BRANCH ≠ ops.OP_BLOCK_HIGH) ∧
    (ops.OP_TRANS_BRANCH ≠ ops.OP_MINE_BRANCH_MORTGAGE ∧
      ops.OP_TRANS_BRANCH ≠ ops.OP_MINE_BRANCH_COIN ∧
      ops.OP_TRANS_BRANCH ≠ ops.OP_REDEEM_MORTGAGE ∧
      ops.OP_TRANS_BRANCH ≠ ops.OP_HASH256_DATA ∧
      ops.OP_TRANS_BRANCH ≠ ops.OP_BLOCK_HIGH) ∧
    (ops.OP_MINE_BRANCH_MORTGAGE ≠ ops.OP_MINE_BRANCH_COIN ∧
      ops.OP_MINE_BRANCH_MORTGAGE ≠ ops.OP_REDEEM_MORTGAGE ∧
      ops.OP_MINE_BRANCH_MORTGAGE ≠ ops.OP_HASH256_DATA ∧
      ops.OP_MINE_BRANCH_MORTGAGE ≠ ops.OP_BLOCK_HIGH) ∧
    (ops.OP_MINE_BRANCH_COIN ≠ ops.OP_REDEEM_MORTGAGE ∧
      ops.OP_MINE_BRANCH_COIN ≠ ops.OP_HASH256_DATA ∧
      ops.OP_MINE_BRANCH_COIN ≠ ops.OP_BLOCK_HIGH) ∧
    (ops.OP_REDEEM_MORTGAGE ≠ ops.OP_HASH256_DATA ∧
      ops.OP_REDEEM_MORTGAGE ≠ ops.OP_BLOCK_HIGH) ∧
    ops.OP_HASH256_DATA ≠ ops.OP_BLOCK_HIGH := by
  have hn := h.1
  simp only [BranchOpcodes.all, List.nodup_cons, List.mem_cons, List.mem_singleton,
    List.not_mem_nil, or_false, not_or, List.nodup_nil, and_true] at hn
  obtain ⟨⟨a1, a2, a3, a4, a5, a6⟩, ⟨b1, b2, b3, b4, b5⟩, ⟨c1, c2, c3, c4⟩, ⟨d1, d2, d3⟩,
    ⟨e1, e2⟩, f1, _⟩ := hn
  exact ⟨⟨a1, a2, a3, a4, a5, a6⟩, ⟨b1, b2, b3, b4, b5⟩, ⟨c1, c2, c3, c4⟩, ⟨d1, d2, d3⟩,
    ⟨e1, e2⟩, f1⟩

/-- The standard literal opcodes of the templates are literals. -/
theorem IsLiteral_standard (ops : BranchOpcodes) (hops : ops.WF) (x : Nat)
    (hx : x ∈ [OP_RETURN, OP_2DROP, OP_DUP, OP_EQUAL, OP_EQUALVERIFY, OP_HASH160, OP_CHECKSIG,
      OP_CHECKMULTISIG]) : IsLiteral ops x := by
  have hmem : x ∈ templateOpcodes := by
    simp only [templateOpcodes, List.mem_cons, List.mem_singleton, List.not_mem_nil,
      or_false] at hx ⊢
    rcases hx with h | h | h | h | h | h | h | h <;> simp [h]
  have h1 : x ≠ ops.OP_HASH256_DATA :=
    hops.not_template _ _ (by simp [BranchOpcodes.all]) hmem
  have h2 : x ≠ ops.OP_BLOCK_HIGH :=
    hops.not_template _ _ (by simp [BranchOpcodes.all]) hmem
  simp only [List.mem_cons, List.mem_singleton, List.not_mem_nil, or_false] at hx
  refine ⟨?_, ?_, ?_, ?_, ?_, h1, h2⟩ <;>
    (rcases hx with h | h | h | h | h | h | h | h <;> rw [h] <;> decide)

/-- The marker opcodes of the branch-chain templates are literals. -/
theorem IsLiteral_branch (ops : BranchOpcodes) (hops : ops.WF) (x : Nat)
    (hx : x ∈ [ops.OP_CREATE_BRANCH, ops.OP_TRANS_BRANCH, ops.OP_MINE_BRANCH_MORTGAGE,
      ops.OP_MINE_BRANCH_COIN, ops.OP_REDEEM_MORTGAGE]) : IsLiteral ops x := by
  have hall : x ∈ ops.all := by
    simp only [BranchOpcodes.all, List.mem_cons, List.mem_singleton, List.not_mem_nil,
      or_false] at hx ⊢
    rcases hx with h | h | h | h | h <;> simp [h]
  obtain ⟨m0, m1, m2, m3, m4⟩ := hops.opcode x hall
  obtain ⟨⟨_, _, _, _, a5, a6⟩, ⟨_, _, _, b4, b5⟩, ⟨_, _, c3, c4⟩, ⟨_, d2, d3⟩, ⟨e1, e2⟩, _⟩ :=
    hops.pairwise
  simp only [List.mem_cons, List.mem_singleton, List.not_mem_nil, or_false] at hx
  refine ⟨m0, m1, m2, m3, m4, ?_, ?_⟩ <;>
    (rcases hx with h | h | h | h | h <;> rw [h] <;> assumption)

/-- One round on a literal template token: the script token has that opcode
and no data, nothing is captured, and the rest matches. -/
theorem matchLoop_lit (ops : BranchOpcodes) (x : Nat) (hx : IsLiteral ops x)
    (tpl : MCScript) (fuel : Nat) (pc1 : MCScript) (sols res : List valtype)
    (h : matchLoop ops fuel pc1 (x :: tpl) sols = .found res) :
    ∃ f, (GetOp pc1).ok = true ∧ (GetOp pc1).opcode = x ∧ (GetOp pc1).vch = [] ∧
      matchLoop ops f (GetOp pc1).pc tpl sols = .found res := by
  obtain ⟨h0, h1, h2, h3, h4, h5, h6⟩ := hx
  obtain ⟨f, s', _, hok, ht, hr⟩ := matchLoop_step ops x h0 h1 tpl fuel pc1 sols res h
  obtain ⟨e1, e2, rfl⟩ := tokenCheck_literal ops x h2 h3 h4 h5 h6 _ _ _ _ ht
  exact ⟨f, hok, e1, e2, hr⟩

/-- The public-key wildcard passes only a token with 33 to 65 bytes of data,
which it captures. -/
theorem tokenCheck_pubkey (ops : BranchOpcodes) (r1 : OpRead) (tpl : MCScript)
    (sols sols' : List valtype)
    (h : tokenCheck ops r1 ⟨true, OP_PUBKEY, [], tpl⟩ sols = .next sols') :
    sols' = sols ++ [r1.vch] ∧ 33 ≤ r1.vch.length ∧ r1.vch.length ≤ 65 := by
  simp only [tokenCheck, if_true] at h
  split at h
  · simp at h
  · rename_i hc
    simp only [TokenOutcome.next.injEq] at h
    exact ⟨h.symm, by omega, by omega⟩

/-- The key-hash wildcard passes only a token with 20 bytes of data, which it
captures. -/
theorem tokenCheck_pubkeyhash (ops : BranchOpcodes) (r1 : OpRead) (tpl : MCScript)
    (sols sols' : List valtype)
    (h : tokenCheck ops r1 ⟨true, OP_PUBKEYHASH, [], tpl⟩ sols = .next sols') :
    sols' = sols ++ [r1.vch] ∧ r1.vch.length = 20 := by
  simp only [tokenCheck, show ¬ OP_PUBKEYHASH = OP_PUBKEY by decide, if_false, if_true] at h
  split at h
  · simp at h
  · rename_i hc
    simp only [ne_eq, not_not] at hc
    simp only [TokenOutcome.next.injEq] at h
    exact ⟨h.symm, hc⟩

/-- The small-integer wildcard passes only the opcodes `OP_0` and
`OP_1`..`OP_16` and captures one byte. -/
theorem tokenCheck_smallint (ops : BranchOpcodes) (r1 : OpRead) (tpl : MCScript)
    (sols sols' : List valtype)
    (h : tokenCheck ops r1 ⟨true, OP_SMALLINTEGER, [], tpl⟩ sols = .next sols') :
    sols' = sols ++ [[DecodeOP_N r1.opcode]] ∧
      (r1.opcode = OP_0 ∨ (OP_1 ≤ r1.opcode ∧ r1.opcode ≤ OP_16)) := by
  simp only [tokenCheck, show ¬ OP_SMALLINTEGER = OP_PUBKEY by decide,
    show ¬ OP_SMALLINTEGER = OP_PUBKEYHASH by decide, if_false, if_true] at h
  split at h
  · rename_i hc
    simp only [TokenOutcome.next.injEq] at h
    exact ⟨h.symm, hc⟩
  · simp at h

/-- At the end of the template the comparison succeeds only at the end of the
script, with the solutions captured so far. -/
theorem matchLoop_end (ops : BranchOpcodes) (fuel : Nat) (pc1 : MCScript)
    (sols res : List valtype) (h : matchLoop ops fuel pc1 [] sols = .found res) :
    res = sols ∧ pc1 = [] := by
  cases fuel with
  | zero => simp [matchLoop] at h
  | succ f =>
    simp only [matchLoop, and_true] at h
    split at h
    · rename_i hp
      simp only [MatchOutcome.found.injEq] at h
      exact ⟨h.symm, hp⟩
    · cases hok : (GetOp pc1).ok with
      | false => simp [hok] at h
      | true => simp [hok, GetOp] at h

/-- One round on the key-hash wildcard: a token with 20 bytes of data is
captured and the rest matches. -/
theorem matchLoop_pkh (ops : BranchOpcodes) (tpl : MCScript) (fuel : Nat) (pc1 : MCScript)
    (sols res : List valtype)
    (h : matchLoop ops fuel pc1 (OP_PUBKEYHASH :: tpl) sols = .found res) :
    ∃ f v, v.length = 20 ∧ (GetOp pc1).vch = v ∧
      matchLoop ops f (GetOp pc1).pc tpl (sols ++ [v]) = .found res := by
  obtain ⟨f, s', _, _, ht, hr⟩ :=
    matchLoop_step ops OP_PUBKEYHASH (by decide) (by decide) tpl fuel pc1 sols res h
  obtain ⟨rfl, hl⟩ := tokenCheck_pubkeyhash ops _ _ _ _ ht
  exact ⟨f, _, hl, rfl, hr⟩

/-- One round on the hash wildcard: a token with 32 bytes of data, nothing
captured. -/
theorem matchLoop_hash256 (ops : BranchOpcodes) (hops : ops.WF) (tpl : MCScript) (fuel : Nat)
    (pc1 : MCScript) (sols res : List valtype)
    (h : matchLoop ops fuel pc1 (ops.OP_HASH256_DATA :: tpl) sols = .found res) :
    ∃ f, (GetOp pc1).vch.length = 32 ∧
      matchLoop ops f (GetOp pc1).pc tpl sols = .found res := by
  obtain ⟨a0, a1, _, _, _⟩ := hops.opcode ops.OP_HASH256_DATA (by simp [BranchOpcodes.all])
  obtain ⟨f, s', _, _, ht, hr⟩ :=
    matchLoop_step ops ops.OP_HASH256_DATA a0 a1 tpl fuel pc1 sols res h
  obtain ⟨hl, rfl⟩ := tokenCheck_hash256 ops hops _ _ _ _ ht
  exact ⟨f, hl, hr⟩

/-- One round on the height wildcard: a token with at most 5 bytes of data,
nothing captured. -/
theorem matchLoop_block_high (ops : BranchOpcodes) (hops : ops.WF) (tpl : MCScript)
    (fuel : Nat) (pc1 : MCScript) (sols res : List valtype)
    (h : matchLoop ops fuel pc1 (ops.OP_BLOCK_HIGH :: tpl) sols = .found res) :
    ∃ f, (GetOp pc1).vch.length ≤ 5 ∧
      matchLoop ops f (GetOp pc1).pc tpl sols = .found res := by
  obtain ⟨a0, a1, _, _, _⟩ := hops.opcode ops.OP_BLOCK_HIGH (by simp [BranchOpcodes.all])
  obtain ⟨f, s', _, _, ht, hr⟩ :=
    matchLoop_step ops ops.OP_BLOCK_HIGH a0 a1 tpl fuel pc1 sols res h
  obtain ⟨hl, rfl⟩ := tokenCheck_block_high ops hops _ _ _ _ ht
  exact ⟨f, hl, hr⟩

/-- The tail `OP_DUP OP_HASH160 <key hash> OP_EQUALVERIFY OP_CHECKSIG` of a
template captures one solution of 20 bytes. -/
theorem matchLoop_p2pkh_tail (ops : BranchOpcodes) (hops : ops.WF) (fuel : Nat)
    (pc1 : MCScript) (sols res : List valtype)
    (h : matchLoop ops fuel pc1
      [OP_DUP, OP_HASH160, OP_PUBKEYHASH, OP_EQUALVERIFY, OP_CHECKSIG] sols = .found res) :
    ∃ v, v.length = 20 ∧ res = sols ++ [v] := by
  obtain ⟨f1, _, _, _, h1⟩ :=
    matchLoop_lit ops OP_DUP (IsLiteral_standard ops hops _ (by simp)) _ _ _ _ _ h
  obtain ⟨f2, _, _, _, h2⟩ :=
    matchLoop_lit ops OP_HASH160 (IsLiteral_standard ops hops _ (by simp)) _ _ _ _ _ h1
  obtain ⟨f3, v, hv, _, h3⟩ := matchLoop_pkh ops _ _ _ _ _ h2
  obtain ⟨f4, _, _, _, h4⟩ :=
    matchLoop_lit ops OP_EQUALVERIFY (IsLiteral_standard ops hops _ (by simp)) _ _ _ _ _ h3
  obtain ⟨f5, _, _, _, h5⟩ :=
    matchLoop_lit ops OP_CHECKSIG (IsLiteral_standard ops hops _ (by simp)) _ _ _ _ _ h4
  exact ⟨v, hv, (matchLoop_end ops _ _ _ _ h5).1⟩

/-- The pay-to-pubkey template captures one solution of 33 to 65 bytes. -/
theorem matchLoop_shape_pubkey (ops : BranchOpcodes) (hops : ops.WF) (fuel : Nat)
    (pc1 : MCScript) (res : List valtype)
    (h : matchLoop ops fuel pc1 [OP_PUBKEY, OP_CHECKSIG] [] = .found res) :
    ∃ v, res = [v] ∧ 33 ≤ v.length ∧ v.length ≤ 65 := by
  obtain ⟨f, s', _, _, ht, hr⟩ :=
    matchLoop_step ops OP_PUBKEY (by decide) (by decide) _ fuel pc1 [] res h
  obtain ⟨rfl, hl1, hl2⟩ := tokenCheck_pubkey ops _ _ _ _ ht
  obtain ⟨f5, _, _, _, h5⟩ :=
    matchLoop_lit ops OP_CHECKSIG (IsLiteral_standard ops hops _ (by simp)) _ _ _ _ _ hr
  exact ⟨_, (matchLoop_end ops _ _ _ _ h5).1, hl1, hl2⟩

/-- The key loop only appends to the solutions. -/
theorem pubkeysLoop_prefix (fuel : Nat) (r1 : OpRead) (sols : List valtype) :
    ∃ ks, (pubkeysLoop fuel r1 sols).2 = sols ++ ks := by
  induction fuel generalizing r1 sols with
  | zero => exact ⟨[], by simp [pubkeysLoop]⟩
  | succ f ih =>
    simp only [pubkeysLoop]
    split
    · split
      · exact ⟨[r1.vch], rfl⟩
      · obtain ⟨ks, hks⟩ := ih (GetOp r1.pc) (sols ++ [r1.vch])
        exact ⟨r1.vch :: ks, by rw [hks]; simp⟩
    · exact ⟨[], by simp⟩

/-- The multisig template captures a one-byte solution, then the keys, then a
one-byte solution. -/
theorem matchLoop_shape_multisig (ops : BranchOpcodes) (hops : ops.WF) (fuel : Nat)
    (pc1 : MCScript) (res : List valtype)
    (h : matchLoop ops fuel pc1
      [OP_SMALLINTEGER, OP_PUBKEYS, OP_SMALLINTEGER, OP_CHECKMULTISIG] [] = .found res) :
    ∃ a ks b, res = [a] :: ks ++ [[b]] := by
  obtain ⟨f, s', _, _, ht, hr⟩ :=
    matchLoop_step ops OP_SMALLINTEGER (by decide) (by decide) _ fuel pc1 [] res h
  obtain ⟨rfl, _⟩ := tokenCheck_smallint ops _ _ _ _ ht
  -- the round of the key list and of the second small integer
  cases f with
  | zero => simp [matchLoop] at hr
  | succ f2 =>
    simp only [matchLoop, GetOp_opcode OP_PUBKEYS (by decide),
      GetOp_opcode OP_SMALLINTEGER (by decide), if_true, Bool.not_true, Bool.false_eq_true,
      if_false, reduceCtorEq, and_false] at hr
    cases hok : (GetOp (GetOp pc1).pc).ok with
    | false => simp [hok] at hr
    | true =>
      simp only [hok, Bool.not_true, Bool.false_eq_true, if_false] at hr
      obtain ⟨ks, hks⟩ := pubkeysLoop_prefix ((GetOp (GetOp pc1).pc).pc.length + 1)
        (GetOp (GetOp pc1).pc) ([] ++ [[DecodeOP_N (GetOp pc1).opcode]])
      generalize hp : pubkeysLoop ((GetOp (GetOp pc1).pc).pc.length + 1)
        (GetOp (GetOp pc1).pc) ([] ++ [[DecodeOP_N (GetOp pc1).opcode]]) = p at hr hks
      cases htc : tokenCheck ops p.1 ⟨true, OP_SMALLINTEGER, [], [OP_CHECKMULTISIG]⟩ p.2 with
      | brk => simp [htc] at hr
      | abort x => simp [htc] at hr
      | next s2 =>
        simp only [htc] at hr
        obtain ⟨rfl, _⟩ := tokenCheck_smallint ops _ _ _ _ htc
        obtain ⟨f5, _, _, _, h5⟩ :=
          matchLoop_lit ops OP_CHECKMULTISIG (IsLiteral_standard ops hops _ (by simp))
            _ _ _ _ _ hr
        refine ⟨DecodeOP_N (GetOp pc1).opcode, ks, DecodeOP_N p.1.opcode, ?_⟩
        rw [(matchLoop_end ops _ _ _ _ h5).1, hks]
        simp

/-- A successful `Solver` with the tag of a template: the script matches a
template of the table with that tag, and the solutions are the captured
ones. -/
theorem Solver_template_found (ops : BranchOpcodes) (s : MCScript) (t : txnouttype)
    (hret : (Solver ops s t).ret = true)
    (h1 : (Solver ops s t).typeRet ≠ txnouttype.TX_SCRIPTHASH)
    (h2 : (Solver ops s t).typeRet ≠ txnouttype.TX_WITNESS_V0_KEYHASH)
    (h3 : (Solver ops s t).typeRet ≠ txnouttype.TX_WITNESS_V0_SCRIPTHASH)
    (h4 : (Solver ops s t).typeRet ≠ txnouttype.TX_NULL_DATA) :
    ∃ tpl, ((Solver ops s t).typeRet, tpl) ∈ mTemplates ops ∧
      matchLoop ops (s.length + 1) s tpl [] = .found (Solver ops s t).vSolutionsRet := by
  have hscan := Solver_ret_true_scan ops s t hret h1 h2 h3 h4
  rw [hscan] at hret ⊢
  obtain ⟨ty, tpl, sols, hmem, hfound, hty, hsol⟩ :=
    scanTemplates_ret_true ops (mTemplates ops) s t hret
  rw [hty, hsol]
  exact ⟨tpl, hmem, hfound⟩

/-- The template of a tag in the table. -/
theorem mTemplates_mem (ops : BranchOpcodes) (ty : txnouttype) (tpl : MCScript)
    (h : (ty, tpl) ∈ mTemplates ops) :
    (ty = .TX_PUBKEY ∧ tpl = [OP_PUBKEY, OP_CHECKSIG]) ∨
    (ty = .TX_PUBKEYHASH ∧
      tpl = [OP_DUP, OP_HASH160, OP_PUBKEYHASH, OP_EQUALVERIFY, OP_CHECKSIG]) ∨
    (ty = .TX_MULTISIG ∧
      tpl = [OP_SMALLINTEGER, OP_PUBKEYS, OP_SMALLINTEGER, OP_CHECKMULTISIG]) ∨
    (ty = .TX_CREATE_BRANCH ∧
      tpl = [ops.OP_CREATE_BRANCH, OP_DUP, OP_HASH160, OP_PUBKEYHASH, OP_EQUALVERIFY,
        OP_CHECKSIG]) ∨
    (ty = .TX_TRANS_BRANCH ∧ tpl = [OP_RETURN, ops.OP_TRANS_BRANCH]) ∨
    (ty = .TX_SEND_BRANCH ∧ tpl = [ops.OP_TRANS_BRANCH, ops.OP_HASH256_DATA]) ∨
    (ty = .TX_MINE_MORTGAGE ∧
      tpl = [ops.OP_MINE_BRANCH_MORTGAGE, ops.OP_HASH256_DATA, ops.OP_BLOCK_HIGH, OP_2DROP,
        OP_DUP, OP_HASH160, OP_PUBKEYHASH, OP_EQUALVERIFY, OP_CHECKSIG]) ∨
    (ty = .TX_MORTGAGE_COIN ∧
      tpl = [ops.OP_MINE_BRANCH_COIN, ops.OP_HASH256_DATA, ops.OP_BLOCK_HIGH, OP_2DROP,
        OP_DUP, OP_HASH160, OP_PUBKEYHASH, OP_EQUALVERIFY, OP_CHECKSIG]) ∨
    (ty = .TX_REDEEM_MORTGAGE ∧
      tpl = [OP_RETURN, ops.OP_REDEEM_MORTGAGE, ops.OP_HASH256_DATA]) := by
  simpa [mTemplates] using h

/-- The branch-create template captures one solution of 20 bytes. -/
theorem matchLoop_shape_create (ops : BranchOpcodes) (hops : ops.WF) (fuel : Nat)
    (pc1 : MCScript) (res : List valtype)
    (h : matchLoop ops fuel pc1
      [ops.OP_CREATE_BRANCH, OP_DUP, OP_HASH160, OP_PUBKEYHASH, OP_EQUALVERIFY, OP_CHECKSIG] []
      = .found res) :
    ∃ v, res = [v] ∧ v.length = 20 := by
  obtain ⟨f1, _, _, _, h1⟩ :=
    matchLoop_lit ops _ (IsLiteral_branch ops hops _ (by simp)) _ _ _ _ _ h
  obtain ⟨v, hv, hres⟩ := matchLoop_p2pkh_tail ops hops _ _ _ _ h1
  exact ⟨v, by simpa using hres, hv⟩

/-- The two mortgage templates capture one solution of 20 bytes. -/
theorem matchLoop_shape_mortgage (ops : BranchOpcodes) (hops : ops.WF) (marker : Nat)
    (hmk : marker = ops.OP_MINE_BRANCH_MORTGAGE ∨ marker = ops.OP_MINE_BRANCH_COIN)
    (fuel : Nat) (pc1 : MCScript) (res : List valtype)
    (h : matchLoop ops fuel pc1
      [marker, ops.OP_HASH256_DATA, ops.OP_BLOCK_HIGH, OP_2DROP, OP_DUP, OP_HASH160,
        OP_PUBKEYHASH, OP_EQUALVERIFY, OP_CHECKSIG] [] = .found res) :
    ∃ v, res = [v] ∧ v.length = 20 := by
  have hlit : IsLiteral ops marker :=
    IsLiteral_branch ops hops _ (by rcases hmk with rfl | rfl <;> simp)
  obtain ⟨f1, _, _, _, h1⟩ := matchLoop_lit ops _ hlit _ _ _ _ _ h
  obtain ⟨f2, _, h2⟩ := matchLoop_hash256 ops hops _ _ _ _ _ h1
  obtain ⟨f3, _, h3⟩ := matchLoop_block_high ops hops _ _ _ _ _ h2
  obtain ⟨f4, _, _, _, h4⟩ :=
    matchLoop_lit ops OP_2DROP (IsLiteral_standard ops hops _ (by simp)) _ _ _ _ _ h3
  obtain ⟨v, hv, hres⟩ := matchLoop_p2pkh_tail ops hops _ _ _ _ h4
  exact ⟨v, by simpa using hres, hv⟩

/-- The branch-transfer, branch-send and redeem-mortgage templates capture
nothing. -/
theorem matchLoop_shape_nothing (ops : BranchOpcodes) (hops : ops.WF) (fuel : Nat)
    (pc1 : MCScript) (res : List valtype) :
    (matchLoop ops fuel pc1 [OP_RETURN, ops.OP_TRANS_BRANCH] [] = .found res → res = []) ∧
    (matchLoop ops fuel pc1 [ops.OP_TRANS_BRANCH, ops.OP_HASH256_DATA] [] = .found res →
      res = []) ∧
    (matchLoop ops fuel pc1 [OP_RETURN, ops.OP_REDEEM_MORTGAGE, ops.OP_HASH256_DATA] []
      = .found res → res = []) := by
  refine ⟨?_, ?_, ?_⟩
  · intro h
    obtain ⟨f1, _, _, _, h1⟩ :=
      matchLoop_lit ops OP_RETURN (IsLiteral_standard ops hops _ (by simp)) _ _ _ _ _ h
    obtain ⟨f2, _, _, _, h2⟩ :=
      matchLoop_lit ops _ (IsLiteral_branch ops hops _ (by simp)) _ _ _ _ _ h1
    exact (matchLoop_end ops _ _ _ _ h2).1
  · intro h
    obtain ⟨f1, _, _, _, h1⟩ :=
      matchLoop_lit ops _ (IsLiteral_branch ops hops _ (by simp)) _ _ _ _ _ h
    obtain ⟨f2, _, h2⟩ := matchLoop_hash256 ops hops _ _ _ _ _ h1
    exact (matchLoop_end ops _ _ _ _ h2).1
  · intro h
    obtain ⟨f1, _, _, _, h1⟩ :=
      matchLoop_lit ops OP_RETURN (IsLiteral_standard ops hops _ (by simp)) _ _ _ _ _ h
    obtain ⟨f2, _, _, _, h2⟩ :=
      matchLoop_lit ops _ (IsLiteral_branch ops hops _ (by simp)) _ _ _ _ _ h1
    obtain ⟨f3, _, h3⟩ := matchLoop_hash256 ops hops _ _ _ _ _ h2
    exact (matchLoop_end ops _ _ _ _ h3).1

/-- The shape of the solutions of every successful call of `Solver`, by type
tag, and of every match of the multisig template. -/
theorem Solver_shapes (ops : BranchOpcodes) (hops : ops.WF) (s : MCScript)
    (t : txnouttype) (hret : (Solver ops s t).ret = true) :
    (((Solver ops s t).typeRet = txnouttype.TX_PUBKEYHASH ∨
        (Solver ops s t).typeRet = txnouttype.TX_CREATE_BRANCH ∨
        (Solver ops s t).typeRet = txnouttype.TX_MINE_MORTGAGE ∨
        (Solver ops s t).typeRet = txnouttype.TX_MORTGAGE_COIN) →
      ∃ v, (Solver ops s t).vSolutionsRet = [v] ∧ v.length = 20) ∧
    ((Solver ops s t).typeRet = txnouttype.TX_PUBKEY →
      ∃ v, (Solver ops s t).vSolutionsRet = [v] ∧ 33 ≤ v.length ∧ v.length ≤ 65) ∧
    ((Solver ops s t).typeRet = txnouttype.TX_MULTISIG →
      2 ≤ (Solver ops s t).vSolutionsRet.length ∧
      ∃ a b, (Solver ops s t).vSolutionsRet.head? = some [a] ∧
        (Solver ops s t).vSolutionsRet.getLast? = some [b]) ∧
    (((Solver ops s t).typeRet = txnouttype.TX_TRANS_BRANCH ∨
        (Solver ops s t).typeRet = txnouttype.TX_SEND_BRANCH ∨
        (Solver ops s t).typeRet = txnouttype.TX_REDEEM_MORTGAGE) →
      (Solver ops s t).vSolutionsRet = []) ∧
    (∀ res, matchLoop ops (s.length + 1) s
        [OP_SMALLINTEGER, OP_PUBKEYS, OP_SMALLINTEGER, OP_CHECKMULTISIG] [] = .found res →
      2 ≤ res.length ∧ ∃ a b, res.head? = some [a] ∧ res.getLast? = some [b]) := by
  have hmulti : ∀ res : List valtype, (∃ a ks b, res = [a] :: ks ++ [[b]]) →
      2 ≤ res.length ∧ ∃ a b, res.head? = some [a] ∧ res.getLast? = some [b] := by
    rintro res ⟨a, ks, b, rfl⟩
    refine ⟨by simp, a, b, rfl, ?_⟩
    rw [List.getLast?_append]
    rfl
  have hfound : ∀ ty, (Solver ops s t).typeRet = ty →
      ty ≠ txnouttype.TX_SCRIPTHASH → ty ≠ txnouttype.TX_WITNESS_V0_KEYHASH →
      ty ≠ txnouttype.TX_WITNESS_V0_SCRIPTHASH → ty ≠ txnouttype.TX_NULL_DATA →
      ∃ tpl, (ty, tpl) ∈ mTemplates ops ∧
        matchLoop ops (s.length + 1) s tpl [] = .found (Solver ops s t).vSolutionsRet := by
    intro ty hty n1 n2 n3 n4
    have := Solver_template_found ops s t hret (hty ▸ n1) (hty ▸ n2) (hty ▸ n3) (hty ▸ n4)
    rw [hty] at this
    exact this
  refine ⟨?_, ?_, ?_, ?_, ?_⟩
  · intro hty
    rcases hty with h | h | h | h
    · obtain ⟨tpl, hmem, hm⟩ := hfound _ h (by decide) (by decide) (by decide) (by decide)
      rcases mTemplates_mem ops _ _ hmem with ⟨e, _⟩ | ⟨_, rfl⟩ | ⟨e, _⟩ | ⟨e, _⟩ | ⟨e, _⟩ |
        ⟨e, _⟩ | ⟨e, _⟩ | ⟨e, _⟩ | ⟨e, _⟩ <;> try exact absurd e (by decide)
      obtain ⟨v, hv, hres⟩ := matchLoop_p2pkh_tail ops hops _ _ _ _ hm
      exact ⟨v, by simpa using hres, hv⟩
    · obtain ⟨tpl, hmem, hm⟩ := hfound _ h (by decide) (by decide) (by decide) (by decide)
      rcases mTemplates_mem ops _ _ hmem with ⟨e, _⟩ | ⟨e, _⟩ | ⟨e, _⟩ | ⟨_, rfl⟩ | ⟨e, _⟩ |
        ⟨e, _⟩ | ⟨e, _⟩ | ⟨e, _⟩ | ⟨e, _⟩ <;> try exact absurd e (by decide)
      exact matchLoop_shape_create ops hops _ _ _ hm
    · obtain ⟨tpl, hmem, hm⟩ := hfound _ h (by decide) (by decide) (by decide) (by decide)
      rcases mTemplates_mem ops _ _ hmem with ⟨e, _⟩ | ⟨e, _⟩ | ⟨e, _⟩ | ⟨e, _⟩ | ⟨e, _⟩ |
        ⟨e, _⟩ | ⟨_, rfl⟩ | ⟨e, _⟩ | ⟨e, _⟩ <;> try exact absurd e (by decide)
      exact matchLoop_shape_mortgage ops hops _ (Or.inl rfl) _ _ _ hm
    · obtain ⟨tpl, hmem, hm⟩ := hfound _ h (by decide) (by decide) (by decide) (by decide)
      rcases mTemplates_mem ops _ _ hmem with ⟨e, _⟩ | ⟨e, _⟩ | ⟨e, _⟩ | ⟨e, _⟩ | ⟨e, _⟩ |
        ⟨e, _⟩ | ⟨e, _⟩ | ⟨_, rfl⟩ | ⟨e, _⟩ <;> try exact absurd e (by decide)
      exact matchLoop_shape_mortgage ops hops _ (Or.inr rfl) _ _ _ hm
  · intro h
    obtain ⟨tpl, hmem, hm⟩ := hfound _ h (by decide) (by decide) (by decide) (by decide)
    rcases mTemplates_mem ops _ _ hmem with ⟨_, rfl⟩ | ⟨e, _⟩ | ⟨e, _⟩ | ⟨e, _⟩ | ⟨e, _⟩ |
      ⟨e, _⟩ | ⟨e, _⟩ | ⟨e, _⟩ | ⟨e, _⟩ <;> try exact absurd e (by decide)
    exact matchLoop_shape_pubkey ops hops _ _ _ hm
  · intro h
    obtain ⟨tpl, hmem, hm⟩ := hfound _ h (by decide) (by decide) (by decide) (by decide)
    rcases mTemplates_mem ops _ _ hmem with ⟨e, _⟩ | ⟨e, _⟩ | ⟨_, rfl⟩ | ⟨e, _⟩ | ⟨e, _⟩ |
      ⟨e, _⟩ | ⟨e, _⟩ | ⟨e, _⟩ | ⟨e, _⟩ <;> try exact absurd e (by decide)
    exact hmulti _ (matchLoop_shape_multisig ops hops _ _ _ hm)
  · intro hty
    rcases hty with h | h | h
    · obtain ⟨tpl, hmem, hm⟩ := hfound _ h (by decide) (by decide) (by decide) (by decide)
      rcases mTemplates_mem ops _ _ hmem with ⟨e, _⟩ | ⟨e, _⟩ | ⟨e, _⟩ | ⟨e, _⟩ | ⟨_, rfl⟩ |
        ⟨e, _⟩ | ⟨e, _⟩ | ⟨e, _⟩ | ⟨e, _⟩ <;> try exact absurd e (by decide)
      exact (matchLoop_shape_nothing ops hops _ _ _).1 hm
    · obtain ⟨tpl, hmem, hm⟩ := hfound _ h (by decide) (by decide) (by decide) (by decide)
      rcases mTemplates_mem ops _ _ hmem with ⟨e, _⟩ | ⟨e, _⟩ | ⟨e, _⟩ | ⟨e, _⟩ | ⟨e, _⟩ |
        ⟨_, rfl⟩ | ⟨e, _⟩ | ⟨e, _⟩ | ⟨e, _⟩ <;> try exact absurd e (by decide)
      exact (matchLoop_shape_nothing ops hops _ _ _).2.1 hm
    · obtain ⟨tpl, hmem, hm⟩ := hfound _ h (by decide) (by decide) (by decide) (by decide)
      rcases mTemplates_mem ops _ _ hmem with ⟨e, _⟩ | ⟨e, _⟩ | ⟨e, _⟩ | ⟨e, _⟩ | ⟨e, _⟩ |
        ⟨e, _⟩ | ⟨e, _⟩ | ⟨e, _⟩ | ⟨_, rfl⟩ <;> try exact absurd e (by decide)
      exact (matchLoop_shape_nothing ops hops _ _ _).2.2 hm
  · intro res hm
    exact hmulti _ (matchLoop_shape_multisig ops hops _ _ _ hm)

/-! ## Destinations of a script -/

/-- A successful call of `Solver` with tag script-hash went through the
pay-to-script-hash fast path. -/
theorem Solver_scripthash_shape (ops : BranchOpcodes) (s : MCScript) (t : txnouttype)
    (hret : (Solver ops s t).ret = true)
    (hty : (Solver ops s t).typeRet = txnouttype.TX_SCRIPTHASH) :
    IsPayToScriptHash s = true ∧ (Solver ops s t).vSolutionsRet = [(s.drop 2).take 20] := by
  by_cases hp : IsPayToScriptHash s = true
  · refine ⟨hp, ?_⟩
    unfold Solver
    rw [if_pos hp]
  · exfalso
    have h := And.intro hret hty
    unfold Solver at h
    rw [if_neg hp] at h
    cases hw : IsWitnessProgram s with
    | some p =>
      obtain ⟨v, prog⟩ := p
      simp only [hw] at h
      split at h
      · exact absurd h.2 (by simp)
      · split at h
        · exact absurd h.2 (by simp)
        · exact absurd h.1 (by simp)
    | none =>
      simp only [hw] at h
      split at h
      · exact absurd h.2 (by simp)
      · obtain ⟨ty, tpl, sols, hmem, _, hty2, _⟩ :=
          scanTemplates_ret_true ops (mTemplates ops) s t h.1
        rw [h.2] at hty2
        subst hty2
        rcases mTemplates_mem ops _ _ hmem with ⟨e, _⟩ | ⟨e, _⟩ | ⟨e, _⟩ | ⟨e, _⟩ | ⟨e, _⟩ |
          ⟨e, _⟩ | ⟨e, _⟩ | ⟨e, _⟩ | ⟨e, _⟩ <;> exact absurd e (by decide)

/-- A script that passes `IsPayToScriptHash` has 20 bytes after its first
two. -/
theorem p2sh_take_length (s : MCScript) (hp : IsPayToScriptHash s = true) :
    ((s.drop 2).take 20).length = 20 := by
  have hl : s.length = 23 := by
    unfold IsPayToScriptHash at hp
    simp only [Bool.and_eq_true, beq_iff_eq] at hp
    exact hp.1.1.1
  simp [hl]

/-- C21 (`ExtractDestination` case table): `ExtractDestination` succeeds
exactly when `Solver` succeeds with type pay-to-pubkey and a valid captured
key, or with type pay-to-pubkey-hash, branch-create, mine-mortgage,
mortgage-coin or pay-to-script-hash. The result is the identity of the key
for pay-to-pubkey, the key-identity of the one captured 20-byte value for
pay-to-pubkey-hash and the three branch types, and the script-identity of the
one captured 20-byte value for pay-to-script-hash. When `Solver` fails, and
for null-data, multisig, both witness types, branch-transfer, branch-send,
redeem-mortgage and nonstandard, it fails and leaves the destination as it
was. -/
theorem C21_extract_destination_table (ops : BranchOpcodes) (hops : ops.WF) (pk : PubKeyOps)
    (s : MCScript) (w : txnouttype) (a0 : MCTxDestination) :
    ((ExtractDestination ops pk s w a0).1 = true ↔
      (Solver ops s w).ret = true ∧
      (((Solver ops s w).typeRet = txnouttype.TX_PUBKEY ∧
          ∃ key, (Solver ops s w).vSolutionsRet = [key] ∧ pk.IsValid key = true) ∨
        (Solver ops s w).typeRet = txnouttype.TX_PUBKEYHASH ∨
        (Solver ops s w).typeRet = txnouttype.TX_CREATE_BRANCH ∨
        (Solver ops s w).typeRet = txnouttype.TX_MINE_MORTGAGE ∨
        (Solver ops s w).typeRet = txnouttype.TX_MORTGAGE_COIN ∨
        (Solver ops s w).typeRet = txnouttype.TX_SCRIPTHASH)) ∧
    ((Solver ops s w).ret = true → (Solver ops s w).typeRet = txnouttype.TX_PUBKEY →
      ∃ key, (Solver ops s w).vSolutionsRet = [key] ∧
        ExtractDestination ops pk s w a0 =
          if pk.IsValid key = true then (true, MCTxDestination.MCKeyID (pk.GetID key))
          else (false, a0)) ∧
    ((Solver ops s w).ret = true →
      ((Solver ops s w).typeRet = txnouttype.TX_PUBKEYHASH ∨
        (Solver ops s w).typeRet = txnouttype.TX_CREATE_BRANCH ∨
        (Solver ops s w).typeRet = txnouttype.TX_MINE_MORTGAGE ∨
        (Solver ops s w).typeRet = txnouttype.TX_MORTGAGE_COIN) →
      ∃ h, h.length = 20 ∧ (Solver ops s w).vSolutionsRet = [h] ∧
        ExtractDestination ops pk s w a0 = (true, MCTxDestination.MCKeyID h)) ∧
    ((Solver ops s w).ret = true → (Solver ops s w).typeRet = txnouttype.TX_SCRIPTHASH →
      ∃ h, h.length = 20 ∧ (Solver ops s w).vSolutionsRet = [h] ∧
        ExtractDestination ops pk s w a0 = (true, MCTxDestination.MCScriptID h)) ∧
    (((Solver ops s w).ret = false ∨
        (Solver ops s w).typeRet = txnouttype.TX_NULL_DATA ∨
        (Solver ops s w).typeRet = txnouttype.TX_MULTISIG ∨
        (Solver ops s w).typeRet = txnouttype.TX_WITNESS_V0_KEYHASH ∨
        (Solver ops s w).typeRet = txnouttype.TX_WITNESS_V0_SCRIPTHASH ∨
        (Solver ops s w).typeRet = txnouttype.TX_TRANS_BRANCH ∨
        (Solver ops s w).typeRet = txnouttype.TX_SEND_BRANCH ∨
        (Solver ops s w).typeRet = txnouttype.TX_REDEEM_MORTGAGE ∨
        (Solver ops s w).typeRet = txnouttype.TX_NONSTANDARD) →
      ExtractDestination ops pk s w a0 = (false, a0)) := by
  have e_pk : (Solver ops s w).ret = true → (Solver ops s w).typeRet = txnouttype.TX_PUBKEY →
      ∃ key, (Solver ops s w).vSolutionsRet = [key] ∧
        ExtractDestination ops pk s w a0 =
          if pk.IsValid key = true then (true, MCTxDestination.MCKeyID (pk.GetID key))
          else (false, a0) := by
    intro h1 h2
    obtain ⟨key, hk, _⟩ := (Solver_shapes ops hops s w h1).2.1 h2
    refine ⟨key, hk, ?_⟩
    unfold ExtractDestination
    simp only [h1, h2, hk, List.headD_cons, Bool.not_true, Bool.false_eq_true, if_false,
      if_true]
    cases pk.IsValid key <;> simp
  have e_key : (Solver ops s w).ret = true →
      ((Solver ops s w).typeRet = txnouttype.TX_PUBKEYHASH ∨
        (Solver ops s w).typeRet = txnouttype.TX_CREATE_BRANCH ∨
        (Solver ops s w).typeRet = txnouttype.TX_MINE_MORTGAGE ∨
        (Solver ops s w).typeRet = txnouttype.TX_MORTGAGE_COIN) →
      ∃ h, h.length = 20 ∧ (Solver ops s w).vSolutionsRet = [h] ∧
        ExtractDestination ops pk s w a0 = (true, MCTxDestination.MCKeyID h) := by
    intro h1 h2
    obtain ⟨v, hv, hlen⟩ := (Solver_shapes ops hops s w h1).1 h2
    refine ⟨v, hlen, hv, ?_⟩
    unfold ExtractDestination
    rcases h2 with h2 | h2 | h2 | h2 <;> simp [h1, h2, hv]
  have e_sh : (Solver ops s w).ret = true →
      (Solver ops s w).typeRet = txnouttype.TX_SCRIPTHASH →
      ∃ h, h.length = 20 ∧ (Solver ops s w).vSolutionsRet = [h] ∧
        ExtractDestination ops pk s w a0 = (true, MCTxDestination.MCScriptID h) := by
    intro h1 h2
    obtain ⟨hp, hv⟩ := Solver_scripthash_shape ops s w h1 h2
    refine ⟨_, p2sh_take_length s hp, hv, ?_⟩
    unfold ExtractDestination
    simp [h1, h2, hv]
  have e_fail : ((Solver ops s w).ret = false ∨
        (Solver ops s w).typeRet = txnouttype.TX_NULL_DATA ∨
        (Solver ops s w).typeRet = txnouttype.TX_MULTISIG ∨
        (Solver ops s w).typeRet = txnouttype.TX_WITNESS_V0_KEYHASH ∨
        (Solver ops s w).typeRet = txnouttype.TX_WITNESS_V0_SCRIPTHASH ∨
        (Solver ops s w).typeRet = txnouttype.TX_TRANS_BRANCH ∨
        (Solver ops s w).typeRet = txnouttype.TX_SEND_BRANCH ∨
        (Solver ops s w).typeRet = txnouttype.TX_REDEEM_MORTGAGE ∨
        (Solver ops s w).typeRet = txnouttype.TX_NONSTANDARD) →
      ExtractDestination ops pk s w a0 = (false, a0) := by
    intro h
    unfold ExtractDestination
    rcases h with h | h | h | h | h | h | h | h | h <;> simp [h]
  refine ⟨⟨?_, ?_⟩, e_pk, e_key, e_sh, e_fail⟩
  · intro he
    have hret : (Solver ops s w).ret = true := by
      cases hr : (Solver ops s w).ret with
      | true => rfl
      | false => rw [e_fail (Or.inl hr)] at he; exact absurd he (by simp)
    refine ⟨hret, ?_⟩
    have hno : ∀ ty, (Solver ops s w).typeRet = ty →
        (ty = txnouttype.TX_NULL_DATA ∨ ty = txnouttype.TX_MULTISIG ∨
          ty = txnouttype.TX_WITNESS_V0_KEYHASH ∨ ty = txnouttype.TX_WITNESS_V0_SCRIPTHASH ∨
          ty = txnouttype.TX_TRANS_BRANCH ∨ ty = txnouttype.TX_SEND_BRANCH ∨
          ty = txnouttype.TX_REDEEM_MORTGAGE ∨ ty = txnouttype.TX_NONSTANDARD) → False := by
      intro ty hty hbad
      rw [← hty] at hbad
      rw [e_fail (Or.inr hbad)] at he
      exact absurd he (by simp)
    cases hty : (Solver ops s w).typeRet with
    | TX_PUBKEY =>
      obtain ⟨key, hk, hed⟩ := e_pk hret hty
      refine Or.inl ⟨rfl, key, hk, ?_⟩
      cases hv : pk.IsValid key with
      | true => rfl
      | false =>
        rw [hed, hv] at he
        exact absurd he (by simp)
    | TX_PUBKEYHASH => exact Or.inr (Or.inl rfl)
    | TX_CREATE_BRANCH => exact Or.inr (Or.inr (Or.inl rfl))
    | TX_MINE_MORTGAGE => exact Or.inr (Or.inr (Or.inr (Or.inl rfl)))
    | TX_MORTGAGE_COIN => exact Or.inr (Or.inr (Or.inr (Or.inr (Or.inl rfl))))
    | TX_SCRIPTHASH => exact Or.inr (Or.inr (Or.inr (Or.inr (Or.inr rfl))))
    | TX_NULL_DATA => exact (hno _ hty (by simp)).elim
    | TX_MULTISIG => exact (hno _ hty (by simp)).elim
    | TX_WITNESS_V0_KEYHASH => exact (hno _ hty (by simp)).elim
    | TX_WITNESS_V0_SCRIPTHASH => exact (hno _ hty (by simp)).elim
    | TX_TRANS_BRANCH => exact (hno _ hty (by simp)).elim
    | TX_SEND_BRANCH => exact (hno _ hty (by simp)).elim
    | TX_REDEEM_MORTGAGE => exact (hno _ hty (by simp)).elim
    | TX_NONSTANDARD => exact (hno _ hty (by simp)).elim
  · rintro ⟨hret, h⟩
    rcases h with ⟨hty, key, hk, hv⟩ | h | h | h | h | h
    · obtain ⟨key2, hk2, hed⟩ := e_pk hret hty
      rw [hk] at hk2
      cases hk2
      rw [hed, if_pos hv]
    · obtain ⟨_, _, _, hed⟩ := e_key hret (Or.inl h)
      rw [hed]
    · obtain ⟨_, _, _, hed⟩ := e_key hret (Or.inr (Or.inl h))
      rw [hed]
    · obtain ⟨_, _, _, hed⟩ := e_key hret (Or.inr (Or.inr (Or.inl h)))
      rw [hed]
    · obtain ⟨_, _, _, hed⟩ := e_key hret (Or.inr (Or.inr (Or.inr h)))
      rw [hed]
    · obtain ⟨_, _, _, hed⟩ := e_sh hret h
      rw [hed]

/-- Witness for C21: a pay-to-pubkey-hash script gives the key-identity of
its 20 bytes. -/
theorem C21_extract_destination_table_witness :
    ∃ h, h.length = 20 ∧
      (Solver sampleOps sampleP2PKH txnouttype.TX_NONSTANDARD).vSolutionsRet = [h] ∧
      ExtractDestination sampleOps samplePk sampleP2PKH txnouttype.TX_NONSTANDARD
        MCTxDestination.MCNoDestination = (true, MCTxDestination.MCKeyID h) :=
  (C21_extract_destination_table sampleOps (by decide) samplePk sampleP2PKH
    txnouttype.TX_NONSTANDARD MCTxDestination.MCNoDestination).2.2.1 (by decide)
    (Or.inl (by decide))

/-- A successful template scan does not depend on the value the type
out-parameter had at the call. -/
theorem scanTemplates_indep (ops : BranchOpcodes) (L : List (txnouttype × MCScript))
    (s : MCScript) (t t2 : txnouttype) (h : (scanTemplates ops L s t).ret = true) :
    scanTemplates ops L s t2 = scanTemplates ops L s t := by
  induction L with
  | nil => simp [scanTemplates] at h
  | cons a rest ih =>
    obtain ⟨ty, tpl⟩ := a
    simp only [scanTemplates] at h ⊢
    cases hm : matchLoop ops (s.length + 1) s tpl [] with
    | found sols => simp only [hm]
    | abort sols =>
      rw [hm] at h
      exact absurd h (by simp)
    | brk =>
      rw [hm] at h
      simp only [hm]
      exact ih h

/-- A successful call of `Solver` does not depend on the value the type
out-parameter had at the call. -/
theorem Solver_indep (ops : BranchOpcodes) (s : MCScript) (t t2 : txnouttype)
    (h : (Solver ops s t).ret = true) : Solver ops s t2 = Solver ops s t := by
  unfold Solver at h ⊢
  split
  · rfl
  · cases hw : IsWitnessProgram s with
    | some p =>
      obtain ⟨v, prog⟩ := p
      simp only [hw] at h ⊢
      split
      · rfl
      · rename_i hp hc
        rw [if_neg hp, if_neg hc] at h
        split
        · rfl
        · rename_i hc2
          rw [if_neg hc2] at h
          exact absurd h (by simp)
    | none =>
      simp only [hw] at h ⊢
      split
      · rfl
      · rename_i hp hc
        rw [if_neg hp, if_neg hc] at h
        exact scanTemplates_indep ops _ s t t2 h

/-- A successful call of `Solver` with tag multisig has captured the count
of required signatures, the keys and the count of keys. -/
theorem Solver_multisig_shape (ops : BranchOpcodes) (hops : ops.WF) (s : MCScript)
    (t : txnouttype) (hret : (Solver ops s t).ret = true)
    (hty : (Solver ops s t).typeRet = txnouttype.TX_MULTISIG) :
    ∃ a ks b, (Solver ops s t).vSolutionsRet = [a] :: ks ++ [[b]] := by
  obtain ⟨tpl, hmem, hm⟩ := Solver_template_found ops s t hret (by rw [hty]; decide)
    (by rw [hty]; decide) (by rw [hty]; decide) (by rw [hty]; decide)
  rw [hty] at hmem
  rcases mTemplates_mem ops _ _ hmem with ⟨e, _⟩ | ⟨e, _⟩ | ⟨_, rfl⟩ | ⟨e, _⟩ | ⟨e, _⟩ |
    ⟨e, _⟩ | ⟨e, _⟩ | ⟨e, _⟩ | ⟨e, _⟩ <;> try exact absurd e (by decide)
  exact matchLoop_shape_multisig ops hops _ _ _ hm

/-- The loop over the captured keys keeps the identities of the valid keys,
in order. -/
theorem validKeyIds_eq (pk : PubKeyOps) (keys : List valtype) :
    validKeyIds pk keys =
      (keys.filter (fun k => pk.IsValid k)).map (fun k => MCTxDestination.MCKeyID (pk.GetID k)) := by
  induction keys with
  | nil => rfl
  | cons v rest ih =>
    unfold validKeyIds
    cases hv : pk.IsValid v <;> simp [hv, ih]

/-- C22 (`ExtractDestinations` on multisig): when `Solver` succeeds on a
script with tag multisig, its solutions are `[m], key_1, ..., key_n, [n]`,
and `ExtractDestinations` sets the count of required signatures to `m`, sets
the type to multisig, returns in script order the identities of exactly the
captured keys that are valid, and succeeds if and only if a captured key is
valid. When `Solver` succeeds with tag null-data, `ExtractDestinations` fails
with an empty destination list. -/
theorem C22_extract_destinations_multisig (ops : BranchOpcodes) (hops : ops.WF)
    (pk : PubKeyOps) (s : MCScript) (t w : txnouttype) (n0 : Int)
    (hret : (Solver ops s t).ret = true) :
    ((Solver ops s t).typeRet = txnouttype.TX_MULTISIG →
      ∃ (m : Nat) (keys : List valtype) (n : Nat), (Solver ops s t).vSolutionsRet = [m] :: keys ++ [[n]] ∧
        (ExtractDestinations ops pk s w n0).nRequiredRet = (m : Int) ∧
        (ExtractDestinations ops pk s w n0).addressRet =
          (keys.filter (fun k => pk.IsValid k)).map
            (fun k => MCTxDestination.MCKeyID (pk.GetID k)) ∧
        (ExtractDestinations ops pk s w n0).typeRet = txnouttype.TX_MULTISIG ∧
        ((ExtractDestinations ops pk s w n0).ret = true ↔
          ∃ k, k ∈ keys ∧ pk.IsValid k = true)) ∧
    ((Solver ops s t).typeRet = txnouttype.TX_NULL_DATA →
      (ExtractDestinations ops pk s w n0).ret = false ∧
      (ExtractDestinations ops pk s w n0).addressRet = []) := by
  have hS : Solver ops s txnouttype.TX_NONSTANDARD = Solver ops s t :=
    Solver_indep ops s t _ hret
  constructor
  · intro hty
    obtain ⟨m, keys, n, hsol⟩ := Solver_multisig_shape ops hops s t hret hty
    have hdrop : (([m] :: keys ++ [[n]] : List valtype).drop 1).dropLast = keys := by
      simp
    have hE : ExtractDestinations ops pk s w n0 =
        if (validKeyIds pk keys).isEmpty then
          ⟨false, txnouttype.TX_MULTISIG, validKeyIds pk keys, (m : Int)⟩
        else ⟨true, txnouttype.TX_MULTISIG, validKeyIds pk keys, (m : Int)⟩ := by
      unfold ExtractDestinations
      simp only [hS, hret, hty, hsol, hdrop]
      simp
    refine ⟨m, keys, n, hsol, ?_, ?_, ?_, ?_⟩
    · rw [hE]; split <;> rfl
    · rw [hE, ← validKeyIds_eq]; split <;> rfl
    · rw [hE]; split <;> rfl
    · rw [hE, validKeyIds_eq]
      constructor
      · intro h
        split at h
        · exact absurd h (by simp)
        · rename_i hne
          simp only [List.isEmpty_iff, List.map_eq_nil_iff, List.filter_eq_nil_iff,
            not_forall] at hne
          obtain ⟨k, hk, hv⟩ := hne
          exact ⟨k, hk, by simpa using hv⟩
      · rintro ⟨k, hk, hv⟩
        have hne : ¬ ((keys.filter (fun k => pk.IsValid k)).map
            (fun k => MCTxDestination.MCKeyID (pk.GetID k))).isEmpty = true := by
          simp only [List.isEmpty_iff, List.map_eq_nil_iff, List.filter_eq_nil_iff,
            not_forall]
          exact ⟨k, hk, by simpa using hv⟩
        rw [if_neg hne]
  · intro hty
    unfold ExtractDestinations
    simp only [hS, hret, hty]
    simp

/-- Witness for C22: a 1-of-2 multisig script whose first key is valid. -/
theorem C22_extract_destinations_multisig_witness :
    ∃ (m : Nat) (keys : List valtype) (n : Nat),
      (Solver sampleOps sampleMultisig txnouttype.TX_NONSTANDARD).vSolutionsRet
        = [m] :: keys ++ [[n]] ∧
      (ExtractDestinations sampleOps samplePk sampleMultisig txnouttype.TX_NONSTANDARD
        0).nRequiredRet = (m : Int) ∧
      (ExtractDestinations sampleOps samplePk sampleMultisig txnouttype.TX_NONSTANDARD
        0).addressRet =
        (keys.filter (fun k => samplePk.IsValid k)).map
          (fun k => MCTxDestination.MCKeyID (samplePk.GetID k)) ∧
      (ExtractDestinations sampleOps samplePk sampleMultisig txnouttype.TX_NONSTANDARD
        0).typeRet = txnouttype.TX_MULTISIG ∧
      ((ExtractDestinations sampleOps samplePk sampleMultisig txnouttype.TX_NONSTANDARD
        0).ret = true ↔ ∃ k, k ∈ keys ∧ samplePk.IsValid k = true) :=
  (C22_extract_destinations_multisig sampleOps (by decide) samplePk sampleMultisig
    txnouttype.TX_NONSTANDARD txnouttype.TX_NONSTANDARD 0 (by decide)).1 (by decide)

/-! ## The builders of destinations and the classifier -/

/-- One round on a literal template token and the same opcode in the script:
the comparison goes on with the rest. -/
theorem matchLoop_fwd_lit (ops : BranchOpcodes) (x : Nat) (hx : IsLiteral ops x)
    (rest tpl : MCScript) (f : Nat) (sols : List valtype) :
    matchLoop ops (f + 1) (x :: rest) (x :: tpl) sols = matchLoop ops f rest tpl sols := by
  obtain ⟨h0, h1, h2, h3, h4, h5, h6⟩ := hx
  rw [matchLoop]
  simp only [GetOp_opcode x h0, tokenCheck, h1, h2, h3, h4, h5, h6]
  simp

/-- One round on the key-hash wildcard and a direct push of 20 bytes: the
bytes are captured and the comparison goes on with the rest. -/
theorem matchLoop_fwd_pkh (ops : BranchOpcodes) (d : valtype) (hd : d.length = 20)
    (rest tpl : MCScript) (f : Nat) (sols : List valtype) :
    matchLoop ops (f + 1) (20 :: (d ++ rest)) (OP_PUBKEYHASH :: tpl) sols
      = matchLoop ops f rest tpl (sols ++ [d]) := by
  have hg : GetOp (20 :: (d ++ rest)) = ⟨true, 20, d, rest⟩ := by
    have := readData_append 20 d rest
    rw [hd] at this
    simp only [GetOp, show (20 : Nat) ≤ OP_PUSHDATA4 by decide,
      show (20 : Nat) < OP_PUSHDATA1 by decide, if_true]
    exact this
  rw [matchLoop]
  simp only [hg, GetOp_opcode OP_PUBKEYHASH (by decide), tokenCheck, hd]
  simp

/-- The comparison succeeds when the script and the template end together. -/
theorem matchLoop_fwd_end (ops : BranchOpcodes) (f : Nat) (sols : List valtype) :
    matchLoop ops (f + 1) [] [] sols = .found sols := by
  rw [matchLoop]
  simp

/-- The built pay-to-pubkey-hash script matches its template and captures
the 20 bytes. -/
theorem matchLoop_p2pkh_fwd (ops : BranchOpcodes) (hops : ops.WF) (d : valtype)
    (hd : d.length = 20) (fuel : Nat) (hf : 6 ≤ fuel) :
    matchLoop ops fuel (OP_DUP :: OP_HASH160 :: 20 :: (d ++ [OP_EQUALVERIFY, OP_CHECKSIG]))
      [OP_DUP, OP_HASH160, OP_PUBKEYHASH, OP_EQUALVERIFY, OP_CHECKSIG] [] = .found [d] := by
  obtain ⟨f, rfl⟩ : ∃ f, fuel = f + 6 := ⟨fuel - 6, by omega⟩
  rw [matchLoop_fwd_lit ops OP_DUP (IsLiteral_standard ops hops _ (by simp)),
    matchLoop_fwd_lit ops OP_HASH160 (IsLiteral_standard ops hops _ (by simp)),
    matchLoop_fwd_pkh ops d hd,
    matchLoop_fwd_lit ops OP_EQUALVERIFY (IsLiteral_standard ops hops _ (by simp)),
    matchLoop_fwd_lit ops OP_CHECKSIG (IsLiteral_standard ops hops _ (by simp)),
    matchLoop_fwd_end]
  rfl

/-- The public-key template does not match a script that starts with
`OP_DUP`. -/
theorem matchLoop_pubkey_dup (ops : BranchOpcodes) (rest : MCScript) (f : Nat) :
    matchLoop ops (f + 1) (OP_DUP :: rest) [OP_PUBKEY, OP_CHECKSIG] [] = .brk := by
  rw [matchLoop]
  simp only [GetOp_opcode OP_DUP (by decide), GetOp_opcode OP_PUBKEY (by decide), tokenCheck]
  simp

/-- The result of `Solver` on the built pay-to-pubkey-hash script. -/
theorem Solver_p2pkh (ops : BranchOpcodes) (hops : ops.WF) (d : valtype)
    (hd : d.length = 20) (t : txnouttype) :
    Solver ops (OP_DUP :: OP_HASH160 :: 20 :: (d ++ [OP_EQUALVERIFY, OP_CHECKSIG])) t
      = ⟨true, txnouttype.TX_PUBKEYHASH, [d]⟩ := by
  have hp : IsPayToScriptHash
      (OP_DUP :: OP_HASH160 :: 20 :: (d ++ [OP_EQUALVERIFY, OP_CHECKSIG])) = false := by
    simp [IsPayToScriptHash, hd]
  have hw : IsWitnessProgram
      (OP_DUP :: OP_HASH160 :: 20 :: (d ++ [OP_EQUALVERIFY, OP_CHECKSIG])) = none := by
    simp [IsWitnessProgram, hd]
  unfold Solver
  rw [hp, hw]
  simp only [Bool.false_eq_true, if_false, List.getD_cons_zero,
    show ¬ OP_DUP = OP_RETURN by decide, false_and, and_false, mTemplates, scanTemplates]
  rw [matchLoop_pubkey_dup, matchLoop_p2pkh_fwd ops hops d hd _ (by simp [hd])]
  rfl

/-- The result of `Solver` on the built pay-to-script-hash script. -/
theorem Solver_p2shScript (ops : BranchOpcodes) (h : valtype) (hlen : h.length = 20)
    (t : txnouttype) :
    Solver ops (p2shScript h) t = ⟨true, txnouttype.TX_SCRIPTHASH, [h]⟩ := by
  have hl : (p2shScript h).length = 23 := by simp [p2shScript, hlen]
  have h22 : (p2shScript h).getD 22 0 = OP_EQUAL := by
    simp only [p2shScript, List.cons_append, List.nil_append, List.getD_cons_succ]
    rw [List.getD_append_right _ _ _ _ (by omega), hlen]
    rfl
  have hp : IsPayToScriptHash (p2shScript h) = true := by
    unfold IsPayToScriptHash
    rw [hl, h22]
    rfl
  have htake : ((p2shScript h).drop 2).take 20 = h := by
    simp only [p2shScript, List.cons_append, List.nil_append, List.drop_succ_cons,
      List.drop_zero]
    rw [← hlen, List.take_left']
    rfl
  unfold Solver
  rw [hp, htake]
  rfl

/-- C23 (builder round trip): for every key identity and every script
identity `d` of 20 bytes, `Solver` classifies the script that
`GetScriptForDestination` builds as pay-to-pubkey-hash, respectively
pay-to-script-hash, with the 20 bytes of `d` as its only solution, and
`ExtractDestination` on the built script succeeds and returns the
destination. -/
theorem C23_builder_round_trip (ops : BranchOpcodes) (hops : ops.WF) (pk : PubKeyOps)
    (OP_CONTRACT : Nat) (d : uint160) (hd : d.length = 20) (w : txnouttype)
    (a0 : MCTxDestination) :
    Solver ops (GetScriptForDestination OP_CONTRACT (MCTxDestination.MCKeyID d)) w
      = ⟨true, txnouttype.TX_PUBKEYHASH, [d]⟩ ∧
    ExtractDestination ops pk (GetScriptForDestination OP_CONTRACT (MCTxDestination.MCKeyID d))
      w a0 = (true, MCTxDestination.MCKeyID d) ∧
    Solver ops (GetScriptForDestination OP_CONTRACT (MCTxDestination.MCScriptID d)) w
      = ⟨true, txnouttype.TX_SCRIPTHASH, [d]⟩ ∧
    ExtractDestination ops pk
      (GetScriptForDestination OP_CONTRACT (MCTxDestination.MCScriptID d)) w a0
      = (true, MCTxDestination.MCScriptID d) := by
  have hk : GetScriptForDestination OP_CONTRACT (MCTxDestination.MCKeyID d)
      = OP_DUP :: OP_HASH160 :: 20 :: (d ++ [OP_EQUALVERIFY, OP_CHECKSIG]) := by
    simp [GetScriptForDestination, pushVector, pushBytes, hd,
      show (20 : Nat) < OP_PUSHDATA1 by decide]
  have hs : GetScriptForDestination OP_CONTRACT (MCTxDestination.MCScriptID d)
      = p2shScript d := by
    simp [GetScriptForDestination, pushVector, pushBytes, hd, p2shScript,
      show (20 : Nat) < OP_PUSHDATA1 by decide]
  have h1 := Solver_p2pkh ops hops d hd w
  have h2 := Solver_p2shScript ops d hd w
  rw [hk, hs]
  refine ⟨h1, ?_, h2, ?_⟩
  · unfold ExtractDestination
    rw [h1]
    rfl
  · unfold ExtractDestination
    rw [h2]
    rfl

/-- Witness for C23: the identity made of twenty bytes 1. -/
theorem C23_builder_round_trip_witness :
    Solver sampleOps (GetScriptForDestination 0xc0
        (MCTxDestination.MCKeyID (List.replicate 20 1))) txnouttype.TX_NONSTANDARD
      = ⟨true, txnouttype.TX_PUBKEYHASH, [List.replicate 20 1]⟩ ∧
    ExtractDestination sampleOps samplePk (GetScriptForDestination 0xc0
        (MCTxDestination.MCKeyID (List.replicate 20 1))) txnouttype.TX_NONSTANDARD
        MCTxDestination.MCNoDestination
      = (true, MCTxDestination.MCKeyID (List.replicate 20 1)) ∧
    Solver sampleOps (GetScriptForDestination 0xc0
        (MCTxDestination.MCScriptID (List.replicate 20 1))) txnouttype.TX_NONSTANDARD
      = ⟨true, txnouttype.TX_SCRIPTHASH, [List.replicate 20 1]⟩ ∧
    ExtractDestination sampleOps samplePk (GetScriptForDestination 0xc0
        (MCTxDestination.MCScriptID (List.replicate 20 1))) txnouttype.TX_NONSTANDARD
        MCTxDestination.MCNoDestination
      = (true, MCTxDestination.MCScriptID (List.replicate 20 1)) :=
  C23_builder_round_trip sampleOps (by decide) samplePk 0xc0 (List.replicate 20 1)
    (by decide) txnouttype.TX_NONSTANDARD MCTxDestination.MCNoDestination

/-! ## Flushing twice -/

/-- A staged add whose id is in the list is found, and the list is kept. -/
theorem mergeFound_add (nv : CoinReportInfo) (d : List CoinReportInfo)
    (hf : nv.flags = DbDataFlag.eADD) (hm : nv.reporttxid ∈ reportIds d) :
    mergeFound nv d = some d := by
  induction d with
  | nil => simp [reportIds] at hm
  | cons it rest ih =>
    simp only [mergeFound]
    split
    · rw [hf]
    · rename_i hne
      have : nv.reporttxid ∈ reportIds rest := by
        simp only [reportIds, List.map_cons, List.mem_cons] at hm ⊢
        rcases hm with h | h
        · exact absurd h.symm hne
        · exact h
      rw [ih this]
      rfl

/-- A staged delete that is found leaves no report of its id in a list whose
ids are pairwise distinct. -/
theorem mergeFound_delete_notin (nv : CoinReportInfo) (d v : List CoinReportInfo)
    (hf : nv.flags = DbDataFlag.eDELETE) (hd : (reportIds d).Nodup)
    (h : mergeFound nv d = some v) : nv.reporttxid ∉ reportIds v := by
  induction d generalizing v with
  | nil => simp [mergeFound] at h
  | cons it rest ih =>
    simp only [reportIds, List.map_cons, List.nodup_cons] at hd
    simp only [mergeFound] at h
    split at h
    · rename_i he
      rw [hf] at h
      simp only [Option.some.injEq] at h
      subst h
      rw [← he]
      exact hd.1
    · rename_i hne
      cases hr : mergeFound nv rest with
      | none => simp [hr] at h
      | some r =>
        simp only [hr, Option.map_some', Option.some.injEq] at h
        subst h
        have := ih r hd.2 hr
        simp only [reportIds, List.map_cons, List.mem_cons, not_or] at this ⊢
        exact ⟨fun hh => hne hh.symm, this⟩

/-- A staged report that is found changes no report of another id. -/
theorem mergeFound_mem_other (nv : CoinReportInfo) (d v : List CoinReportInfo) (i : uint256)
    (hi : nv.reporttxid ≠ i) (h : mergeFound nv d = some v) :
    (i ∈ reportIds v ↔ i ∈ reportIds d) := by
  induction d generalizing v with
  | nil => simp [mergeFound] at h
  | cons it rest ih =>
    simp only [mergeFound] at h
    split at h
    · rename_i he
      simp only [Option.some.injEq] at h
      subst h
      cases nv.flags with
      | eADD => rfl
      | eDELETE =>
        simp only [reportIds, List.map_cons, List.mem_cons]
        constructor
        · exact Or.inr
        · rintro (h | h)
          · exact absurd (he.symm.trans h.symm) hi
          · exact h
    · cases hr : mergeFound nv rest with
      | none => simp [hr] at h
      | some r =>
        simp only [hr, Option.map_some', Option.some.injEq] at h
        subst h
        have := ih r hr
        simp only [reportIds, List.map_cons, List.mem_cons] at this ⊢
        rw [this]

/-- The merge of a staged report changes no report of another id. -/
theorem mergeReport_mem_other (d : List CoinReportInfo) (nv : CoinReportInfo) (i : uint256)
    (hi : nv.reporttxid ≠ i) : (i ∈ reportIds (mergeReport d nv) ↔ i ∈ reportIds d) := by
  unfold mergeReport
  cases hf : mergeFound nv d with
  | some v => exact mergeFound_mem_other nv d v i hi hf
  | none =>
    simp only
    cases nv.flags with
    | eDELETE => rfl
    | eADD =>
      simp only [reportIds, List.map_append, List.map_cons, List.map_nil, List.mem_append,
        List.mem_singleton]
      constructor
      · rintro (h | h)
        · exact h
        · exact absurd h.symm hi
      · exact Or.inl

theorem foldl_mergeReport_mem_other (vec d : List CoinReportInfo) (i : uint256)
    (hi : ∀ x ∈ vec, x.reporttxid ≠ i) :
    (i ∈ reportIds (vec.foldl mergeReport d) ↔ i ∈ reportIds d) := by
  induction vec generalizing d with
  | nil => rfl
  | cons nv rest ih =>
    simp only [List.foldl_cons]
    rw [ih _ (fun x hx => hi x (by simp [hx])),
      mergeReport_mem_other d nv i (hi nv (by simp))]

/-- A staged add whose id is in the list, and a staged delete whose id is
not, leave the list as it is. -/
theorem mergeReport_fixed (v : List CoinReportInfo) (nv : CoinReportInfo)
    (h : (nv.flags = DbDataFlag.eADD ∧ nv.reporttxid ∈ reportIds v) ∨
      (nv.flags = DbDataFlag.eDELETE ∧ nv.reporttxid ∉ reportIds v)) :
    mergeReport v nv = v := by
  unfold mergeReport
  rcases h with ⟨hf, hm⟩ | ⟨hf, hm⟩
  · rw [mergeFound_add nv v hf hm]
  · have hn : mergeFound nv v = none :=
      mergeFound_none nv v (fun r hr hh => hm (by
        simp only [reportIds, List.mem_map]
        exact ⟨r, hr, hh⟩))
    rw [hn, hf]

/-- After the merge of a staged report into a list with pairwise distinct
ids, an add has its id in the list and a delete has not. -/
theorem mergeReport_settles (d : List CoinReportInfo) (nv : CoinReportInfo)
    (hd : (reportIds d).Nodup) :
    (nv.flags = DbDataFlag.eADD ∧ nv.reporttxid ∈ reportIds (mergeReport d nv)) ∨
      (nv.flags = DbDataFlag.eDELETE ∧ nv.reporttxid ∉ reportIds (mergeReport d nv)) := by
  unfold mergeReport
  cases hfl : nv.flags with
  | eADD =>
    left
    refine ⟨rfl, ?_⟩
    by_cases hm : nv.reporttxid ∈ reportIds d
    · rw [mergeFound_add nv d hfl hm]
      exact hm
    · have hn : mergeFound nv d = none :=
        mergeFound_none nv d (fun r hr hh => hm (by
          simp only [reportIds, List.mem_map]
          exact ⟨r, hr, hh⟩))
      rw [hn]
      simp [reportIds]
  | eDELETE =>
    right
    refine ⟨rfl, ?_⟩
    cases hf : mergeFound nv d with
    | some v => exact mergeFound_delete_notin nv d v hfl hd hf
    | none => exact mergeFound_none_ids nv d hf

/-- After the merge of staged reports with pairwise distinct ids into a list
with pairwise distinct ids, every staged add has its id in the list and every
staged delete has not. -/
theorem foldl_mergeReport_settles (vec d : List CoinReportInfo)
    (hv : (reportIds vec).Nodup) (hd : (reportIds d).Nodup) :
    ∀ nv ∈ vec,
      (nv.flags = DbDataFlag.eADD ∧ nv.reporttxid ∈ reportIds (vec.foldl mergeReport d)) ∨
      (nv.flags = DbDataFlag.eDELETE ∧
        nv.reporttxid ∉ reportIds (vec.foldl mergeReport d)) := by
  induction vec generalizing d with
  | nil => intro nv h; simp at h
  | cons a rest ih =>
    simp only [reportIds, List.map_cons, List.nodup_cons] at hv
    intro nv hnv
    simp only [List.foldl_cons]
    rcases List.mem_cons.mp hnv with rfl | hin
    · have hother : ∀ x ∈ rest, x.reporttxid ≠ nv.reporttxid := by
        intro x hx hh
        exact hv.1 (by
          simp only [List.mem_map]
          exact ⟨x, hx, hh⟩)
      rw [foldl_mergeReport_mem_other rest _ _ hother]
      exact mergeReport_settles d nv hd
    · exact ih _ hv.2 (mergeReport_nodup d a hd) nv hin

/-- Staged reports that are all settled in a list leave it as it is. -/
theorem foldl_mergeReport_fixed (vec v : List CoinReportInfo)
    (h : ∀ nv ∈ vec,
      (nv.flags = DbDataFlag.eADD ∧ nv.reporttxid ∈ reportIds v) ∨
      (nv.flags = DbDataFlag.eDELETE ∧ nv.reporttxid ∉ reportIds v)) :
    vec.foldl mergeReport v = v := by
  induction vec with
  | nil => rfl
  | cons a rest ih =>
    simp only [List.foldl_cons]
    rw [mergeReport_fixed v a (h a (by simp))]
    exact ih (fun nv hnv => h nv (by simp [hnv]))

/-- The merge of staged reports with pairwise distinct ids into a list with
pairwise distinct ids is idempotent. -/
theorem foldl_mergeReport_idem (vec d : List CoinReportInfo)
    (hv : (reportIds vec).Nodup) (hd : (reportIds d).Nodup) :
    vec.foldl mergeReport (vec.foldl mergeReport d) = vec.foldl mergeReport d :=
  foldl_mergeReport_fixed vec _ (foldl_mergeReport_settles vec d hv hd)

/-- The write-back of one coin, done twice, leaves what it leaves when done
once. -/
theorem coinResult_idem (old : Option (List CoinReportInfo)) (vec : List CoinReportInfo)
    (hv : (reportIds vec).Nodup) (hd : ∀ d, old = some d → (reportIds d).Nodup) :
    coinResult (coinResult old vec) vec = coinResult old vec := by
  cases old with
  | none => rfl
  | some d =>
    by_cases hl : (vec.foldl mergeReport d).length > 0
    · have h1 : coinResult (some d) vec = some (vec.foldl mergeReport d) := by
        simp only [coinResult]
        rw [if_pos hl]
      rw [h1]
      simp only [coinResult]
      rw [foldl_mergeReport_idem vec d hv (hd d rfl), if_pos hl]
    · have h1 : coinResult (some d) vec = none := by
        simp only [coinResult]
        rw [if_neg hl]
      rw [h1]
      rfl

theorem flushCoinEntry_branchList (s : MCDBWrapper) (e : uint256 × List CoinReportInfo) :
    (flushCoinEntry s e).branchList = s.branchList := by
  unfold flushCoinEntry
  simp only
  split <;> rfl

theorem foldl_flushCoin_branchList (l : List (uint256 × List CoinReportInfo))
    (s : MCDBWrapper) : (l.foldl flushCoinEntry s).branchList = s.branchList := by
  induction l generalizing s with
  | nil => rfl
  | cons e rest ih => simp only [List.foldl_cons, ih, flushCoinEntry_branchList]

/-- Two stores with the same four tables are equal. -/
theorem MCDBWrapper_eq (a b : MCDBWrapper) (h1 : a.txData = b.txData)
    (h2 : a.recvData = b.recvData) (h3 : a.branchList = b.branchList)
    (h4 : a.mineCoin = b.mineCoin) : a = b := by
  cases a
  cases b
  simp only at h1 h2 h3 h4
  subst h1 h2 h3 h4
  rfl

/-- The third loop of `Flush`, run twice on staged lists with pairwise
distinct ids and a store whose lists have pairwise distinct ids, leaves the
store as it is after the first run. -/
theorem foldl_flushCoin_idem (l : List (uint256 × List CoinReportInfo)) (s : MCDBWrapper)
    (hs : mapSorted l) (hc : ∀ e ∈ l, (reportIds e.2).Nodup)
    (hd : ∀ k d, s.mineCoin k = some d → (reportIds d).Nodup) :
    l.foldl flushCoinEntry (l.foldl flushCoinEntry s) = l.foldl flushCoinEntry s := by
  apply MCDBWrapper_eq
  · exact foldl_flushCoin_txData l _
  · exact foldl_flushCoin_recvData l _
  · exact foldl_flushCoin_branchList l _
  · funext k
    have e1 := foldl_flushCoin_find l (l.foldl flushCoinEntry s) k hs
    have e2 := foldl_flushCoin_find l s k hs
    cases hm : mapFind k l with
    | none =>
      rw [hm] at e1
      exact e1
    | some vec =>
      rw [hm] at e1 e2
      simp only at e1 e2
      rw [e1, e2]
      exact coinResult_idem _ vec (hc (k, vec) (mapFind_mem k vec l hm)) (hd k)

/-- The effect of `Flush` on a cache with no staged branch-transaction record
and no staged receipt record: only the third loop acts. -/
theorem Flush_nothing_batched (env : FlushEnv) (db : BranchChainTxRecordsDb)
    (c : BranchChainTxRecordsCache) (h1 : c.m_mapChainTxInfos = [])
    (h2 : c.m_mapRecvRecord = []) :
    Flush env db c =
      (⟨c.m_mapCoinBeReport.foldl flushCoinEntry db.m_db, db.m_vCreatedBranchTxs⟩, c) := by
  obtain ⟨a, b, coin⟩ := c
  simp only at h1 h2
  subst h1 h2
  simp [Flush, flushRet, flushBatched, WriteBatch]

/-- Where the second merge of the staged coin reports changes nothing: for
every cache whose staged coin-report lists have pairwise distinct report ids
and every index whose persisted coin-report lists have pairwise distinct
report ids, whatever the outcome of the commits, a second `Flush` right after
a first one leaves the store, the created-branches list and the cache exactly
as they were after the first. -/
theorem Flush_twice_distinct_ids (env : FlushEnv) (db : BranchChainTxRecordsDb)
    (cache : BranchChainTxRecordsCache) (hs : mapSorted cache.m_mapCoinBeReport)
    (hc : ∀ e ∈ cache.m_mapCoinBeReport, (reportIds e.2).Nodup)
    (hd : ∀ k l, db.m_db.mineCoin k = some l → (reportIds l).Nodup) :
    Flush env (Flush env db cache).1 (Flush env db cache).2 = Flush env db cache := by
  rw [Flush_nothing_batched env _ _ rfl rfl]
  have hd1 : ∀ k d, (WriteBatch (flushRet env db cache) (flushBatched env db cache).store
      (flushBatched env db cache).batch).mineCoin k = some d → (reportIds d).Nodup := by
    intro k d h
    rw [WriteBatch_mineCoin, flushBatched_mineCoin] at h
    exact hd k d h
  have hidem := foldl_flushCoin_idem cache.m_mapCoinBeReport _ hs hc hd1
  show ((⟨cache.m_mapCoinBeReport.foldl flushCoinEntry
      (cache.m_mapCoinBeReport.foldl flushCoinEntry
        (WriteBatch (flushRet env db cache) (flushBatched env db cache).store
          (flushBatched env db cache).batch)), (flushBatched env db cache).created⟩ :
        BranchChainTxRecordsDb), (Flush env db cache).2) = Flush env db cache
  rw [hidem]
  rfl

/-- An instance of `Flush_twice_distinct_ids`: the index holding report 7 for
coin 5 and the cache with the one staged report that the disconnect of the
lock-mortgage transaction leaves. -/
theorem Flush_twice_distinct_ids_example :
    Flush sampleEnv
        (Flush sampleEnv sampleLockedDb (UpdateLockMineCoin emptyCache sampleLockTx false)).1
        (Flush sampleEnv sampleLockedDb (UpdateLockMineCoin emptyCache sampleLockTx false)).2
      = Flush sampleEnv sampleLockedDb (UpdateLockMineCoin emptyCache sampleLockTx false) :=
  Flush_twice_distinct_ids sampleEnv sampleLockedDb
    (UpdateLockMineCoin emptyCache sampleLockTx false) (by decide) (by decide)
    (by
      intro k l h
      simp only [sampleLockedDb] at h
      split at h
      · simp only [Option.some.injEq] at h
        subst h
        decide
      · exact absurd h (by simp))

/-! ## The early exits of the classifier -/

/-- A token whose opcode is `OP_0` or above `OP_PUSHDATA4` carries no data. -/
theorem GetOp_vch_nil (pc : MCScript)
    (h : (GetOp pc).opcode = OP_0 ∨ OP_PUSHDATA4 < (GetOp pc).opcode) :
    (GetOp pc).vch = [] := by
  cases pc with
  | nil => rfl
  | cons b r =>
    unfold GetOp at h ⊢
    simp only at h ⊢
    split
    · rename_i hb
      rw [if_pos hb] at h
      split
      · rename_i hb1
        rw [if_pos hb1] at h
        unfold readData at h ⊢
        split
        · rfl
        · rename_i hlen
          rw [if_neg hlen] at h
          simp only at h
          rcases h with h | h
          · rw [h]; rfl
          · exact absurd h (by omega)
      · rename_i hb1
        rw [if_neg hb1] at h
        split
        · rename_i hb2
          rw [if_pos hb2] at h
          cases r with
          | nil => rfl
          | cons n r2 =>
            simp only at h ⊢
            unfold readData at h ⊢
            split
            · rfl
            · rename_i hlen
              rw [if_neg hlen] at h
              simp only at h
              rcases h with h | h
              · rw [hb2] at h; exact absurd h (by decide)
              · exact absurd h (by omega)
        · rename_i hb2
          rw [if_neg hb2] at h
          split
          · rename_i hb3
            rw [if_pos hb3] at h
            split
            · rfl
            · rename_i hl
              rw [if_neg hl] at h
              unfold readData at h ⊢
              split
              · rfl
              · rename_i hlen
                rw [if_neg hlen] at h
                simp only at h
                rcases h with h | h
                · rw [hb3] at h; exact absurd h (by decide)
                · exact absurd h (by omega)
          · rename_i hb3
            rw [if_neg hb3] at h
            split
            · rfl
            · rename_i hl
              rw [if_neg hl] at h
              unfold readData at h ⊢
              split
              · rfl
              · rename_i hlen
                rw [if_neg hlen] at h
                simp only at h
                rcases h with h | h
                · exact absurd h (by
                    show ¬ b = 0
                    intro hb0
                    rw [hb0] at hb1
                    exact hb1 (by decide))
                · exact absurd h (by omega)
    · rfl

/-- A comparison that does not break on a literal template token: the script
token has that opcode and no data, and the comparison goes on with the rest. -/
theorem matchLoop_lit_not_brk (ops : BranchOpcodes) (x : Nat) (hx : IsLiteral ops x)
    (tpl : MCScript) (fuel : Nat) (pc1 : MCScript) (sols : List valtype)
    (h : matchLoop ops fuel pc1 (x :: tpl) sols ≠ .brk) :
    (GetOp pc1).opcode = x ∧ (GetOp pc1).vch = [] ∧
      ∃ f, matchLoop ops fuel pc1 (x :: tpl) sols
        = matchLoop ops f (GetOp pc1).pc tpl sols := by
  obtain ⟨h0, h1, h2, h3, h4, h5, h6⟩ := hx
  cases fuel with
  | zero => simp [matchLoop] at h
  | succ f =>
    simp only [matchLoop, GetOp_opcode x h0 tpl, h1, if_false, Bool.not_true,
      Bool.false_eq_true, reduceCtorEq, and_false] at h ⊢
    cases hok : (GetOp pc1).ok with
    | false => simp [hok] at h
    | true =>
      simp only [hok, Bool.not_true, Bool.false_eq_true, if_false] at h ⊢
      simp only [tokenCheck, h2, h3, h4, h5, h6, if_false] at h ⊢
      by_cases hc : (GetOp pc1).opcode ≠ x ∨ (GetOp pc1).vch ≠ []
      · rw [if_pos hc] at h
        exact absurd rfl h
      · rw [if_neg hc]
        simp only [not_or, ne_eq, not_not] at hc
        exact ⟨hc.1, hc.2, f, rfl⟩

/-- A comparison that does not break on the public-key wildcard: the script
token carries at least 33 bytes. -/
theorem matchLoop_pubkey_not_brk (ops : BranchOpcodes) (tpl : MCScript) (fuel : Nat)
    (pc1 : MCScript) (sols : List valtype)
    (h : matchLoop ops fuel pc1 (OP_PUBKEY :: tpl) sols ≠ .brk) :
    33 ≤ (GetOp pc1).vch.length := by
  cases fuel with
  | zero => simp [matchLoop] at h
  | succ f =>
    simp only [matchLoop, GetOp_opcode OP_PUBKEY (by decide) tpl,
      show ¬ OP_PUBKEY = OP_PUBKEYS by decide, if_false, Bool.not_true,
      Bool.false_eq_true, reduceCtorEq, and_false] at h
    cases hok : (GetOp pc1).ok with
    | false => simp [hok] at h
    | true =>
      simp only [hok, Bool.not_true, Bool.false_eq_true, if_false, tokenCheck, if_true] at h
      by_cases hc : (GetOp pc1).vch.length < 33 ∨ (GetOp pc1).vch.length > 65
      · rw [if_pos hc] at h
        exact absurd rfl h
      · omega

/-- A comparison that does not break on the small-integer wildcard: the
script token is `OP_0` or one of `OP_1`..`OP_16`. -/
theorem matchLoop_smallint_not_brk (ops : BranchOpcodes) (tpl : MCScript) (fuel : Nat)
    (pc1 : MCScript) (sols : List valtype)
    (h : matchLoop ops fuel pc1 (OP_SMALLINTEGER :: tpl) sols ≠ .brk) :
    (GetOp pc1).opcode = OP_0 ∨ (OP_1 ≤ (GetOp pc1).opcode ∧ (GetOp pc1).opcode ≤ OP_16) := by
  cases fuel with
  | zero => simp [matchLoop] at h
  | succ f =>
    simp only [matchLoop, GetOp_opcode OP_SMALLINTEGER (by decide) tpl,
      show ¬ OP_SMALLINTEGER = OP_PUBKEYS by decide, if_false, Bool.not_true,
      Bool.false_eq_true, reduceCtorEq, and_false] at h
    cases hok : (GetOp pc1).ok with
    | false => simp [hok] at h
    | true =>
      simp only [hok, Bool.not_true, Bool.false_eq_true, if_false, tokenCheck,
        show ¬ OP_SMALLINTEGER = OP_PUBKEY by decide,
        show ¬ OP_SMALLINTEGER = OP_PUBKEYHASH by decide, if_true] at h
      by_cases hc : (GetOp pc1).opcode = OP_0 ∨
          (OP_1 ≤ (GetOp pc1).opcode ∧ (GetOp pc1).opcode ≤ OP_16)
      · exact hc
      · rw [if_neg hc] at h
        exact absurd rfl h

/-- The marker opcodes of the branch-chain templates are above `OP_16` and
are neither `OP_DUP` nor `OP_RETURN`. -/
theorem BranchOpcodes.WF.markers {ops : BranchOpcodes} (h : ops.WF) (x : Nat)
    (hx : x ∈ [ops.OP_CREATE_BRANCH, ops.OP_TRANS_BRANCH, ops.OP_MINE_BRANCH_MORTGAGE,
      ops.OP_MINE_BRANCH_COIN, ops.OP_REDEEM_MORTGAGE]) :
    ¬ x ≤ OP_16 ∧ x ≠ OP_DUP ∧ x ≠ OP_RETURN := by
  have hall : x ∈ ops.all := by
    simp only [BranchOpcodes.all, List.mem_cons, List.mem_singleton, List.not_mem_nil,
      or_false] at hx ⊢
    rcases hx with h | h | h | h | h <;> simp [h]
  refine ⟨Nat.not_le.mpr (h.2 x hall).1, ?_, ?_⟩
  · exact fun e => h.not_template x OP_DUP hall (by simp [templateOpcodes]) e.symm
  · exact fun e => h.not_template x OP_RETURN hall (by simp [templateOpcodes]) e.symm

/-- A template of the table on which the comparison does not break is the
one that the first tokens of the script leave possible. -/
theorem not_brk_template (ops : BranchOpcodes) (hops : ops.WF) (s : MCScript) (fuel : Nat)
    (sols : List valtype) (ty : txnouttype) (tpl : MCScript)
    (hmem : (ty, tpl) ∈ mTemplates ops) (h : matchLoop ops fuel s tpl sols ≠ .brk) :
    templateOfFirstTokens ops s = ty := by
  obtain ⟨⟨a1, a2, a3, a4, _, _⟩, ⟨b1, b2, b3, _, _⟩, ⟨c1, c2, _, _⟩, ⟨d1, _, _⟩, _, _⟩ :=
    hops.pairwise
  obtain ⟨mc1, mc2, mc3⟩ := hops.markers ops.OP_CREATE_BRANCH (by simp)
  obtain ⟨mt1, mt2, mt3⟩ := hops.markers ops.OP_TRANS_BRANCH (by simp)
  obtain ⟨mm1, mm2, mm3⟩ := hops.markers ops.OP_MINE_BRANCH_MORTGAGE (by simp)
  obtain ⟨mk1, mk2, mk3⟩ := hops.markers ops.OP_MINE_BRANCH_COIN (by simp)
  obtain ⟨mr1, mr2, mr3⟩ := hops.markers ops.OP_REDEEM_MORTGAGE (by simp)
  rcases mTemplates_mem ops _ _ hmem with c | c | c | c | c | c | c | c | c <;>
    obtain ⟨rfl, rfl⟩ := c
  · have hl := matchLoop_pubkey_not_brk ops _ fuel s sols h
    have hv : (GetOp s).vch ≠ [] := by
      intro e
      rw [e] at hl
      simp at hl
    unfold templateOfFirstTokens
    rw [if_pos hv]
  · obtain ⟨e1, e2, _⟩ :=
      matchLoop_lit_not_brk ops OP_DUP (IsLiteral_standard ops hops _ (by simp)) _ fuel s sols h
    unfold templateOfFirstTokens
    rw [e1, e2]
    simp [show ¬ OP_DUP ≤ OP_16 by decide]
  · have hsm := matchLoop_smallint_not_brk ops _ fuel s sols h
    have hv : (GetOp s).vch = [] := by
      apply GetOp_vch_nil
      rcases hsm with h0 | ⟨h1, _⟩
      · exact Or.inl h0
      · right
        have : (0x51 : Nat) ≤ (GetOp s).opcode := h1
        show 0x4e < (GetOp s).opcode
        omega
    have hle : (GetOp s).opcode ≤ OP_16 := by
      rcases hsm with h0 | ⟨_, h2⟩
      · rw [h0]; decide
      · exact h2
    unfold templateOfFirstTokens
    rw [hv]
    simp [hle]
  · obtain ⟨e1, e2, _⟩ := matchLoop_lit_not_brk ops ops.OP_CREATE_BRANCH
      (IsLiteral_branch ops hops _ (by simp)) _ fuel s sols h
    unfold templateOfFirstTokens
    rw [e1, e2]
    simp [mc1, mc2]
  · obtain ⟨e1, e2, f, e3⟩ :=
      matchLoop_lit_not_brk ops OP_RETURN (IsLiteral_standard ops hops _ (by simp)) _ fuel s
        sols h
    rw [e3] at h
    obtain ⟨e4, _, _⟩ := matchLoop_lit_not_brk ops ops.OP_TRANS_BRANCH
      (IsLiteral_branch ops hops _ (by simp)) _ f _ sols h
    unfold templateOfFirstTokens
    rw [e4, e1, e2]
    simp [Ne.symm mc3, Ne.symm mt3, Ne.symm mm3, Ne.symm mk3,
      show ¬ OP_RETURN ≤ OP_16 by decide, show ¬ OP_RETURN = OP_DUP by decide]
  · obtain ⟨e1, e2, _⟩ := matchLoop_lit_not_brk ops ops.OP_TRANS_BRANCH
      (IsLiteral_branch ops hops _ (by simp)) _ fuel s sols h
    unfold templateOfFirstTokens
    rw [e1, e2]
    simp [mt1, mt2, Ne.symm a1]
  · obtain ⟨e1, e2, _⟩ := matchLoop_lit_not_brk ops ops.OP_MINE_BRANCH_MORTGAGE
      (IsLiteral_branch ops hops _ (by simp)) _ fuel s sols h
    unfold templateOfFirstTokens
    rw [e1, e2]
    simp [mm1, mm2, Ne.symm a2, Ne.symm b1]
  · obtain ⟨e1, e2, _⟩ := matchLoop_lit_not_brk ops ops.OP_MINE_BRANCH_COIN
      (IsLiteral_branch ops hops _ (by simp)) _ fuel s sols h
    unfold templateOfFirstTokens
    rw [e1, e2]
    simp [mk1, mk2, Ne.symm a3, Ne.symm b2, Ne.symm c1]
  · obtain ⟨e1, e2, f, e3⟩ :=
      matchLoop_lit_not_brk ops OP_RETURN (IsLiteral_standard ops hops _ (by simp)) _ fuel s
        sols h
    rw [e3] at h
    obtain ⟨e4, _, _⟩ := matchLoop_lit_not_brk ops ops.OP_REDEEM_MORTGAGE
      (IsLiteral_branch ops hops _ (by simp)) _ f _ sols h
    unfold templateOfFirstTokens
    rw [e4, e1, e2]
    simp [Ne.symm mc3, Ne.symm mt3, Ne.symm mm3, Ne.symm mk3, Ne.symm b3,
      show ¬ OP_RETURN ≤ OP_16 by decide, show ¬ OP_RETURN = OP_DUP by decide]

/-- The table holds one template per type tag. -/
theorem mTemplates_fun (ops : BranchOpcodes) (ty : txnouttype) (a b : MCScript)
    (ha : (ty, a) ∈ mTemplates ops) (hb : (ty, b) ∈ mTemplates ops) : a = b := by
  rcases mTemplates_mem ops _ _ ha with c | c | c | c | c | c | c | c | c <;>
  obtain ⟨rfl, rfl⟩ := c <;>
  (rcases mTemplates_mem ops _ _ hb with ⟨e, rfl⟩ | ⟨e, rfl⟩ | ⟨e, rfl⟩ | ⟨e, rfl⟩ |
    ⟨e, rfl⟩ | ⟨e, rfl⟩ | ⟨e, rfl⟩ | ⟨e, rfl⟩ | ⟨e, rfl⟩ <;>
    first | rfl | exact absurd e (by decide))

/-- At most one template of the table does not break on a script. -/
theorem template_unique (ops : BranchOpcodes) (hops : ops.WF) (s : MCScript) (fuel : Nat)
    (p q : txnouttype × MCScript) (hp : p ∈ mTemplates ops) (hq : q ∈ mTemplates ops)
    (h1 : matchLoop ops fuel s p.2 [] ≠ .brk) (h2 : matchLoop ops fuel s q.2 [] ≠ .brk) :
    q = p := by
  obtain ⟨ty, tpl⟩ := p
  obtain ⟨ty2, tpl2⟩ := q
  have e1 := not_brk_template ops hops s fuel [] ty tpl hp h1
  have e2 := not_brk_template ops hops s fuel [] ty2 tpl2 hq h2
  have e : ty2 = ty := e2.symm.trans e1
  subst e
  rw [mTemplates_fun ops ty2 tpl2 tpl hq hp]

/-- The template loop fails with the cleared state when every comparison
breaks. -/
theorem scanTemplates_all_brk (ops : BranchOpcodes) (L : List (txnouttype × MCScript))
    (s : MCScript) (t : txnouttype)
    (h : ∀ p ∈ L, matchLoop ops (s.length + 1) s p.2 [] = .brk) :
    scanTemplates ops L s t = ⟨false, txnouttype.TX_NONSTANDARD, []⟩ := by
  induction L with
  | nil => rfl
  | cons a rest ih =>
    obtain ⟨ty, tpl⟩ := a
    simp only [scanTemplates]
    rw [h (ty, tpl) (by simp)]
    exact ih (fun p hp => h p (by simp [hp]))

/-- The loop without early exits fails with the cleared state when no
template matches with a passed arity check. -/
theorem scanTemplatesNoEarlyExit_fail (ops : BranchOpcodes)
    (L : List (txnouttype × MCScript)) (s : MCScript)
    (h : ∀ p ∈ L, ∀ sols, matchLoop ops (s.length + 1) s p.2 [] = .found sols →
      (foundResult p.1 sols).ret = false) :
    scanTemplatesNoEarlyExit ops L s = ⟨false, txnouttype.TX_NONSTANDARD, []⟩ := by
  induction L with
  | nil => rfl
  | cons a rest ih =>
    obtain ⟨ty, tpl⟩ := a
    have ih2 := ih (fun p hp => h p (by simp [hp]))
    simp only [scanTemplatesNoEarlyExit]
    cases hm : matchLoop ops (s.length + 1) s tpl [] with
    | found sols =>
      simp only
      rw [h (ty, tpl) (by simp) sols hm]
      simpa using ih2
    | abort sols => simpa using ih2
    | brk => simpa using ih2

/-- The result of the template loop when every template but one breaks: what
the comparison with that one gives. -/
theorem scanTemplates_only (ops : BranchOpcodes) (L : List (txnouttype × MCScript))
    (s : MCScript) (t : txnouttype) (p : txnouttype × MCScript) (hmem : p ∈ L)
    (hothers : ∀ q ∈ L, q ≠ p → matchLoop ops (s.length + 1) s q.2 [] = .brk) :
    scanTemplates ops L s t =
      match matchLoop ops (s.length + 1) s p.2 [] with
      | .found sols => foundResult p.1 sols
      | .abort sols => ⟨false, t, sols⟩
      | .brk => ⟨false, txnouttype.TX_NONSTANDARD, []⟩ := by
  induction L with
  | nil => simp at hmem
  | cons a rest ih =>
    by_cases ha : a = p
    · subst ha
      obtain ⟨ty, tpl⟩ := a
      simp only [scanTemplates]
      cases hm : matchLoop ops (s.length + 1) s tpl [] with
      | found sols => rfl
      | abort sols => rfl
      | brk =>
        simp only
        apply scanTemplates_all_brk
        intro q hq
        by_cases hqa : q = (ty, tpl)
        · rw [hqa]; exact hm
        · exact hothers q (by simp [hq]) hqa
    · have hbrk := hothers a (by simp) ha
      obtain ⟨ty, tpl⟩ := a
      simp only [scanTemplates]
      simp only at hbrk
      rw [hbrk]
      have hin : p ∈ rest := by
        rcases List.mem_cons.mp hmem with h | h
        · exact absurd h.symm ha
        · exact h
      exact ih hin (fun q hq => hothers q (by simp [hq]))

/-- The result of the loop without early exits when every template but one
breaks: the match of that one when it passes the arity check. -/
theorem scanTemplatesNoEarlyExit_only (ops : BranchOpcodes)
    (L : List (txnouttype × MCScript)) (s : MCScript) (p : txnouttype × MCScript)
    (hmem : p ∈ L)
    (hothers : ∀ q ∈ L, q ≠ p → matchLoop ops (s.length + 1) s q.2 [] = .brk) :
    scanTemplatesNoEarlyExit ops L s =
      match matchLoop ops (s.length + 1) s p.2 [] with
      | .found sols =>
        if (foundResult p.1 sols).ret then foundResult p.1 sols
        else ⟨false, txnouttype.TX_NONSTANDARD, []⟩
      | .abort _ => ⟨false, txnouttype.TX_NONSTANDARD, []⟩
      | .brk => ⟨false, txnouttype.TX_NONSTANDARD, []⟩ := by
  have hfail : ∀ M : List (txnouttype × MCScript), (∀ q ∈ M, q ∈ L) →
      (∀ sols, matchLoop ops (s.length + 1) s p.2 [] = .found sols →
        (foundResult p.1 sols).ret = false) →
      scanTemplatesNoEarlyExit ops M s = ⟨false, txnouttype.TX_NONSTANDARD, []⟩ := by
    intro M hM hp
    apply scanTemplatesNoEarlyExit_fail
    intro q hq sols hf
    by_cases hqp : q = p
    · rw [hqp] at hf ⊢
      exact hp sols hf
    · rw [hothers q (hM q hq) hqp] at hf
      exact absurd hf (by simp)
  induction L with
  | nil => simp at hmem
  | cons a rest ih =>
    by_cases ha : a = p
    · subst ha
      obtain ⟨ty, tpl⟩ := a
      simp only [scanTemplatesNoEarlyExit]
      cases hm : matchLoop ops (s.length + 1) s tpl [] with
      | found sols =>
        simp only
        split
        · rfl
        · rename_i hr
          exact hfail rest (fun q hq => by simp [hq]) (fun sols2 h2 => by
            rw [hm] at h2
            cases h2
            simpa using hr)
      | abort sols =>
        simp only
        exact hfail rest (fun q hq => by simp [hq]) (fun sols2 h2 => by
          rw [hm] at h2
          exact absurd h2 (by simp))
      | brk =>
        simp only
        exact hfail rest (fun q hq => by simp [hq]) (fun sols2 h2 => by
          rw [hm] at h2
          exact absurd h2 (by simp))
    · have hbrk := hothers a (by simp) ha
      obtain ⟨ty, tpl⟩ := a
      simp only [scanTemplatesNoEarlyExit]
      simp only at hbrk
      rw [hbrk]
      have hin : p ∈ rest := by
        rcases List.mem_cons.mp hmem with h | h
        · exact absurd h.symm ha
        · exact h
      simp only
      exact ih hin (fun q hq => hothers q (by simp [hq]))
        (fun M hM hp => hfail M (fun q hq => by simp [hM q hq]) hp)

/-- When a template of the table does not break on a script, every other
template of the table breaks on it. -/
theorem template_others_brk (ops : BranchOpcodes) (hops : ops.WF) (s : MCScript)
    (p : txnouttype × MCScript) (hp : p ∈ mTemplates ops)
    (h : matchLoop ops (s.length + 1) s p.2 [] ≠ .brk) :
    ∀ q ∈ mTemplates ops, q ≠ p → matchLoop ops (s.length + 1) s q.2 [] = .brk := by
  intro q hq hne
  by_contra hc
  exact hne (template_unique ops hops s _ p q hp hq h hc)

/-- The template loop, with and without early exits, gives the same result
for every order of the templates of the table. -/
theorem scanTemplates_order (ops : BranchOpcodes) (hops : ops.WF) (s : MCScript)
    (t : txnouttype) (L : List (txnouttype × MCScript))
    (hL : ∀ p, p ∈ L ↔ p ∈ mTemplates ops) :
    scanTemplates ops L s t = scanTemplates ops (mTemplates ops) s t ∧
    scanTemplatesNoEarlyExit ops L s = scanTemplatesNoEarlyExit ops (mTemplates ops) s := by
  by_cases hall : ∀ p ∈ mTemplates ops, matchLoop ops (s.length + 1) s p.2 [] = .brk
  · constructor
    · rw [scanTemplates_all_brk ops L s t (fun p hp => hall p ((hL p).mp hp)),
        scanTemplates_all_brk ops (mTemplates ops) s t hall]
    · rw [scanTemplatesNoEarlyExit_fail ops L s (fun p hp sols hf => by
          rw [hall p ((hL p).mp hp)] at hf
          exact absurd hf (by simp)),
        scanTemplatesNoEarlyExit_fail ops (mTemplates ops) s (fun p hp sols hf => by
          rw [hall p hp] at hf
          exact absurd hf (by simp))]
  · simp only [not_forall] at hall
    obtain ⟨p, hp, hne⟩ := hall
    have hothers := template_others_brk ops hops s p hp hne
    constructor
    · rw [scanTemplates_only ops L s t p ((hL p).mpr hp)
          (fun q hq => hothers q ((hL q).mp hq)),
        scanTemplates_only ops (mTemplates ops) s t p hp hothers]
    · rw [scanTemplatesNoEarlyExit_only ops L s p ((hL p).mpr hp)
          (fun q hq => hothers q ((hL q).mp hq)),
        scanTemplatesNoEarlyExit_only ops (mTemplates ops) s p hp hothers]

/-- The template loop without early exits succeeds exactly when the template
loop succeeds, and then with the same result. -/
theorem scanTemplates_agree (ops : BranchOpcodes) (hops : ops.WF) (s : MCScript)
    (t : txnouttype) :
    (scanTemplatesNoEarlyExit ops (mTemplates ops) s).ret
        = (scanTemplates ops (mTemplates ops) s t).ret ∧
    ((scanTemplates ops (mTemplates ops) s t).ret = true →
      scanTemplatesNoEarlyExit ops (mTemplates ops) s
        = scanTemplates ops (mTemplates ops) s t) := by
  by_cases hall : ∀ p ∈ mTemplates ops, matchLoop ops (s.length + 1) s p.2 [] = .brk
  · rw [scanTemplates_all_brk ops (mTemplates ops) s t hall,
      scanTemplatesNoEarlyExit_fail ops (mTemplates ops) s (fun p hp sols hf => by
        rw [hall p hp] at hf
        exact absurd hf (by simp))]
    exact ⟨rfl, fun _ => rfl⟩
  · simp only [not_forall] at hall
    obtain ⟨p, hp, hne⟩ := hall
    have hothers := template_others_brk ops hops s p hp hne
    rw [scanTemplates_only ops (mTemplates ops) s t p hp hothers,
      scanTemplatesNoEarlyExit_only ops (mTemplates ops) s p hp hothers]
    cases hm : matchLoop ops (s.length + 1) s p.2 [] with
    | found sols =>
      simp only
      cases hr : (foundResult p.1 sols).ret with
      | true => exact ⟨by simp [hr], fun _ => by simp⟩
      | false => exact ⟨by simp, fun h => absurd h (by simp)⟩
    | abort sols => exact ⟨rfl, fun h => absurd h (by simp)⟩
    | brk => exact ⟨rfl, fun _ => rfl⟩

/-- C27 (early exits never hide a match): for every script, `Solver` succeeds
exactly when the variant without early exits succeeds, in which the over-long
height and the failed multisig arity check abandon the current template and
the loop goes on with the next one, and on success both give the same type
and solutions. A script on which the comparison with one template of the
table does not break, in particular a script that reaches one of the two
early exits, breaks on every other template of the table; so the template
loop, with or without early exits, gives the same result for every order in
which the templates of the table are tried. -/
theorem C27_early_exits_hide_no_match (ops : BranchOpcodes) (hops : ops.WF) (s : MCScript)
    (t : txnouttype) :
    (SolverNoEarlyExit ops s t).ret = (Solver ops s t).ret ∧
    ((Solver ops s t).ret = true → SolverNoEarlyExit ops s t = Solver ops s t) ∧
    (∀ ty tpl ty2 tpl2, (ty, tpl) ∈ mTemplates ops → (ty2, tpl2) ∈ mTemplates ops →
      matchLoop ops (s.length + 1) s tpl [] ≠ .brk → ty2 ≠ ty →
      matchLoop ops (s.length + 1) s tpl2 [] = .brk) ∧
    (∀ L : List (txnouttype × MCScript), L.Perm (mTemplates ops) →
      scanTemplates ops L s t = scanTemplates ops (mTemplates ops) s t ∧
      scanTemplatesNoEarlyExit ops L s = scanTemplatesNoEarlyExit ops (mTemplates ops) s) := by
  have h12 : (SolverNoEarlyExit ops s t).ret = (Solver ops s t).ret ∧
      ((Solver ops s t).ret = true → SolverNoEarlyExit ops s t = Solver ops s t) := by
    unfold Solver SolverNoEarlyExit
    split
    · exact ⟨rfl, fun _ => rfl⟩
    · cases hw : IsWitnessProgram s with
      | some p =>
        obtain ⟨v, prog⟩ := p
        exact ⟨rfl, fun _ => rfl⟩
      | none =>
        simp only
        split
        · exact ⟨rfl, fun _ => rfl⟩
        · exact scanTemplates_agree ops hops s t
  refine ⟨h12.1, h12.2, ?_, ?_⟩
  · intro ty tpl ty2 tpl2 h1 h2 hne hty
    exact template_others_brk ops hops s (ty, tpl) h1 hne (ty2, tpl2) h2
      (fun e => hty (congrArg Prod.fst e))
  · intro L hL
    exact scanTemplates_order ops hops s t L (fun p => hL.mem_iff)

/-- Witness for C27: a mine-mortgage script with a height push of six bytes,
which reaches the over-long-height exit. -/
theorem C27_early_exits_hide_no_match_witness :
    (SolverNoEarlyExit sampleOps sampleLongHeight txnouttype.TX_NONSTANDARD).ret
      = (Solver sampleOps sampleLongHeight txnouttype.TX_NONSTANDARD).ret :=
  (C27_early_exits_hide_no_match sampleOps (by decide) sampleLongHeight
    txnouttype.TX_NONSTANDARD).1

/-! ## The shape of the solutions, by type -/

/-- C25 (solution shape makes indexing safe): for every script on which
`Solver` succeeds, the solutions have the shape of the type: exactly one
element of 20 bytes for pay-to-pubkey-hash, branch-create, mine-mortgage and
mortgage-coin; exactly one element of 33 to 65 bytes for pay-to-pubkey; at
least two elements, the first and the last of one byte, for multisig; none
for branch-transfer, branch-send and redeem-mortgage; and exactly one
element of 20 bytes for pay-to-script-hash, the other type whose first
solution `ExtractDestination` reads. Also every script that matches the
multisig template, where `Solver` reads `front()[0]` and `back()[0]` before
the arity check, has captured such a list. -/
theorem C25_solution_shapes (ops : BranchOpcodes) (hops : ops.WF) (s : MCScript)
    (t : txnouttype) (hret : (Solver ops s t).ret = true) :
    (((Solver ops s t).typeRet = txnouttype.TX_PUBKEYHASH ∨
        (Solver ops s t).typeRet = txnouttype.TX_CREATE_BRANCH ∨
        (Solver ops s t).typeRet = txnouttype.TX_MINE_MORTGAGE ∨
        (Solver ops s t).typeRet = txnouttype.TX_MORTGAGE_COIN) →
      ∃ v, (Solver ops s t).vSolutionsRet = [v] ∧ v.length = 20) ∧
    ((Solver ops s t).typeRet = txnouttype.TX_PUBKEY →
      ∃ v, (Solver ops s t).vSolutionsRet = [v] ∧ 33 ≤ v.length ∧ v.length ≤ 65) ∧
    ((Solver ops s t).typeRet = txnouttype.TX_MULTISIG →
      2 ≤ (Solver ops s t).vSolutionsRet.length ∧
      ∃ a b, (Solver ops s t).vSolutionsRet.head? = some [a] ∧
        (Solver ops s t).vSolutionsRet.getLast? = some [b]) ∧
    (((Solver ops s t).typeRet = txnouttype.TX_TRANS_BRANCH ∨
        (Solver ops s t).typeRet = txnouttype.TX_SEND_BRANCH ∨
        (Solver ops s t).typeRet = txnouttype.TX_REDEEM_MORTGAGE) →
      (Solver ops s t).vSolutionsRet = []) ∧
    ((Solver ops s t).typeRet = txnouttype.TX_SCRIPTHASH →
      ∃ v, (Solver ops s t).vSolutionsRet = [v] ∧ v.length = 20) ∧
    (∀ res, matchLoop ops (s.length + 1) s
        [OP_SMALLINTEGER, OP_PUBKEYS, OP_SMALLINTEGER, OP_CHECKMULTISIG] [] = .found res →
      2 ≤ res.length ∧ ∃ a b, res.head? = some [a] ∧ res.getLast? = some [b]) := by
  obtain ⟨h1, h2, h3, h4, h5⟩ := Solver_shapes ops hops s t hret
  refine ⟨h1, h2, h3, h4, ?_, h5⟩
  intro hty
  obtain ⟨hp, hv⟩ := Solver_scripthash_shape ops s t hret hty
  exact ⟨_, hv, p2sh_take_length s hp⟩

/-- Witness for C25: a pay-to-pubkey-hash script. -/
theorem C25_solution_shapes_witness :
    ∃ v, (Solver sampleOps sampleP2PKH txnouttype.TX_NONSTANDARD).vSolutionsRet = [v] ∧
      v.length = 20 :=
  (C25_solution_shapes sampleOps (by decide) sampleP2PKH txnouttype.TX_NONSTANDARD
    (by decide)).1 (Or.inl (by decide))

end MagnaChain
